import Mathlib

/-!
# pv_backend: the sandbox context broker (`cluster/cluster.go`)

A shallow embedding of `Cluster` and of the operations on it: `bestAgent`,
`GetExistingContext`, `GetContext`, the release closures those two return and
the expiry watcher goroutine that `GetContext` starts for every new context.

Conventions of the embedding.

* Go `uint` is 64 bit wide: counters are `Nat` with explicit `% 2 ^ 64`.
* A Go `map[string]uint` is only ever read with the zero default, so it is a
  total function `String → Nat`; `AppContext` is tested for presence and
  enumerated, so it is an association list with at most one entry per key.
* A `*Context` is a heap object: its immutable fields are the record
  `Context`, its address is the field `ptr`, and the mutable state reachable
  through the pointer (the `sync.RWMutex`, the timer) is kept in the cluster
  state, indexed by `ptr`.
* Every critical section under `c.mutex` is one atomic step. The results of
  the remote calls (`OpenContext`, `grpc.Dial`, `CloseContext`) are arguments.
* `Trace` is the list of agent RPCs issued so far, newest last.
-/

namespace cluster

/-! ## Machine integers -/

/-- Number of values of a Go `uint` on a 64 bit platform. -/
def uintSize : Nat := 2 ^ 64

/-- Go `x++` on a `uint`. -/
def uintInc (n : Nat) : Nat := (n + 1) % uintSize

/-- Go `x--` on a `uint`: decrementing zero wraps around. -/
def uintDec (n : Nat) : Nat := (n + (uintSize - 1)) % uintSize

/-- Go conversion `int(x)` of a `uint`: values from `2 ^ 63` on become negative. -/
def toInt (n : Nat) : Int :=
  if n % uintSize < 2 ^ 63 then ((n % uintSize : Nat) : Int)
  else ((n % uintSize : Nat) : Int) - (uintSize : Int)

/-! ## Data model (`cluster/types.go`) -/

/-- The fields of `Context` that are fixed when the context is built in
`GetContext`. `ptr` is the address of the heap object; `Agent` is the value of
the variable `agent` that the expiry watcher closure of this context captured. -/
structure Context where
  ptr : Nat
  AppId : String
  WorktreeId : String
  Id : String
  GrpcEndpoint : String
  AppEndpoint : String
  LspEndpoint : String
  Agent : String
  deriving DecidableEq, Repr

/-- State of a `sync.RWMutex`: number of read locks held, and whether the
write lock is held. -/
structure RWMutex where
  readers : Nat
  writer : Bool
  deriving DecidableEq, Repr

/-- One element of `OpenContextResp.PortEndpoints`. -/
structure PortEndpoint where
  Port : Nat
  Endpoint : String
  deriving DecidableEq, Repr

/-- The message `agentproto.OpenContextResp`. -/
structure OpenContextResp where
  ContextId : String
  GrpcEndpoint : String
  PortEndpoints : List PortEndpoint
  deriving DecidableEq, Repr

/-- An RPC issued to an agent. -/
inductive Rpc where
  | CloseAll (agent : String)
  | OpenContext (agent : String) (worktreeId : String) (sourceWorktreeId : String)
  | CloseContext (agent : String) (contextId : String)
  deriving DecidableEq, Repr

/-- The gRPC status code `codes.InvalidArgument`. -/
def InvalidArgument : Nat := 3

/-- The struct `Cluster` together with the state its goroutines share.

`Agents`, `AgentServiceClient` (here: which keys hold a client),
`AgentNumContexts`, `AppContext` and `AppContextRefCount` are the Go fields.
`ctxMutex p` is `context.mutex` of the context at address `p`, `Timer p` tells
whether its timer is armed, `TrackerStopped p` whether a stop signal was sent
to its state tracker, `ConnClosed p` whether its `GrpcConn` was closed.
`Watchers` are the expiry watcher goroutines that are waiting on their timer,
`nextPtr` is the next free address and `Trace` the RPCs issued so far. -/
structure Cluster where
  Agents : List String
  AgentServiceClient : String → Bool
  AgentNumContexts : String → Nat
  AppContext : List (String × Context)
  AppContextRefCount : String → Nat
  ctxMutex : Nat → RWMutex
  Timer : Nat → Bool
  TrackerStopped : Nat → Bool
  ConnClosed : Nat → Bool
  Watchers : List Context
  nextPtr : Nat
  Trace : List Rpc

/-! ## Maps -/

/-- Go `v, found := m[k]` on `AppContext`. -/
def mapGet : List (String × Context) → String → Option Context
  | [], _ => none
  | (k1, v) :: rest, k => if k1 = k then some v else mapGet rest k

/-- Go `delete(m, k)` on `AppContext`. -/
def mapDelete (m : List (String × Context)) (k : String) : List (String × Context) :=
  m.filter (fun e => decide (e.1 ≠ k))

/-- Go `m[k] = v` on `AppContext`. -/
def mapSet (m : List (String × Context)) (k : String) (v : Context) :
    List (String × Context) :=
  (k, v) :: mapDelete m k

/-- Update of one key of a total map. -/
def setAt {α β : Type} [DecidableEq α] (f : α → β) (k : α) (v : β) : α → β :=
  fun x => if x = k then v else f x

/-! ## `NewCluster` -/

/-- The struct literal at the head of `NewCluster`: every map is empty. -/
def emptyCluster (agents : List String) : Cluster :=
  { Agents := agents
    AgentServiceClient := fun _ => false
    AgentNumContexts := fun _ => 0
    AppContext := []
    AppContextRefCount := fun _ => 0
    ctxMutex := fun _ => ⟨0, false⟩
    Timer := fun _ => false
    TrackerStopped := fun _ => false
    ConnClosed := fun _ => false
    Watchers := []
    nextPtr := 0
    Trace := [] }

/-- The loop of `NewCluster` over the agents still to be connected. `dial a`
and `closeAll a` are the errors (if any) of `grpc.Dial` and of the `CloseAll`
RPC for agent `a`. -/
def connectAgents (dial closeAll : String → Option String) :
    List String → Cluster → Except String Cluster
  | [], c => Except.ok c
  | agent :: rest, c =>
    match dial agent with
    | some err => Except.error err
    | none =>
      match closeAll agent with
      | some err => Except.error err
      | none =>
        connectAgents dial closeAll rest
          { c with
            AgentServiceClient := setAt c.AgentServiceClient agent true
            Trace := c.Trace ++ [Rpc.CloseAll agent] }

/-- `NewCluster(agents, contextExpirationTime)`. -/
def NewCluster (agents : List String) (dial closeAll : String → Option String) :
    Except String Cluster :=
  connectAgents dial closeAll agents (emptyCluster agents)

/-- The cluster `NewCluster` returns when every `grpc.Dial` and every
`CloseAll` succeeds (see `NewCluster_fresh`). -/
def fresh (agents : List String) : Cluster :=
  { emptyCluster agents with
    AgentServiceClient := fun a => decide (a ∈ agents)
    Trace := agents.map Rpc.CloseAll }

/-! ## `bestAgent` -/

/-- One iteration of the loop in `bestAgent`; the state is
`(minContexts, bestAgent)`. -/
def bestAgentStep (num : String → Nat) (st : Int × String) (agent : String) :
    Int × String :=
  if st.1 = -1 ∨ toInt (num agent) < st.1 then (toInt (num agent), agent) else st

/-- The loop of `bestAgent` over a list of agents. -/
def bestAgentLoop (num : String → Nat) (agents : List String) (st : Int × String) :
    Int × String :=
  agents.foldl (bestAgentStep num) st

/-- `Cluster.bestAgent`. -/
def Cluster.bestAgent (c : Cluster) : String :=
  (bestAgentLoop c.AgentNumContexts c.Agents (-1, "")).2

/-! ## Leases -/

/-- The closure `func()` that is returned together with a context. The three
closures in the source (in `GetExistingContext` and on the hit and the miss
path of `GetContext`) have the same body and capture `appId` and `context`;
`context` is the address of the captured context. -/
structure ReleaseFn where
  appId : String
  context : Nat
  deriving DecidableEq, Repr

/-- How a call of `GetContext` or `GetExistingContext` ends.

* `lease context release`: it returns `context, release` (and a nil error);
* `notFound`: `GetExistingContext` returns `nil, nil`;
* `failed err`: `GetContext` returns `nil, nil, err`;
* `blocked`: it never returns, it waits in `context.mutex.RLock()` for a write
  lock that is never released;
* `nilClient`: `c.AgentServiceClient[agent]` is nil, so `client.OpenContext`
  panics while `c.mutex` is held. -/
inductive Outcome where
  | lease (context : Context) (release : ReleaseFn)
  | notFound
  | failed (err : String)
  | blocked
  | nilClient
  deriving DecidableEq, Repr

/-- The tail shared by all three lease paths, after `c.mutex.Unlock()`:
`context.mutex.RLock()` and the return of the context with its closure. -/
def Cluster.rlockAndReturn (c : Cluster) (appId : String) (context : Context) :
    Cluster × Outcome :=
  if (c.ctxMutex context.ptr).writer = true then (c, Outcome.blocked)
  else
    ({ c with
       ctxMutex := setAt c.ctxMutex context.ptr
         { readers := (c.ctxMutex context.ptr).readers + 1, writer := false } },
     Outcome.lease context { appId := appId, context := context.ptr })

/-- `Cluster.GetExistingContext(appId)`. -/
def Cluster.GetExistingContext (c : Cluster) (appId : String) : Cluster × Outcome :=
  match mapGet c.AppContext appId with
  | some context =>
    Cluster.rlockAndReturn
      { c with
        AppContextRefCount :=
          setAt c.AppContextRefCount appId (uintInc (c.AppContextRefCount appId)) }
      appId context
  | none => (c, Outcome.notFound)

/-- One iteration of the loop over `openResp.PortEndpoints`; the state is
`(appEndpoint, lspEndpoint)`. -/
def portEndpointStep (st : String × String) (pe : PortEndpoint) : String × String :=
  if pe.Port = 8080 then (pe.Endpoint, st.2)
  else if pe.Port = 2089 then (st.1, pe.Endpoint)
  else st

/-- The loop over `openResp.PortEndpoints`, from two empty strings. -/
def portEndpoints (pes : List PortEndpoint) : String × String :=
  pes.foldl portEndpointStep ("", "")

/-- The `&Context{...}` literal of `GetContext`, allocated at address `ptr`. -/
def newContext (ptr : Nat) (appId worktreeId agent : String) (openResp : OpenContextResp) :
    Context :=
  { ptr := ptr
    AppId := appId
    WorktreeId := worktreeId
    Id := openResp.ContextId
    GrpcEndpoint := openResp.GrpcEndpoint
    AppEndpoint := (portEndpoints openResp.PortEndpoints).1
    LspEndpoint := (portEndpoints openResp.PortEndpoints).2
    Agent := agent }

/-- `Cluster.GetContext(appId, sourceWorktreeId, worktreeId)`.

`openResult` is what `client.OpenContext` returns and `dialErr` the error (if
any) of the `grpc.Dial` to the sandbox; neither is looked at on a registry
hit. -/
def Cluster.GetContext (c : Cluster) (appId sourceWorktreeId worktreeId : String)
    (openResult : Except String OpenContextResp) (dialErr : Option String) :
    Cluster × Outcome :=
  match mapGet c.AppContext appId with
  | some context =>
    if context.WorktreeId ≠ worktreeId then
      (c, Outcome.failed "Inconsistent worktree IDs for the same app")
    else
      Cluster.rlockAndReturn
        { c with
          AppContextRefCount :=
            setAt c.AppContextRefCount appId (uintInc (c.AppContextRefCount appId)) }
        appId context
  | none =>
    let agent := c.bestAgent
    let c1 : Cluster :=
      { c with
        AgentNumContexts :=
          setAt c.AgentNumContexts agent (uintInc (c.AgentNumContexts agent)) }
    if c.AgentServiceClient agent = false then (c1, Outcome.nilClient)
    else
      let c2 : Cluster :=
        { c1 with Trace := c1.Trace ++ [Rpc.OpenContext agent worktreeId sourceWorktreeId] }
      match openResult with
      | Except.error err => (c2, Outcome.failed err)
      | Except.ok openResp =>
        match dialErr with
        | some err => (c2, Outcome.failed err)
        | none =>
          let context := newContext c.nextPtr appId worktreeId agent openResp
          Cluster.rlockAndReturn
            { c2 with
              AppContext := mapSet c2.AppContext appId context
              AppContextRefCount :=
                setAt c2.AppContextRefCount appId (uintInc (c2.AppContextRefCount appId))
              ctxMutex := setAt c2.ctxMutex context.ptr { readers := 0, writer := false }
              Timer := setAt c2.Timer context.ptr true
              TrackerStopped := setAt c2.TrackerStopped context.ptr false
              ConnClosed := setAt c2.ConnClosed context.ptr false
              Watchers := context :: c2.Watchers
              nextPtr := c2.nextPtr + 1 }
            appId context

/-- A call of a release closure: `context.mutex.RUnlock()`, then the decrement
of the refcount under `c.mutex`. The result is `none` when `RUnlock` finds no
read lock held: the Go runtime then aborts the process
(`fatal error: sync: RUnlock of unlocked RWMutex`). -/
def ReleaseFn.call (r : ReleaseFn) (c : Cluster) : Option Cluster :=
  if (c.ctxMutex r.context).readers = 0 then none
  else
    some
      { c with
        ctxMutex := setAt c.ctxMutex r.context
          { readers := (c.ctxMutex r.context).readers - 1
            writer := (c.ctxMutex r.context).writer }
        AppContextRefCount :=
          setAt c.AppContextRefCount r.appId (uintDec (c.AppContextRefCount r.appId)) }

/-! ## The expiry watcher -/

/-- One wake-up of the expiry watcher goroutine of `context`, that is one
delivery on `context.Timer.C`, up to the next wait or to the end of the
goroutine. `closeErr` is the gRPC code of the error of `CloseContext`, `none`
when the RPC succeeds.

The result is `none` when the watcher waits forever in `context.mutex.Lock()`
with `c.mutex` held: no operation on the cluster completes after that. -/
def Cluster.expiryWatcher (c : Cluster) (context : Context) (closeErr : Option Nat) :
    Option Cluster :=
  if c.AppContextRefCount context.AppId > 0 then
    some { c with Timer := setAt c.Timer context.ptr true }
  else if (c.ctxMutex context.ptr).readers > 0 ∨ (c.ctxMutex context.ptr).writer = true then
    none
  else
    let c1 : Cluster :=
      { c with
        Timer := setAt c.Timer context.ptr false
        TrackerStopped := setAt c.TrackerStopped context.ptr true
        ConnClosed := setAt c.ConnClosed context.ptr true
        Watchers := c.Watchers.filter (fun w => decide (w ≠ context))
        Trace := c.Trace ++ [Rpc.CloseContext context.Agent context.Id] }
    if closeErr = none ∨ closeErr = some InvalidArgument then
      some
        { c1 with
          AppContext := mapDelete c1.AppContext context.AppId
          AgentNumContexts :=
            setAt c1.AgentNumContexts context.Agent
              (uintDec (c1.AgentNumContexts context.Agent))
          ctxMutex := setAt c1.ctxMutex context.ptr { readers := 0, writer := false } }
    else
      some
        { c1 with
          ctxMutex := setAt c1.ctxMutex context.ptr { readers := 0, writer := true } }

/-! ## Executions -/

/-- The events of an execution: calls by clients and timer deliveries. -/
inductive Action where
  | getContext (appId sourceWorktreeId worktreeId : String)
      (openResult : Except String OpenContextResp) (dialErr : Option String)
  | getExisting (appId : String)
  | release (r : ReleaseFn)
  | expire (context : Context) (closeErr : Option Nat)

/-- Whether the event is a timer delivery whose `CloseContext` fails with a
gRPC code other than `InvalidArgument`. -/
def Action.fatal : Action → Bool
  | Action.expire _ (some code) => decide (code ≠ InvalidArgument)
  | _ => false

/-- Whether every result the event supplies for `OpenContext` and for
`grpc.Dial` is a success. -/
def Action.opensOk : Action → Bool
  | Action.getContext _ _ _ (Except.ok _) none => true
  | Action.getContext _ _ _ _ _ => false
  | _ => true

/-- A cluster together with the bookkeeping of its clients: `leases` are the
release closures that were returned and have not been called, `blocked` the
app ids of the calls that wait forever in `RLock`. -/
structure World where
  c : Cluster
  leases : List ReleaseFn
  blocked : List String

/-- The state in which a call leaves the world; `none` if it panics. -/
def World.afterCall (w : World) (appId : String) (res : Cluster × Outcome) : Option World :=
  match res.2 with
  | Outcome.lease _ release => some { w with c := res.1, leases := release :: w.leases }
  | Outcome.notFound => some { w with c := res.1 }
  | Outcome.failed _ => some { w with c := res.1 }
  | Outcome.blocked => some { w with c := res.1, blocked := appId :: w.blocked }
  | Outcome.nilClient => none

/-- One event. The result is `none` when the event cannot happen (a release
closure that was not handed out or was already called, a timer delivery to a
watcher that does not exist) or when nothing happens after it (panic, abort,
deadlock). -/
def World.step (w : World) : Action → Option World
  | Action.getContext appId sourceWorktreeId worktreeId openResult dialErr =>
    w.afterCall appId (w.c.GetContext appId sourceWorktreeId worktreeId openResult dialErr)
  | Action.getExisting appId =>
    w.afterCall appId (w.c.GetExistingContext appId)
  | Action.release r =>
    if r ∈ w.leases then
      match r.call w.c with
      | some c1 => some { w with c := c1, leases := w.leases.erase r }
      | none => none
    else none
  | Action.expire context closeErr =>
    if context ∈ w.c.Watchers then
      match w.c.expiryWatcher context closeErr with
      | some c1 => some { w with c := c1 }
      | none => none
    else none

/-- A sequence of events, one after the other. -/
def World.run (w : World) : List Action → Option World
  | [] => some w
  | a :: rest =>
    match w.step a with
    | some w1 => w1.run rest
    | none => none

/-- The world around a cluster that `NewCluster` has just returned. -/
def World.init (agents : List String) : World :=
  { c := fresh agents, leases := [], blocked := [] }

/-- A response of `OpenContext` with both well-known ports mapped. -/
def sampleResp : OpenContextResp :=
  { ContextId := "ctx-1"
    GrpcEndpoint := "10.0.0.1:50051"
    PortEndpoints := [{ Port := 8080, Endpoint := "10.0.0.1:31000" },
      { Port := 2089, Endpoint := "10.0.0.1:31001" }] }

/-- The context that a fresh cluster with the single agent "A" builds for
`GetContext("app1", "", "w1")` from `sampleResp`. -/
def sampleContext : Context := newContext 0 "app1" "w1" "A" sampleResp

/-- The gRPC status code `codes.Unavailable`. -/
def Unavailable : Nat := 14

/-- Lease "app1", release it, let the expiry fire with a `CloseContext` that
fails with `Unavailable`, then ask for "app1" again. -/
def fencedRun : List Action :=
  [Action.getContext "app1" "" "w1" (Except.ok sampleResp) none,
    Action.release { appId := "app1", context := 0 },
    Action.expire sampleContext (some Unavailable),
    Action.getContext "app1" "" "w1" (Except.ok sampleResp) none]

/-- The world after `fencedRun` on a fresh cluster with the single agent "A". -/
def fencedWorld : World :=
  ((World.init ["A"]).run fencedRun).getD (World.init ["A"])

/-- A fresh cluster with the single agent "A" after two successive
`GetContext("app1", "", "w1")` calls, none of them released. -/
def twoLeases : Cluster :=
  (((fresh ["A"]).GetContext "app1" "" "w1" (Except.ok sampleResp) none).1.GetContext
    "app1" "" "w1" (Except.ok sampleResp) none).1

/-- A fresh cluster with the single agent "A" after
`GetContext("app1", "", "w1")`. -/
def singleLease : Cluster :=
  ((fresh ["A"]).GetContext "app1" "" "w1" (Except.ok sampleResp) none).1

/-- The cluster `singleLease` after the call of the release closure of its
lease. -/
def leasedAndReleased : Cluster :=
  ((ReleaseFn.mk "app1" 0).call singleLease).getD singleLease

/-- The cluster `twoLeases` after one call of the release closure of its first
lease. -/
def releasedOnce : Cluster :=
  ((ReleaseFn.mk "app1" 0).call twoLeases).getD twoLeases

/-- The cluster `releasedOnce` after a second call of the same closure. -/
def releasedTwice : Cluster :=
  ((ReleaseFn.mk "app1" 0).call releasedOnce).getD releasedOnce

/-- Lease "app1" and release it. -/
def leaseReleaseRun : List Action :=
  [Action.getContext "app1" "" "w1" (Except.ok sampleResp) none,
    Action.release { appId := "app1", context := 0 }]

/-- The world after `leaseReleaseRun` on a fresh cluster with the single agent
"A". -/
def leaseReleaseWorld : World :=
  ((World.init ["A"]).run leaseReleaseRun).getD (World.init ["A"])

/-- `GetContext(appId, sourceWorktreeId, worktreeId)` followed by the call of
the release closure it returned: the cluster afterwards and the context that
was returned. The result is `none` when no lease is returned or when the
release aborts. -/
def Cluster.leaseThenRelease (c : Cluster) (appId sourceWorktreeId worktreeId : String)
    (openResult : Except String OpenContextResp) (dialErr : Option String) :
    Option (Cluster × Context) :=
  match c.GetContext appId sourceWorktreeId worktreeId openResult dialErr with
  | (c1, Outcome.lease context release) =>
    match release.call c1 with
    | some c2 => some (c2, context)
    | none => none
  | _ => none

/-- As many `leaseThenRelease` in sequence as `results` has elements; the
element `i` of `results` holds what `OpenContext` and `grpc.Dial` would return
in the call `i`. The result is the cluster afterwards and the contexts that
were returned, in order. -/
def Cluster.leaseReleaseN (c : Cluster) (appId sourceWorktreeId worktreeId : String) :
    List (Except String OpenContextResp × Option String) → Option (Cluster × List Context)
  | [] => some (c, [])
  | e :: rest =>
    match c.leaseThenRelease appId sourceWorktreeId worktreeId e.1 e.2 with
    | some (c1, context) =>
      match c1.leaseReleaseN appId sourceWorktreeId worktreeId rest with
      | some (c2, contexts) => some (c2, context :: contexts)
      | none => none
    | none => none

/-- Successive `GetContext(appId, sourceWorktreeId, worktreeId)` calls, one for
each element `(appId, sourceWorktreeId, worktreeId, openResp)` of the list,
every `OpenContext` returning its `openResp` and every `grpc.Dial` succeeding. -/
def Cluster.placeAll (c : Cluster) :
    List (String × String × String × OpenContextResp) → Cluster
  | [] => c
  | (appId, sourceWorktreeId, worktreeId, openResp) :: rest =>
    Cluster.placeAll
      (c.GetContext appId sourceWorktreeId worktreeId (Except.ok openResp) none).1 rest

/-- Two agents whose counters are 3 for "A" and 1 for "B". -/
def loadedCluster : Cluster :=
  { fresh ["A", "B"] with
    AgentNumContexts := fun a => if a = "A" then 3 else if a = "B" then 1 else 0 }

/-- Two agents whose counters are `2 ^ 63` for "A" and 0 for "B". -/
def skewedCluster : Cluster :=
  { fresh ["A", "B"] with AgentNumContexts := fun a => if a = "A" then 2 ^ 63 else 0 }

/-- Number of contexts in the registry that were placed on `agent`. -/
def Cluster.placedOn (c : Cluster) (agent : String) : Nat :=
  (c.AppContext.filter (fun e => decide (e.2.Agent = agent))).length

/-- Number of leases on `appId` that were returned and not released. -/
def World.outstanding (w : World) (appId : String) : Nat :=
  (w.leases.filter (fun r => decide (r.appId = appId))).length

/-- Number of calls for `appId` that wait forever in `RLock`. -/
def World.waiting (w : World) (appId : String) : Nat :=
  (w.blocked.filter (fun a => decide (a = appId))).length

/-- Number of `OpenContext` RPCs in a trace. -/
def countOpen (t : List Rpc) : Nat :=
  (t.filter (fun r => match r with | Rpc.OpenContext _ _ _ => true | _ => false)).length

/-- Number of `CloseContext` RPCs in a trace. -/
def countClose (t : List Rpc) : Nat :=
  (t.filter (fun r => match r with | Rpc.CloseContext _ _ => true | _ => false)).length

/-! ## Invariants and effects used in the proofs -/

/-- The effect of a call on the refcounts, by outcome. -/
def RefcountEffect (c : Cluster) (appId : String) (res : Cluster × Outcome) : Prop :=
  (∀ context r, res.2 = Outcome.lease context r →
      r.appId = appId ∧ res.1.AppContextRefCount
        = setAt c.AppContextRefCount appId (uintInc (c.AppContextRefCount appId)))
    ∧ (res.2 = Outcome.blocked → res.1.AppContextRefCount
        = setAt c.AppContextRefCount appId (uintInc (c.AppContextRefCount appId)))
    ∧ (∀ err, res.2 = Outcome.failed err → res.1.AppContextRefCount = c.AppContextRefCount)
    ∧ (res.2 = Outcome.notFound → res.1.AppContextRefCount = c.AppContextRefCount)

/-- The refcount of every app is the number of its outstanding leases plus the
number of calls for it that wait forever, modulo `2 ^ 64`. -/
def RefInv (w : World) : Prop :=
  ∀ x, w.c.AppContextRefCount x = (w.outstanding x + w.waiting x) % uintSize

/-- No context lock is write-locked and no call waits forever. -/
def NoFence (w : World) : Prop :=
  (∀ p, (w.c.ctxMutex p).writer = false) ∧ w.blocked = []

/-- Every waiting watcher belongs to a context that is registered under its
app id and lies below `nextPtr`, and no two of them share an address. -/
def WatchInv (c : Cluster) : Prop :=
  (∀ v ∈ c.Watchers, mapGet c.AppContext v.AppId = some v ∧ v.ptr < c.nextPtr)
    ∧ (∀ v ∈ c.Watchers, ∀ v1 ∈ c.Watchers, v.ptr = v1.ptr → v = v1)

/-- The context is registered, its lock is write-locked, and no waiting watcher
belongs to its app or to its address. -/
def Fenced (context : Context) (c : Cluster) : Prop :=
  mapGet c.AppContext context.AppId = some context
    ∧ (c.ctxMutex context.ptr).writer = true
    ∧ context.ptr < c.nextPtr
    ∧ ∀ v ∈ c.Watchers, v.AppId ≠ context.AppId ∧ v.ptr ≠ context.ptr

/-- Every agent counter is the number of contexts registered on the agent,
modulo `2 ^ 64`; the registry has one entry per key; `WatchInv` holds. -/
def CountInv (c : Cluster) : Prop :=
  (∀ a, c.AgentNumContexts a = c.placedOn a % uintSize)
    ∧ (c.AppContext.map Prod.fst).Nodup
    ∧ WatchInv c

/-- The state between two lease and release pairs on the context `context`. -/
def Idle (appId : String) (context : Context) (trace : List Rpc) (c : Cluster) : Prop :=
  mapGet c.AppContext appId = some context
    ∧ c.AppContextRefCount appId = 0
    ∧ c.ctxMutex context.ptr = { readers := 0, writer := false }
    ∧ c.Trace = trace

end cluster

/-! # Go channels -/

namespace golang

/-- A buffered Go channel: its capacity and the elements waiting in it, oldest
first. A channel of capacity 0 has no buffer; the model then describes the
sends at which no receiver is waiting. -/
structure Chan (α : Type) where
  cap : Nat
  buf : List α
  deriving DecidableEq, Repr

/-- `make(chan T, cap)`. -/
def Chan.make {α : Type} (cap : Nat) : Chan α := { cap := cap, buf := [] }

/-- Whether a send would have to wait. -/
def Chan.full {α : Type} (c : Chan α) : Bool := decide (c.cap ≤ c.buf.length)

/-- The blocking send `c <- v`; `none` when the sender has to wait. -/
def Chan.send {α : Type} (c : Chan α) (v : α) : Option (Chan α) :=
  if c.buf.length < c.cap then some { c with buf := c.buf ++ [v] } else none

/-- The non-blocking send `select { case c <- v: default: }`: the value is
dropped when the channel is full. -/
def Chan.offer {α : Type} (c : Chan α) (v : α) : Chan α :=
  if c.buf.length < c.cap then { c with buf := c.buf ++ [v] } else c

/-- The receive `<-c`: the oldest element and the channel without it; `none`
when the receiver has to wait. -/
def Chan.recv {α : Type} (c : Chan α) : Option (α × Chan α) :=
  match c.buf with
  | [] => none
  | v :: rest => some (v, { c with buf := rest })

end golang

/-! # State subscriptions of a context (`cluster/cluster.go`) -/

namespace cluster

open golang

/-- The enum `processproto.ProcessState`. -/
inductive ProcessState where
  | NOT_RUNNING
  | STARTING
  | RUNNING
  | FINISHED
  deriving DecidableEq, Repr

/-- The fields of a `Context` that `AppStateMutex` guards. `AppStateChan i` is
the channel registered under the id `i`, if any. -/
structure TrackedContext where
  AppState : ProcessState
  AppStateChan : Nat → Option (Chan ProcessState)
  NextChanId : Nat

/-- These fields in the `&Context{...}` literal of `GetContext`. -/
def newTracked : TrackedContext :=
  { AppState := ProcessState.NOT_RUNNING
    AppStateChan := fun _ => none
    NextChanId := 0 }

/-- `Context.GetAppStateChan()`: the context afterwards, the channel and the
id. `NextChanId` is a `uint64`. The result is `none` if the send of the
current state had to wait. -/
def GetAppStateChan (ctx : TrackedContext) :
    Option (TrackedContext × Chan ProcessState × Nat) :=
  match (Chan.make 256 : Chan ProcessState).send ctx.AppState with
  | some stateChan =>
    some
      ({ ctx with
         AppStateChan := setAt ctx.AppStateChan ctx.NextChanId (some stateChan)
         NextChanId := uintInc ctx.NextChanId },
       stateChan, ctx.NextChanId)
  | none => none

/-- `Context.RemoveAppStateChan(chanId)`. -/
def RemoveAppStateChan (ctx : TrackedContext) (chanId : Nat) : TrackedContext :=
  { ctx with AppStateChan := setAt ctx.AppStateChan chanId none }

/-- One tick of the state tracker goroutine, after the 100 ms wait. `resp` is
the state that `GetProcessState` returned, `none` when the RPC failed. -/
def trackerTick (ctx : TrackedContext) (resp : Option ProcessState) : TrackedContext :=
  match resp with
  | none => ctx
  | some state =>
    if ctx.AppState ≠ state then
      { ctx with
        AppState := state
        AppStateChan := fun i => (ctx.AppStateChan i).map (fun c => c.offer state) }
    else ctx

/-- Several ticks in sequence. -/
def trackerTicks (ctx : TrackedContext) : List (Option ProcessState) → TrackedContext
  | [] => ctx
  | resp :: rest => trackerTicks (trackerTick ctx resp) rest

/-- The events on the subscriptions of one context. -/
inductive SubEvent where
  | subscribe
  | remove (chanId : Nat)
  | tick (resp : Option ProcessState)
  | recv (chanId : Nat)

/-- One event; the second component is the id that a `subscribe` returned. A
`recv` on an empty or unknown channel waits and changes nothing. -/
def subStep (ctx : TrackedContext) : SubEvent → TrackedContext × Option Nat
  | SubEvent.subscribe =>
    match GetAppStateChan ctx with
    | some (ctx1, _, chanId) => (ctx1, some chanId)
    | none => (ctx, none)
  | SubEvent.remove chanId => (RemoveAppStateChan ctx chanId, none)
  | SubEvent.tick resp => (trackerTick ctx resp, none)
  | SubEvent.recv chanId =>
    match ctx.AppStateChan chanId with
    | some c =>
      match c.recv with
      | some (_, c1) => ({ ctx with AppStateChan := setAt ctx.AppStateChan chanId (some c1) }, none)
      | none => (ctx, none)
    | none => (ctx, none)

/-- A sequence of events: the context afterwards and the ids that the
`subscribe` events returned, in order. -/
def subRun (ctx : TrackedContext) : List SubEvent → TrackedContext × List Nat
  | [] => (ctx, [])
  | e :: rest =>
    match subStep ctx e with
    | (ctx1, some chanId) => ((subRun ctx1 rest).1, chanId :: (subRun ctx1 rest).2)
    | (ctx1, none) => subRun ctx1 rest

/-- Number of `subscribe` events. -/
def countSubscribe (events : List SubEvent) : Nat :=
  (events.filter (fun e => match e with | SubEvent.subscribe => true | _ => false)).length

/-- One subscriber and its context: `received` is what the subscriber has read
from its channel so far, `truth` the state at subscription time followed by
every later transition that the tracker detected. -/
structure Subscription where
  ctx : TrackedContext
  chanId : Nat
  received : List ProcessState
  truth : List ProcessState

/-- The subscription that `GetAppStateChan` opens. -/
def Subscription.start (ctx : TrackedContext) : Option Subscription :=
  match GetAppStateChan ctx with
  | some (ctx1, _, chanId) =>
    some { ctx := ctx1, chanId := chanId, received := [], truth := [ctx.AppState] }
  | none => none

/-- What happens around a subscription: a tick of the tracker, or a read of the
subscriber from its channel. -/
inductive SubAction where
  | tick (resp : Option ProcessState)
  | read

/-- One action. A read on an empty channel waits and changes nothing. -/
def Subscription.step (s : Subscription) : SubAction → Subscription
  | SubAction.tick resp =>
    { s with
      ctx := trackerTick s.ctx resp
      truth :=
        match resp with
        | some state => if s.ctx.AppState ≠ state then s.truth ++ [state] else s.truth
        | none => s.truth }
  | SubAction.read =>
    match s.ctx.AppStateChan s.chanId with
    | some c =>
      match c.recv with
      | some (v, c1) =>
        { s with
          ctx := { s.ctx with AppStateChan := setAt s.ctx.AppStateChan s.chanId (some c1) }
          received := s.received ++ [v] }
      | none => s
    | none => s

/-- A sequence of actions. -/
def Subscription.run (s : Subscription) : List SubAction → Subscription
  | [] => s
  | a :: rest => Subscription.run (s.step a) rest

/-- What a subscription shows of its context: the stored state and the
channel of the subscriber, with what was received and the true sequence. -/
structure SubView where
  AppState : ProcessState
  chan : Option (Chan ProcessState)
  received : List ProcessState
  truth : List ProcessState
  deriving DecidableEq, Repr

/-- The view of a subscription. -/
def Subscription.view (s : Subscription) : SubView :=
  { AppState := s.ctx.AppState
    chan := s.ctx.AppStateChan s.chanId
    received := s.received
    truth := s.truth }

/-- The effect of one action on the view (see `view_step`). -/
def SubView.step (v : SubView) : SubAction → SubView
  | SubAction.tick none => v
  | SubAction.tick (some state) =>
    if v.AppState ≠ state then
      { v with
        AppState := state
        chan := v.chan.map (fun c => c.offer state)
        truth := v.truth ++ [state] }
    else v
  | SubAction.read =>
    match v.chan with
    | some c =>
      match c.recv with
      | some (x, c1) => { v with chan := some c1, received := v.received ++ [x] }
      | none => v
    | none => v

/-- The effect of a sequence of actions on the view. -/
def SubView.run (v : SubView) : List SubAction → SubView
  | [] => v
  | a :: rest => SubView.run (v.step a) rest

/-- The channel of the subscriber has the capacity 256; what was received,
followed by what waits in the channel, is the true sequence with some events
left out, and the whole true sequence as long as that has at most 256
events. -/
def ViewInv (v : SubView) : Prop :=
  ∃ c, v.chan = some c ∧ c.cap = 256
    ∧ List.Sublist (v.received ++ c.buf) v.truth
    ∧ (v.truth.length ≤ 256 → v.received ++ c.buf = v.truth)

/-- A sequence of `n` transitions after the state `prev`, to `STARTING` and
`RUNNING` in turn. -/
def alternate : Nat → ProcessState → List ProcessState
  | 0, _ => []
  | n + 1, prev =>
    (if prev = ProcessState.STARTING then ProcessState.RUNNING else ProcessState.STARTING)
      :: alternate n
        (if prev = ProcessState.STARTING then ProcessState.RUNNING else ProcessState.STARTING)

/-- Fill the channel of a new subscriber with 255 transitions, let one more
transition (to `FINISHED`) happen, read once, let another transition (to
`NOT_RUNNING`) happen, and read the 256 events that wait. -/
def lossySchedule : List SubAction :=
  (alternate 255 ProcessState.NOT_RUNNING).map (fun state => SubAction.tick (some state))
    ++ ([SubAction.tick (some ProcessState.FINISHED), SubAction.read,
        SubAction.tick (some ProcessState.NOT_RUNNING)]
      ++ List.replicate 256 SubAction.read)

/-- What waits unread in the channel of the subscriber. -/
def Subscription.buffered (s : Subscription) : List ProcessState :=
  match s.ctx.AppStateChan s.chanId with
  | some c => c.buf
  | none => []

end cluster

/-! # The log manager (`logmgr/logmgr.go`) -/

namespace logmgr

open golang

/-- A Go `string`: a sequence of bytes. -/
abbrev Bytes := List Nat

/-- The bytes of a text of ASCII characters. -/
def ascii (s : String) : Bytes := s.toList.map Char.toNat

/-- The byte `'\n'`. -/
def newline : Nat := 10

/-- `strings.Contains(line, "\n")`. -/
def containsNewline (line : Bytes) : Bool := line.contains newline

/-- The struct `AppContext`; `idleTimer` tells whether the timer is non-nil,
`outputChans i` is the channel registered under the id `i`, if any. -/
structure AppContext where
  id : String
  inputChan : Chan Bytes
  outputChans : Nat → Option (Chan Bytes)
  idleTimer : Bool
  handlerRunning : Bool
  nextId : Nat

/-- The struct `LogMgr` with what its goroutines work on: `files appId` is the
content of the file `path.Join(BaseLogDir, appId)`, `none` when the file does
not exist (app ids are taken to name distinct files), and `handlerFile appId`
tells whether the local variable `f` of the handler goroutine of the app is
non-nil. -/
structure LogMgr where
  BaseLogDir : String
  appContext : String → Option AppContext
  files : String → Option Bytes
  handlerFile : String → Bool

/-- The `LogMgr` that `NewLogMgr` returns, over the files that exist. -/
def NewLogMgr (baseLogDir : String) (files : String → Option Bytes) : LogMgr :=
  { BaseLogDir := baseLogDir
    appContext := fun _ => none
    files := files
    handlerFile := fun _ => false }

/-- The `&AppContext{...}` literal of `getAppContext`. -/
def newAppContext (appId : String) : AppContext :=
  { id := appId
    inputChan := Chan.make 1024
    outputChans := fun _ => none
    idleTimer := false
    handlerRunning := false
    nextId := 0 }

/-- `LogMgr.getAppContext(appId)`. -/
def LogMgr.getAppContext (l : LogMgr) (appId : String) : LogMgr × AppContext :=
  match l.appContext appId with
  | some ac => (l, ac)
  | none =>
    ({ l with appContext := cluster.setAt l.appContext appId (some (newAppContext appId)) },
     newAppContext appId)

/-- An assignment through the pointer `ac`. -/
def LogMgr.store (l : LogMgr) (appId : String) (ac : AppContext) : LogMgr :=
  { l with appContext := cluster.setAt l.appContext appId (some ac) }

/-- `LogMgr.maybeStartHandler(ac)`: a new handler goroutine starts with
`f = nil`. -/
def LogMgr.maybeStartHandler (l : LogMgr) (appId : String) (ac : AppContext) : LogMgr :=
  if ac.handlerRunning = true then l
  else
    { l.store appId { ac with handlerRunning := true, idleTimer := true } with
      handlerFile := cluster.setAt l.handlerFile appId false }

/-- How a call of `WriteLine` ends: with an error, with `nil`, or not at all
as long as no handler receives from the full `inputChan`. -/
inductive WriteOutcome where
  | error (msg : String)
  | ok
  | blocked
  deriving DecidableEq, Repr

/-- `LogMgr.WriteLine(appId, line)`. -/
def LogMgr.WriteLine (l : LogMgr) (appId : String) (line : Bytes) : LogMgr × WriteOutcome :=
  if containsNewline line = true then (l, WriteOutcome.error "Line cannot contain \\n")
  else
    match (l.getAppContext appId).2.inputChan.send line with
    | none => ((l.getAppContext appId).1, WriteOutcome.blocked)
    | some inputChan =>
      (LogMgr.maybeStartHandler
        ((l.getAppContext appId).1.store appId
          { (l.getAppContext appId).2 with inputChan := inputChan })
        appId { (l.getAppContext appId).2 with inputChan := inputChan },
       WriteOutcome.ok)

/-- What the file system does for one line of the handler: whether
`os.OpenFile` fails, and, when `f.WriteString` fails, how many bytes it had
written before (`none` when it succeeds). -/
structure FileResult where
  openErr : Bool
  writeErr : Option Nat
  deriving DecidableEq, Repr

/-- No error. -/
def FileResult.good : FileResult := { openErr := false, writeErr := none }

/-- The loop `for _, c := range ac.outputChans` of the handler: a non-blocking
send of `line` to every registered channel. -/
def fanOut (outputChans : Nat → Option (Chan Bytes)) (line : Bytes) :
    Nat → Option (Chan Bytes) :=
  fun i => (outputChans i).map (fun c => c.offer line)

/-- The case `line := <-ac.inputChan` of the handler goroutine of `appId`,
once and without anything happening in between, from the receive to the reset
of the idle timer; `none` when no handler runs for the app or no line waits.
Only the fan-out runs under `ac.mutex`: `LogMgr.takeLine` and
`LogMgr.fanOutLine` are the two parts between which a `GetTailChan` can
come. -/
def LogMgr.handleLine (l : LogMgr) (appId : String) (res : FileResult) : Option LogMgr :=
  match l.appContext appId with
  | none => none
  | some ac =>
    if ac.handlerRunning = false then none
    else
      match ac.inputChan.recv with
      | none => none
      | some (line, inputChan) =>
        let opened : Bool := l.handlerFile appId || !res.openErr
        let created : Option Bytes :=
          if l.handlerFile appId = false ∧ res.openErr = false then
            some ((l.files appId).getD [])
          else l.files appId
        let written : Option Bytes :=
          if opened = true then
            match res.writeErr with
            | none => some (created.getD [] ++ (line ++ [newline]))
            | some n => some (created.getD [] ++ (line ++ [newline]).take n)
          else created
        let stillOpen : Bool := opened && res.writeErr.isNone
        some
          { l with
            appContext := cluster.setAt l.appContext appId
              (some
                { ac with
                  inputChan := inputChan
                  outputChans := fanOut ac.outputChans line
                  idleTimer := true })
            files := cluster.setAt l.files appId written
            handlerFile := cluster.setAt l.handlerFile appId stillOpen }

/-- The case `<-ac.idleTimer.C` of the handler goroutine of `appId`; `none`
when no handler runs for the app. -/
def LogMgr.handleIdle (l : LogMgr) (appId : String) : Option LogMgr :=
  match l.appContext appId with
  | none => none
  | some ac =>
    if ac.handlerRunning = false then none
    else
      some
        { l with
          appContext := cluster.setAt l.appContext appId
            (some { ac with idleTimer := false, handlerRunning := false })
          handlerFile := cluster.setAt l.handlerFile appId false }

/-- The pieces that successive `reader.ReadString('\n')` return on a stream:
every piece but the last ends with the newline, the last one is what is left
at the end of the stream, if anything. -/
def splitLines : Bytes → List Bytes
  | [] => []
  | b :: rest =>
    if b = newline then [newline] :: splitLines rest
    else
      match splitLines rest with
      | [] => [[b]]
      | piece :: pieces => (b :: piece) :: pieces

/-- The output of `/usr/bin/tail -n tailLines` on a file with this content:
its last `tailLines` lines. -/
def tailProgram (tailLines : Nat) (content : Bytes) : Bytes :=
  ((splitLines content).drop ((splitLines content).length - tailLines)).flatten

/-- `strings.TrimRight(line, "\n")`. -/
def trimRightNewline (line : Bytes) : Bytes :=
  (line.reverse.dropWhile (fun b => decide (b = newline))).reverse

/-- The blocking sends `outputChan <- line` for a list of lines; `none` when
one of them has to wait. -/
def sendAll (c : Chan Bytes) : List Bytes → Option (Chan Bytes)
  | [] => some c
  | line :: rest =>
    match c.send line with
    | some c1 => sendAll c1 rest
    | none => none

/-- `LogMgr.tailFile(appId, tailLines, outputChan)`: the channel afterwards, or
the error; `none` when a send has to wait. `tailErr` is the error (if any) of
running `tail` and of reading its output. -/
def LogMgr.tailFile (l : LogMgr) (appId : String) (tailLines : Nat) (outputChan : Chan Bytes)
    (tailErr : Option String) : Option (Except String (Chan Bytes)) :=
  match l.files appId with
  | none => some (Except.ok outputChan)
  | some content =>
    match tailErr with
    | some err => some (Except.error err)
    | none =>
      match sendAll outputChan
          ((splitLines (tailProgram tailLines content)).map trimRightNewline) with
      | some c => some (Except.ok c)
      | none => none

/-- `LogMgr.GetTailChan(appId, tailLines)`: the log manager afterwards and the
error or the id and the channel; `none` when the call never returns. `nextId`
is a `uint64`. -/
def LogMgr.GetTailChan (l : LogMgr) (appId : String) (tailLines : Nat)
    (tailErr : Option String) : Option (LogMgr × Except String (Nat × Chan Bytes)) :=
  match l.tailFile appId tailLines (Chan.make (tailLines * 2)) tailErr with
  | none => none
  | some (Except.error err) => some (l, Except.error err)
  | some (Except.ok outputChan) =>
    some
      ((l.getAppContext appId).1.store appId
        { (l.getAppContext appId).2 with
          outputChans :=
            cluster.setAt (l.getAppContext appId).2.outputChans
              (l.getAppContext appId).2.nextId (some outputChan)
          nextId := cluster.uintInc (l.getAppContext appId).2.nextId },
       Except.ok ((l.getAppContext appId).2.nextId, outputChan))

/-- `LogMgr.CloseChan(appId, chanId)`. -/
def LogMgr.CloseChan (l : LogMgr) (appId : String) (chanId : Nat) : LogMgr :=
  (l.getAppContext appId).1.store appId
    { (l.getAppContext appId).2 with
      outputChans := cluster.setAt (l.getAppContext appId).2.outputChans chanId none }

/-- The lines that wait in the input queue of an app. -/
def LogMgr.queue (l : LogMgr) (appId : String) : List Bytes :=
  match l.appContext appId with
  | some ac => ac.inputChan.buf
  | none => []

/-- The capacity of the input queue of an app. -/
def LogMgr.inputCap (l : LogMgr) (appId : String) : Nat :=
  (l.getAppContext appId).2.inputChan.cap

/-- The channel registered under `chanId` for an app, if any. -/
def LogMgr.subscriber (l : LogMgr) (appId : String) (chanId : Nat) : Option (Chan Bytes) :=
  match l.appContext appId with
  | some ac => ac.outputChans chanId
  | none => none

/-- Whether a handler goroutine runs for an app. -/
def LogMgr.running (l : LogMgr) (appId : String) : Bool :=
  match l.appContext appId with
  | some ac => ac.handlerRunning
  | none => false

/-- What happens to the log of one app: a `WriteLine` that returns `nil`, one
line taken by the handler, or the idle timer of the handler. -/
inductive LogEvent where
  | write (line : Bytes)
  | handle (res : FileResult)
  | idle
  deriving DecidableEq, Repr

/-- One event; `none` when it cannot happen (a `WriteLine` that returns an
error or waits, a handler step without handler or without line). -/
def LogMgr.step (l : LogMgr) (appId : String) : LogEvent → Option LogMgr
  | LogEvent.write line =>
    match l.WriteLine appId line with
    | (l1, WriteOutcome.ok) => some l1
    | _ => none
  | LogEvent.handle res => l.handleLine appId res
  | LogEvent.idle => l.handleIdle appId

/-- A sequence of events. -/
def LogMgr.run (l : LogMgr) (appId : String) : List LogEvent → Option LogMgr
  | [] => some l
  | e :: rest =>
    match l.step appId e with
    | some l1 => l1.run appId rest
    | none => none

/-- A new log manager without files in which a subscriber of the app "x" has
asked for the last two lines. -/
def subscribedLog : LogMgr :=
  match (NewLogMgr "/log" (fun _ => none)).GetTailChan "x" 2 none with
  | some (l, _) => l
  | none => NewLogMgr "/log" (fun _ => none)

/-- Three lines written for the app and then taken by the handler. -/
def threeLines : List LogEvent :=
  [LogEvent.write (ascii "one"), LogEvent.write (ascii "two"), LogEvent.write (ascii "three"),
    LogEvent.handle FileResult.good, LogEvent.handle FileResult.good,
    LogEvent.handle FileResult.good]

/-- The log manager `subscribedLog` after `threeLines` for the app "x". -/
def threeLinesLog : LogMgr :=
  (subscribedLog.run "x" threeLines).getD subscribedLog

/-- The lines of the `write` events, in order. -/
def writes : List LogEvent → List Bytes
  | [] => []
  | LogEvent.write line :: rest => line :: writes rest
  | _ :: rest => writes rest

/-- Whether the event is no handler step with a file error. -/
def LogEvent.fileOk : LogEvent → Bool
  | LogEvent.handle res => decide (res = FileResult.good)
  | _ => true

end logmgr

/-! # The reverse proxy (`server/proxy.go`) -/

namespace server

open cluster

/-- The fields of `model.App` that the proxy uses. -/
structure App where
  Id : String
  Name : String
  WorktreeId : String
  deriving DecidableEq, Repr

/-- Go `validHeaderFieldByte`: the characters of an HTTP token. -/
def validHeaderFieldByte (c : Char) : Bool :=
  c.isAlphanum || [33, 35, 36, 37, 38, 39, 42, 43, 45, 46, 94, 95, 96, 124, 126].contains c.toNat

/-- The loop of Go `canonicalMIMEHeaderKey`: upper case for the first letter
and for every letter after a dash, lower case for the others. -/
def canonicalLoop : Bool → List Char → List Char
  | _, [] => []
  | upper, c :: rest =>
    if upper = true ∧ c.isLower = true then c.toUpper :: canonicalLoop false rest
    else if upper = false ∧ c.isUpper = true then c.toLower :: canonicalLoop false rest
    else c :: canonicalLoop (decide (c = '-')) rest

/-- Go `textproto.CanonicalMIMEHeaderKey`: a key with a character that no
token has is left as it is. -/
def canonicalMIMEHeaderKey (key : String) : String :=
  if key.toList.all validHeaderFieldByte = true then String.mk (canonicalLoop true key.toList)
  else key

/-- Go `http.Header`: the values stored under every canonical key, in order;
no value for a key that the map does not have. -/
structure Header where
  values : String → List String

/-- Go `Header.Add`. -/
def Header.Add (h : Header) (key value : String) : Header :=
  { values := setAt h.values (canonicalMIMEHeaderKey key)
      (h.values (canonicalMIMEHeaderKey key) ++ [value]) }

/-- Go `Header.Get`: the first value under the key, or the empty string. -/
def Header.Get (h : Header) (key : String) : String :=
  match h.values (canonicalMIMEHeaderKey key) with
  | [] => ""
  | v :: _ => v

/-- Go `Header.Del`. -/
def Header.Del (h : Header) (key : String) : Header :=
  { values := setAt h.values (canonicalMIMEHeaderKey key) [] }

/-- The parts of an `http.Request` that the proxy reads or writes. -/
structure Request where
  Host : String
  Header : Header
  URLScheme : String
  URLHost : String

/-- `proxyDirector(r)`. -/
def proxyDirector (r : Request) : Request :=
  { r with
    URLHost := r.Header.Get "POSTVERTA_APP_ENDPOINT"
    Header := r.Header.Del "POSTVERTA_APP_ENDPOINT" }

/-- Go `strings.Split(s, ".")` on the characters of `s`. -/
def splitDots : List Char → List (List Char)
  | [] => [[]]
  | c :: rest =>
    if c = '.' then [] :: splitDots rest
    else
      match splitDots rest with
      | [] => [[c]]
      | part :: parts => (c :: part) :: parts

/-- The condition `len(parts) < 2 || parts[len(parts)-2] != "postverta"` of
`ServeHTTP`, negated. -/
def isAppHost (parts : List (List Char)) : Bool :=
  decide (2 ≤ parts.length) && decide (parts.get? (parts.length - 2) = some "postverta".toList)

/-- What the wait loop of `ServeHTTP` ends with. -/
inductive WaitResult where
  | running
  | finished
  | timeout
  deriving DecidableEq, Repr

/-- `timeoutDuration`, in nanoseconds. -/
def timeoutDuration : Nat := 10 * 1000000000

/-- The `for` loop of `ServeHTTP` from its iteration `i` on: `appState j` is
the value of `context.AppState` that the iteration `j` reads, `elapsed j` the
value of `time.Now().Sub(startTime)` in nanoseconds that it reads afterwards.
The result is `none` when the fuel runs out. -/
def waitLoop (appState : Nat → ProcessState) (elapsed : Nat → Nat) : Nat → Nat → Option WaitResult
  | 0, _ => none
  | fuel + 1, i =>
    if appState i = ProcessState.RUNNING then some WaitResult.running
    else if appState i = ProcessState.FINISHED then some WaitResult.finished
    else if elapsed i > timeoutDuration then some WaitResult.timeout
    else waitLoop appState elapsed fuel (i + 1)

/-- What the collaborators of `ServeHTTP` return: the database lookup, the
agent and the dial on a registry miss of `GetContext`, the configuration of
the app process, the successive values of `context.AppState` and of the
clock, and `wsutil.IsWebSocketRequest`. -/
structure Env where
  GetAppByName : String → Except String (Option App)
  openResult : Except String OpenContextResp
  dialErr : Option String
  enableErr : Option String
  appState : Nat → ProcessState
  elapsed : Nat → Nat
  IsWebSocketRequest : Request → Bool

/-- The answer to a request: `http.NotFound`, the status 500, or the request
as the reverse proxy has it after its director. -/
inductive Reply where
  | notFound
  | internalServerError
  | proxied (websocket : Bool) (out : Request)

/-- The host that a request is forwarded to, if it is forwarded. -/
def Reply.target : Reply → Option String
  | Reply.proxied _ out => some out.URLHost
  | _ => none

/-- The HTTP status that `ServeHTTP` itself writes, if it writes one. -/
def Reply.status : Reply → Option Nat
  | Reply.notFound => some 404
  | Reply.internalServerError => some 500
  | Reply.proxied _ _ => none

/-- A call of `ServeHTTP` that has returned: the answer, the names that were
looked up in the database, the number of `GetContext` calls and of calls of
the release closure, and the cluster afterwards. -/
structure Served where
  reply : Reply
  lookups : List String
  leases : Nat
  releases : Nat
  c : Cluster

/-- The part of `ServeHTTP` after `defer closeFunc()`. -/
def serveLeased (env : Env) (fuel : Nat) (context : Context) (r : Request) : Option Reply :=
  match env.enableErr with
  | some _ => some Reply.internalServerError
  | none =>
    match waitLoop env.appState env.elapsed fuel 0 with
    | none => none
    | some WaitResult.running =>
      let r1 : Request :=
        { r with Header := r.Header.Add "POSTVERTA_APP_ENDPOINT" context.AppEndpoint }
      if env.IsWebSocketRequest r1 = true then
        some (Reply.proxied true (proxyDirector { r1 with URLScheme := "ws" }))
      else
        some (Reply.proxied false (proxyDirector { r1 with URLScheme := "http" }))
    | some WaitResult.finished => some Reply.notFound
    | some WaitResult.timeout => some Reply.notFound

/-- `ReverseProxyHandler.ServeHTTP(w, r)` on the cluster `c`. The result is
`none` when the call does not return: `GetContext` waits forever or panics, the
release closure aborts, or the fuel of the wait loop runs out. -/
def ServeHTTP (env : Env) (fuel : Nat) (c : Cluster) (r : Request) : Option Served :=
  if isAppHost (splitDots r.Host.toList) = false then
    some { reply := Reply.notFound, lookups := [], leases := 0, releases := 0, c := c }
  else
    let name : String := String.mk ((splitDots r.Host.toList).headD [])
    match env.GetAppByName name with
    | Except.error _ =>
      some { reply := Reply.notFound, lookups := [name], leases := 0, releases := 0, c := c }
    | Except.ok none =>
      some { reply := Reply.notFound, lookups := [name], leases := 0, releases := 0, c := c }
    | Except.ok (some app) =>
      match c.GetContext app.Id app.WorktreeId app.WorktreeId env.openResult env.dialErr with
      | (c1, Outcome.failed _) =>
        some
          { reply := Reply.internalServerError, lookups := [name], leases := 1, releases := 0,
            c := c1 }
      | (c1, Outcome.lease context closeFunc) =>
        match serveLeased env fuel context r with
        | none => none
        | some reply =>
          match closeFunc.call c1 with
          | none => none
          | some c2 =>
            some { reply := reply, lookups := [name], leases := 1, releases := 1, c := c2 }
      | _ => none

/-- A request for `host` without headers. -/
def plainRequest (host : String) : Request :=
  { Host := host, Header := { values := fun _ => [] }, URLScheme := "", URLHost := "" }

/-- The request `plainRequest host` with one more header line
`POSTVERTA_APP_ENDPOINT: value`, as the HTTP server stores it. -/
def forgedRequest (host value : String) : Request :=
  { plainRequest host with
    Header := { values := fun k => if k = "Postverta_app_endpoint" then [value] else [] } }

/-- The app "app1" with the worktree "w1". -/
def sampleApp : App := { Id := "app1", Name := "app1", WorktreeId := "w1" }

/-- An environment in which the database knows `sampleApp` under every name,
every call succeeds and the app process is running from the start. -/
def sampleEnv : Env :=
  { GetAppByName := fun _ => Except.ok (some sampleApp)
    openResult := Except.ok sampleResp
    dialErr := none
    enableErr := none
    appState := fun _ => ProcessState.RUNNING
    elapsed := fun i => i * 10000000
    IsWebSocketRequest := fun _ => false }

/-- The environment `sampleEnv` with a database that knows no app. -/
def emptyDbEnv : Env :=
  { sampleEnv with GetAppByName := fun _ => Except.ok none }

end server

/-! # The keep-alive WebSocket connection (`util/keepalivews.go`) -/

namespace util

open logmgr

/-- `websocket.TextMessage`. -/
def TextMessage : Int := 1

/-- `websocket.BinaryMessage`. -/
def BinaryMessage : Int := 2

/-- The three results of one call of `Conn.ReadMessage`. -/
structure Message where
  messageType : Int
  p : Bytes
  err : Option String
  deriving DecidableEq, Repr

/-- How a call of `KeepAliveWsConn.ReadMessage` ends: it returns its three
results, it panics with a run-time error, or it waits in `Conn.ReadMessage`
for a frame that does not come. -/
inductive ReadOutcome where
  | returned (m : Message)
  | panicked (msg : String)
  | waiting
  deriving DecidableEq, Repr

/-- A call of `KeepAliveWsConn.ReadMessage`: how it ends, the frames it has
written to the connection, in order, and the results of `Conn.ReadMessage`
that it has not consumed. -/
structure ReadRun where
  outcome : ReadOutcome
  written : List (Int × Bytes)
  rest : List Message
  deriving DecidableEq, Repr

/-- `KeepAliveWsConn.ReadMessage()` on a connection whose successive calls of
`Conn.ReadMessage` return the elements of the list. The index expression
`p[0]` is evaluated only for a text frame read without error; the error of
`Conn.WriteMessage` is ignored. -/
def ReadMessage : List Message → ReadRun
  | [] => { outcome := ReadOutcome.waiting, written := [], rest := [] }
  | m :: rest =>
    if m.err ≠ none then { outcome := ReadOutcome.returned m, written := [], rest := rest }
    else if m.messageType = TextMessage then
      match m.p with
      | [] =>
        { outcome := ReadOutcome.panicked "index out of range", written := [], rest := rest }
      | b :: _ =>
        if b = 95 ∧ m.p = ascii "_ping" then
          { ReadMessage rest with
            written := (TextMessage, ascii "_pong") :: (ReadMessage rest).written }
        else { outcome := ReadOutcome.returned m, written := [], rest := rest }
    else { outcome := ReadOutcome.returned m, written := [], rest := rest }

/-- A text frame read without error. -/
def text (s : String) : Message := { messageType := TextMessage, p := ascii s, err := none }

/-- Whether the result of `Conn.ReadMessage` is the heartbeat: a text frame
"_ping" read without error. -/
def Message.isPing (m : Message) : Bool :=
  decide (m.err = none ∧ m.messageType = TextMessage ∧ m.p = ascii "_ping")

/-- Whether the result of `Conn.ReadMessage` is a text frame with an empty
payload read without error. -/
def Message.isEmptyText (m : Message) : Bool :=
  decide (m.err = none ∧ m.messageType = TextMessage ∧ m.p = [])

end util

/-! # Middlewares and handlers of the API server (`server/middlewares.go`,
`server/pkg.go`) -/

namespace server

/-- Go `strings.HasPrefix(s, start)`. -/
def startsWith (s start : String) : Bool := start.toList.isPrefixOf s.toList

/-- Go `strings.TrimPrefix(s, start)`. -/
def trimStart (s start : String) : String :=
  if startsWith s start = true then String.mk (s.toList.drop start.toList.length) else s

/-- What one call of the handler that `CheckAuth` returns does: the status
codes that the middleware itself passes to `w.WriteHeader`, in order, and the
`userId` that `inner` is called with, `none` when `inner` is not called. -/
structure AuthRun where
  statuses : List Nat
  inner : Option String
  deriving DecidableEq, Repr

/-- The handler `CheckAuth(inner, authOptional)` on the request `r`.
`verifyAccessToken` stands for the function of that name: the validity of a
token and the user id in it. -/
def CheckAuth (verifyAccessToken : String → Bool × String) (authOptional : Bool)
    (r : Request) : AuthRun :=
  if startsWith (r.Header.Get "Authorization") "Bearer " = true then
    if (verifyAccessToken (trimStart (r.Header.Get "Authorization") "Bearer ")).1 = false then
      { statuses := [401], inner := none }
    else
      { statuses := []
        inner := some (verifyAccessToken (trimStart (r.Header.Get "Authorization") "Bearer ")).2 }
  else if authOptional = false then
    { statuses := [401], inner := some "" }
  else
    { statuses := [], inner := some "" }

/-- A request for `host` with the header line `Authorization: value`. -/
def authRequest (host value : String) : Request :=
  { plainRequest host with
    Header := { values := fun k => if k = "Authorization" then [value] else [] } }

/-- A `verifyAccessToken` that accepts the token "good" of the user "alice"
and no other. -/
def sampleVerify (accessToken : String) : Bool × String :=
  if accessToken = "good" then (true, "alice") else (false, "")

/-- Go `strings.Split(s, sep)` for a separator of one character, on the
characters of `s`. -/
def splitOn (sep : Char) : List Char → List (List Char)
  | [] => [[]]
  | c :: rest =>
    if c = sep then [] :: splitOn sep rest
    else
      match splitOn sep rest with
      | [] => [[c]]
      | part :: parts => (c :: part) :: parts

/-- The fields of `execproto.ExecReq` that the handlers set. -/
structure ExecReq where
  TaskName : String
  KeyValues : List (String × String)
  WaitForCompletion : Bool
  deriving DecidableEq, Repr

/-- What one call of `HandleAppPackagePost` does: the status codes passed to
`w.WriteHeader`, in order (the response carries the first one), the `Exec`
requests sent to the sandbox, in order, and the run-time error it panics with,
if it does. -/
structure PackagePost where
  statuses : List Nat
  execs : List ExecReq
  panicked : Option String
  deriving DecidableEq, Repr

/-- The request of `ContextSyncTypes`. -/
def syncTypesReq : ExecReq :=
  { TaskName := "sync_types", KeyValues := [], WaitForCompletion := true }

/-- The request that `HandleAppPackagePost` builds. -/
def installReq (name version : String) : ExecReq :=
  { TaskName := "npm_install_pkg"
    KeyValues := [("NAME", name), ("VERSION", version)]
    WaitForCompletion := true }

/-- `HandleAppPackagePost` on the path variable `packageName`. `execErr`,
`syncErr` and `updateErr` are the errors (if any) of the `Exec` of the install
task, of `ContextSyncTypes` and of `UpdateAppSourceTimestamp`. The index
expressions `parts[1]` and `parts[2]` of the `else` branch panic when the
list is too short. -/
def HandleAppPackagePost (execErr syncErr updateErr : Option String) (packageName : String) :
    PackagePost :=
  let parts : List String := (splitOn '@' packageName.toList).map String.mk
  let s1 : List Nat := if parts.length ≠ 2 ∧ parts.length ≠ 3 then [400] else []
  let s2 : List Nat := if parts.length = 3 ∧ parts.get? 0 ≠ some "" then [400] else []
  let nameVersion : Option (String × String) :=
    if parts.length = 2 then
      (parts.get? 0).bind (fun name => (parts.get? 1).map (fun version => (name, version)))
    else
      (parts.get? 1).bind (fun name => (parts.get? 2).map (fun version => ("@" ++ name, version)))
  match nameVersion with
  | none => { statuses := s1 ++ s2, execs := [], panicked := some "index out of range" }
  | some (name, version) =>
    match execErr with
    | some _ =>
      { statuses := s1 ++ s2 ++ [500], execs := [installReq name version], panicked := none }
    | none =>
      match syncErr with
      | some _ =>
        { statuses := s1 ++ s2 ++ [500], execs := [installReq name version, syncTypesReq],
          panicked := none }
      | none =>
        match updateErr with
        | some _ =>
          { statuses := s1 ++ s2 ++ [500], execs := [installReq name version, syncTypesReq],
            panicked := none }
        | none =>
          { statuses := s1 ++ s2 ++ [200], execs := [installReq name version, syncTypesReq],
            panicked := none }

end server

/-! # Apps in the database (`model/types.go`, `model/dummy.go`,
`model/mongodb.go`) -/

namespace model

/-- The struct `KeyValuePair`. -/
structure KeyValuePair where
  Key : String
  Value : String
  deriving DecidableEq, Repr

/-- The struct `App` without its time stamps. -/
structure App where
  Id : String
  Description : String
  Icon : String
  UserId : String
  Name : String
  WorktreeId : String
  Private : Bool
  StartCmd : String
  EnvVars : List KeyValuePair
  Gallery : Bool
  ApiIds : List String
  deriving DecidableEq, Repr

/-- `NewApp(app)` of the two database clients: `dummy` tells which one is in
use, `id` and `name` are the results of `NewAppId` and of the `NewAppName`
that is kept, `insertErr` the error (if any, and other than a duplicate name)
of the insertion in MongoDB. -/
def NewApp (dummy : Bool) (id name : String) (insertErr : Option String) (app : App) :
    Except String App :=
  if dummy = true then Except.ok { app with Id := id, Name := name, Gallery := true }
  else
    match insertErr with
    | some err => Except.error err
    | none => Except.ok { app with Id := id, Name := name }

end model

namespace server

/-- The loop of `HandleAppForkPost` over `app.EnvVars`: the assignments
`newEnvVars[i] = KeyValuePair{Key: kv.Key, Value: ""}` on the slice
`make([]model.KeyValuePair, len(app.EnvVars))`. -/
def copyEnvVarKeys (envVars : List model.KeyValuePair) : List model.KeyValuePair :=
  envVars.enum.foldl
    (fun newEnvVars ikv => newEnvVars.set ikv.1 { Key := ikv.2.Key, Value := "" })
    (List.replicate envVars.length { Key := "", Value := "" })

/-- What the collaborators of `HandleAppForkPost` return: whether
`GetExistingContext` finds a context of the source app, the error of the `Save`
of its worktree, the new UUID, the arguments of `model.NewApp` and the error of
the `GetContext` for the fork. -/
structure ForkEnv where
  contextExists : Bool
  saveErr : Option String
  uuid : String
  dummy : Bool
  newId : String
  newName : String
  insertErr : Option String
  getContextErr : Option String

/-- What a call of `HandleAppForkPost` does: the status it answers with and
the app that it has created in the database, if any. -/
structure ForkRun where
  status : Nat
  created : Option model.App
  deriving DecidableEq, Repr

/-- `HandleAppForkPost(userId, app, w, r)`. -/
def HandleAppForkPost (env : ForkEnv) (userId : String) (app : model.App) : ForkRun :=
  if env.contextExists = true ∧ env.saveErr ≠ none then { status := 500, created := none }
  else
    match
      model.NewApp env.dummy env.newId env.newName env.insertErr
        { Id := ""
          Description := app.Description
          Icon := app.Icon
          UserId := userId
          Name := ""
          WorktreeId := env.uuid
          Private := false
          StartCmd := app.StartCmd
          EnvVars := copyEnvVarKeys app.EnvVars
          Gallery := false
          ApiIds := app.ApiIds } with
    | Except.error _ => { status := 500, created := none }
    | Except.ok forkApp =>
      match env.getContextErr with
      | some _ => { status := 500, created := some forkApp }
      | none => { status := 200, created := some forkApp }

/-- An app with two environment variables. -/
def sourceApp : model.App :=
  { Id := "app1", Description := "demo", Icon := "", UserId := "alice", Name := "app1",
    WorktreeId := "w1", Private := false, StartCmd := "npm start"
    EnvVars := [{ Key := "TOKEN", Value := "s3cret" }, { Key := "MODE", Value := "prod" }]
    Gallery := false, ApiIds := [] }

/-- An environment in which every call succeeds and no context of the source
app exists. -/
def sampleForkEnv : ForkEnv :=
  { contextExists := false, saveErr := none, uuid := "w2", dummy := false, newId := "app2",
    newName := "fork", insertErr := none, getContextErr := none }

end server

/-! # Uploaded archives (`server/appupload.go`) -/

namespace server

/-- Go `strings.HasSuffix(s, ending)`. -/
def endsWith (s ending : String) : Bool := ending.toList.isSuffixOf s.toList

/-- The loop of Go `path.Clean` over the elements of a path between slashes,
on the stack of the elements kept so far, the last one first: an empty element
and "." are left out, ".." removes the element before it, is left out at the
root and is kept otherwise. -/
def cleanLoop (rooted : Bool) : List (List Char) → List (List Char) → List (List Char)
  | [], stack => stack
  | part :: rest, stack =>
    if part = [] ∨ part = ['.'] then cleanLoop rooted rest stack
    else if part = ['.', '.'] then
      match stack with
      | top :: below =>
        if top = ['.', '.'] then cleanLoop rooted rest (part :: stack)
        else cleanLoop rooted rest below
      | [] => if rooted = true then cleanLoop rooted rest [] else cleanLoop rooted rest [part]
    else cleanLoop rooted rest (part :: stack)

/-- Go `path.Clean`. -/
def pathClean (p : List Char) : List Char :=
  let rooted : Bool := decide (p.head? = some '/')
  let kept : List Char :=
    (if rooted = true then ['/'] else [])
      ++ ['/'].intercalate (cleanLoop rooted (splitOn '/' p) []).reverse
  if kept = [] then ['.'] else kept

/-- Go `path.Dir`: the path up to and with its last slash, cleaned. -/
def pathDir (p : String) : String :=
  String.mk
    (pathClean
      (if p.toList.contains '/' = true then
        (p.toList.reverse.dropWhile (fun c => decide (c ≠ '/'))).reverse
      else []))

/-- An entry of `zipReader.File`: its name and what `Open` and `ReadAll`
give for it, the content or an error. -/
structure ZipFile where
  Name : String
  content : Except String String
  deriving Repr

/-- The condition of the loop of `findProjectRootAndPackageJson` on an
entry. -/
def isPackageJson (file : ZipFile) : Bool :=
  decide (file.Name = "package.json") || endsWith file.Name "/package.json"

/-- Go `len(file.Name)`: the number of bytes. -/
def nameLen (file : ZipFile) : Nat := file.Name.utf8ByteSize

/-- One iteration of the loop of `findProjectRootAndPackageJson`; the state
is `(packageJsonFile, shortestPathLength, rootDir)`. -/
def findStep (st : Option ZipFile × Nat × String) (file : ZipFile) :
    Option ZipFile × Nat × String :=
  if isPackageJson file = true then
    if nameLen file < st.2.1 ∨ st.2.1 = 0 then (some file, nameLen file, pathDir file.Name)
    else st
  else st

/-- `findProjectRootAndPackageJson(zipContent)`; `archive` is what
`zip.NewReader` makes of the content: an error or the entries in the order of
the archive. -/
def findProjectRootAndPackageJson (archive : Except String (List ZipFile)) :
    Except String (String × String) :=
  match archive with
  | Except.error err => Except.error err
  | Except.ok files =>
    match files.foldl findStep (none, 0, "") with
    | (none, _, _) => Except.error "Cannot find package.json in the zip"
    | (some packageJsonFile, _, rootDir) =>
      match packageJsonFile.content with
      | Except.error err => Except.error err
      | Except.ok packageJsonContent => Except.ok (rootDir, packageJsonContent)

/-- An archive with three `package.json` entries, two of them at the depth
one. -/
def sampleArchive : List ZipFile :=
  [{ Name := "proj/README.md", content := Except.ok "readme" },
    { Name := "proj/node_modules/x/package.json", content := Except.ok "dep" },
    { Name := "proj/package.json", content := Except.ok "first" },
    { Name := "main/package.json", content := Except.ok "second" }]

end server

/-! # Subscriptions of the log manager over time -/

namespace logmgr

open golang

/-- The value of `ac.nextId` for an app. -/
def LogMgr.nextId (l : LogMgr) (appId : String) : Nat :=
  (l.getAppContext appId).2.nextId

/-- The lines of a file that `tail -n tailLines` and the loop of `tailFile`
deliver: the last `tailLines` pieces of the content, without their newline. -/
def lastLines (tailLines : Nat) (content : Bytes) : List Bytes :=
  ((splitLines content).drop ((splitLines content).length - tailLines)).map trimRightNewline

/-- What happens to one app of the log manager: an event of its log, a call
of `GetTailChan` whose `tail` succeeds, or a call of `CloseChan`. -/
inductive LogOp where
  | event (e : LogEvent)
  | tail (tailLines : Nat)
  | close (chanId : Nat)

/-- One operation; `none` when it cannot happen or does not return. -/
def LogMgr.apply (l : LogMgr) (appId : String) : LogOp → Option LogMgr
  | LogOp.event e => l.step appId e
  | LogOp.tail tailLines => (l.GetTailChan appId tailLines none).map (fun r => r.1)
  | LogOp.close chanId => some (l.CloseChan appId chanId)

/-- A sequence of operations. -/
def LogMgr.applyAll (l : LogMgr) (appId : String) : List LogOp → Option LogMgr
  | [] => some l
  | op :: rest =>
    match l.apply appId op with
    | some l1 => l1.applyAll appId rest
    | none => none

/-- The number of `GetTailChan` calls in a sequence of operations. -/
def countTail : List LogOp → Nat
  | [] => 0
  | LogOp.tail _ :: rest => countTail rest + 1
  | _ :: rest => countTail rest

end logmgr

/-! # The log WebSocket (`server/appws.go`) -/

namespace server

open logmgr

/-- A continuation byte of UTF-8 in the range `lo..hi`. -/
def inRange (lo hi b : Nat) : Bool := decide (lo ≤ b) && decide (b ≤ hi)

/-- Go `utf8.Valid`: the bytes are a sequence of well-formed UTF-8 encodings
(no surrogate, no overlong form, nothing above U+10FFFF). -/
def utf8Valid : Bytes → Bool
  | [] => true
  | b0 :: rest =>
    if b0 < 128 then utf8Valid rest
    else if inRange 194 223 b0 = true then
      match rest with
      | b1 :: rest1 => inRange 128 191 b1 && utf8Valid rest1
      | _ => false
    else if inRange 224 239 b0 = true then
      match rest with
      | b1 :: b2 :: rest2 =>
        inRange (if b0 = 224 then 160 else 128) (if b0 = 237 then 159 else 191) b1
          && inRange 128 191 b2 && utf8Valid rest2
      | _ => false
    else if inRange 240 244 b0 = true then
      match rest with
      | b1 :: b2 :: b3 :: rest3 =>
        inRange (if b0 = 240 then 144 else 128) (if b0 = 244 then 143 else 191) b1
          && inRange 128 191 b2 && inRange 128 191 b3 && utf8Valid rest3
      | _ => false
    else false

/-- The state of the loop of `HandleAppLogWebSocket`: the buffer `buf` and
the text messages written to the WebSocket so far. -/
structure LogSocket where
  buf : Bytes
  written : List Bytes
  deriving DecidableEq, Repr

/-- What the `select` of the loop receives: the aggregation timer (with the
error of the `WriteMessage`, if it is called and fails) or a line from the
channel of `GetTailChan`. -/
inductive SocketEvent where
  | timer (writeErr : Bool)
  | line (line : Bytes)
  deriving DecidableEq, Repr

/-- One iteration of the loop of `HandleAppLogWebSocket`; `none` when the
handler returns. -/
def LogSocket.step (s : LogSocket) : SocketEvent → Option LogSocket
  | SocketEvent.timer writeErr =>
    if s.buf.length ≠ 0 then
      if writeErr = true then none
      else some { buf := [], written := s.written ++ [s.buf] }
    else some s
  | SocketEvent.line line =>
    if utf8Valid line = false then some s
    else some { s with buf := s.buf ++ (line ++ [newline]) }

/-- Several iterations of the loop. -/
def LogSocket.run (s : LogSocket) : List SocketEvent → Option LogSocket
  | [] => some s
  | e :: rest =>
    match s.step e with
    | some s1 => s1.run rest
    | none => none

end server

/-! # Two concurrent leases (`cluster/cluster.go`) -/

namespace cluster

/-- The part of `GetContext` between `c.mutex.Lock()` and `c.mutex.Unlock()`:
the cluster at the unlock and the context that the call is about to lock for
reading, or the error it returns; `none` when `client.OpenContext` panics on
a nil client. -/
def Cluster.lockedSection (c : Cluster) (appId sourceWorktreeId worktreeId : String)
    (openResult : Except String OpenContextResp) (dialErr : Option String) :
    Option (Cluster × Except String Context) :=
  match mapGet c.AppContext appId with
  | some context =>
    if context.WorktreeId ≠ worktreeId then
      some (c, Except.error "Inconsistent worktree IDs for the same app")
    else
      some
        ({ c with
           AppContextRefCount :=
             setAt c.AppContextRefCount appId (uintInc (c.AppContextRefCount appId)) },
         Except.ok context)
  | none =>
    let agent := c.bestAgent
    let c1 : Cluster :=
      { c with
        AgentNumContexts :=
          setAt c.AgentNumContexts agent (uintInc (c.AgentNumContexts agent)) }
    if c.AgentServiceClient agent = false then none
    else
      let c2 : Cluster :=
        { c1 with Trace := c1.Trace ++ [Rpc.OpenContext agent worktreeId sourceWorktreeId] }
      match openResult with
      | Except.error err => some (c2, Except.error err)
      | Except.ok openResp =>
        match dialErr with
        | some err => some (c2, Except.error err)
        | none =>
          let context := newContext c.nextPtr appId worktreeId agent openResp
          some
            ({ c2 with
               AppContext := mapSet c2.AppContext appId context
               AppContextRefCount :=
                 setAt c2.AppContextRefCount appId (uintInc (c2.AppContextRefCount appId))
               ctxMutex := setAt c2.ctxMutex context.ptr { readers := 0, writer := false }
               Timer := setAt c2.Timer context.ptr true
               TrackerStopped := setAt c2.TrackerStopped context.ptr false
               ConnClosed := setAt c2.ConnClosed context.ptr false
               Watchers := context :: c2.Watchers
               nextPtr := c2.nextPtr + 1 },
             Except.ok context)

/-- The first statement of a release closure, `context.mutex.RUnlock()`;
`none` when no read lock is held. -/
def ReleaseFn.runlock (r : ReleaseFn) (c : Cluster) : Option Cluster :=
  if (c.ctxMutex r.context).readers = 0 then none
  else
    some
      { c with
        ctxMutex := setAt c.ctxMutex r.context
          { readers := (c.ctxMutex r.context).readers - 1
            writer := (c.ctxMutex r.context).writer } }

/-- The rest of a release closure: the decrement of the refcount under
`c.mutex`. -/
def ReleaseFn.decrement (r : ReleaseFn) (c : Cluster) : Cluster :=
  { c with
    AppContextRefCount :=
      setAt c.AppContextRefCount r.appId (uintDec (c.AppContextRefCount r.appId)) }

/-- Where a goroutine stands that calls `GetContext` and then the release
closure: before `c.mutex.Lock()`; after `c.mutex.Unlock()` and before
`context.mutex.RLock()`; with the lease; in the closure between `RUnlock` and
`c.mutex.Lock()`; after the closure; or after `GetContext` has returned an
error. -/
inductive Pc where
  | start
  | unlocked (context : Context)
  | leased (context : Context)
  | runlocked (context : Context)
  | done (context : Context)
  | failed (err : String)
  deriving DecidableEq, Repr

/-- Whether the goroutine has incremented the refcount and not yet
decremented it: 1 if so, 0 otherwise. -/
def Pc.holds : Pc → Nat
  | Pc.unlocked _ => 1
  | Pc.leased _ => 1
  | Pc.runlocked _ => 1
  | _ => 0

/-- The context that the goroutine was given, if any. -/
def Pc.context : Pc → Option Context
  | Pc.unlocked context => some context
  | Pc.leased context => some context
  | Pc.runlocked context => some context
  | Pc.done context => some context
  | _ => none

/-- The next atomic step of a goroutine that leases `appId`; `none` when it
has none (it is at its end, it waits in `RLock`, or the process panics). -/
def Pc.step (appId sourceWorktreeId worktreeId : String)
    (openResult : Except String OpenContextResp) (dialErr : Option String) (c : Cluster) :
    Pc → Option (Cluster × Pc)
  | Pc.start =>
    match c.lockedSection appId sourceWorktreeId worktreeId openResult dialErr with
    | none => none
    | some (c1, Except.ok context) => some (c1, Pc.unlocked context)
    | some (c1, Except.error err) => some (c1, Pc.failed err)
  | Pc.unlocked context =>
    match c.rlockAndReturn appId context with
    | (c1, Outcome.lease _ _) => some (c1, Pc.leased context)
    | _ => none
  | Pc.leased context =>
    match ReleaseFn.runlock { appId := appId, context := context.ptr } c with
    | some c1 => some (c1, Pc.runlocked context)
    | none => none
  | Pc.runlocked context =>
    some (ReleaseFn.decrement { appId := appId, context := context.ptr } c, Pc.done context)
  | Pc.done _ => none
  | Pc.failed _ => none

/-- Two goroutines that lease the app "app1" with the worktree "w1" on one
cluster, and the refcount of the app after each step so far together with the
number of goroutines that hold an increment then, the last step first. -/
structure Race where
  c : Cluster
  first : Pc
  second : Pc
  history : List (Nat × Nat)

/-- One step of the goroutine chosen: the first one for `true`. Every
`OpenContext` answers with `sampleResp`. -/
def Race.step (r : Race) (who : Bool) : Option Race :=
  if who = true then
    match Pc.step "app1" "" "w1" (Except.ok sampleResp) none r.c r.first with
    | some (c1, pc) =>
      some
        { c := c1, first := pc, second := r.second
          history := (c1.AppContextRefCount "app1", pc.holds + r.second.holds) :: r.history }
    | none => none
  else
    match Pc.step "app1" "" "w1" (Except.ok sampleResp) none r.c r.second with
    | some (c1, pc) =>
      some
        { c := c1, first := r.first, second := pc
          history := (c1.AppContextRefCount "app1", r.first.holds + pc.holds) :: r.history }
    | none => none

/-- A schedule: which goroutine moves, step after step. -/
def Race.run (r : Race) : List Bool → Option Race
  | [] => some r
  | who :: rest =>
    match r.step who with
    | some r1 => r1.run rest
    | none => none

/-- Two goroutines at their start on a cluster. -/
def Race.init (c : Cluster) : Race :=
  { c := c, first := Pc.start, second := Pc.start, history := [] }

/-- The schedules of `n` steps. -/
def schedules : Nat → List (List Bool)
  | 0 => [[]]
  | n + 1 => (schedules n).map (fun s => true :: s) ++ (schedules n).map (fun s => false :: s)

/-- The check of the end of a schedule of the two goroutines: one
`OpenContext` was issued, both goroutines were given `sampleContext` and are
through, the refcount of the app is 0, and after every step it was the number
of goroutines that held an increment. -/
def Race.coalesced (r : Race) : Bool :=
  decide (countOpen r.c.Trace = 1)
    && decide (r.first = Pc.done sampleContext)
    && decide (r.second = Pc.done sampleContext)
    && decide (r.c.AppContextRefCount "app1" = 0)
    && r.history.all (fun e => decide (e.1 = e.2))

/-- Whether one goroutine makes its four steps before the first step of the
other one: the two leases do not overlap. -/
def sequential (schedule : List Bool) : Bool :=
  decide (schedule.take 4 = List.replicate 4 true)
    || decide (schedule.take 4 = List.replicate 4 false)

/-- The check `Race.coalesced` at the end of a schedule on a fresh cluster
with the agent "A", and that the refcount was 2 at some step exactly when the
two leases overlap; `false` when the schedule cannot be run to its end. -/
def coalesced (schedule : List Bool) : Bool :=
  match (Race.init (fresh ["A"])).run schedule with
  | none => false
  | some r => r.coalesced && (decide ((2, 2) ∈ r.history) == !sequential schedule)

end cluster

/-! # The handler of the log manager, step by step (`logmgr/logmgr.go`)

An iteration of the handler on a line is not atomic: only the fan-out runs
under `ac.mutex`, so that a `GetTailChan` can read the file and register its
channel after the handler has written a line to the file and before it sends
it to the subscribers. -/

namespace logmgr

open golang

/-- The first part of an iteration of the handler of `appId` on a line:
`line := <-ac.inputChan`, the stop of the idle timer and the write to the
file, up to `ac.mutex.Lock()`. The result holds the line taken; `none` when no
handler runs for the app or no line waits. -/
def LogMgr.takeLine (l : LogMgr) (appId : String) (res : FileResult) :
    Option (LogMgr × Bytes) :=
  match l.appContext appId with
  | none => none
  | some ac =>
    if ac.handlerRunning = false then none
    else
      match ac.inputChan.recv with
      | none => none
      | some (line, inputChan) =>
        let opened : Bool := l.handlerFile appId || !res.openErr
        let created : Option Bytes :=
          if l.handlerFile appId = false ∧ res.openErr = false then
            some ((l.files appId).getD [])
          else l.files appId
        let written : Option Bytes :=
          if opened = true then
            match res.writeErr with
            | none => some (created.getD [] ++ (line ++ [newline]))
            | some n => some (created.getD [] ++ (line ++ [newline]).take n)
          else created
        let stillOpen : Bool := opened && res.writeErr.isNone
        some
          ({ l with
             appContext := cluster.setAt l.appContext appId
               (some { ac with inputChan := inputChan, idleTimer := false })
             files := cluster.setAt l.files appId written
             handlerFile := cluster.setAt l.handlerFile appId stillOpen },
           line)

/-- The second part of the iteration: the fan-out of the line under
`ac.mutex` and the reset of the idle timer. -/
def LogMgr.fanOutLine (l : LogMgr) (appId : String) (line : Bytes) : LogMgr :=
  match l.appContext appId with
  | none => l
  | some ac =>
    { l with
      appContext := cluster.setAt l.appContext appId
        (some { ac with outputChans := fanOut ac.outputChans line, idleTimer := true }) }

/-- The part of `GetTailChan` after `tailFile`: the registration of the channel
under `ac.mutex`. The result holds the id returned. -/
def LogMgr.register (l : LogMgr) (appId : String) (outputChan : Chan Bytes) : LogMgr × Nat :=
  ((l.getAppContext appId).1.store appId
    { (l.getAppContext appId).2 with
      outputChans :=
        cluster.setAt (l.getAppContext appId).2.outputChans
          (l.getAppContext appId).2.nextId (some outputChan)
      nextId := cluster.uintInc (l.getAppContext appId).2.nextId },
   (l.getAppContext appId).2.nextId)

/-- The log manager together with the line that the handler of the app has
taken from the input queue and not yet sent to the subscribers, if any. -/
structure Handling where
  l : LogMgr
  held : Option Bytes

/-- What happens to the log of one app, step by step: a `WriteLine` that
returns `nil`, the first and the second part of an iteration of the handler on
a line, or the idle timer of the handler. -/
inductive HandlerEvent where
  | write (line : Bytes)
  | take (res : FileResult)
  | deliver
  | idle
  deriving DecidableEq, Repr

/-- One step; `none` when it cannot happen: the handler is one goroutine, it
takes a line or times out only when it holds no line. -/
def Handling.step (s : Handling) (appId : String) : HandlerEvent → Option Handling
  | HandlerEvent.write line =>
    match s.l.step appId (LogEvent.write line) with
    | some l1 => some { s with l := l1 }
    | none => none
  | HandlerEvent.take res =>
    match s.held with
    | some _ => none
    | none =>
      match s.l.takeLine appId res with
      | some (l1, line) => some { l := l1, held := some line }
      | none => none
  | HandlerEvent.deliver =>
    match s.held with
    | some line => some { l := s.l.fanOutLine appId line, held := none }
    | none => none
  | HandlerEvent.idle =>
    match s.held with
    | some _ => none
    | none =>
      match s.l.handleIdle appId with
      | some l1 => some { l := l1, held := none }
      | none => none

/-- A sequence of steps. -/
def Handling.run (s : Handling) (appId : String) : List HandlerEvent → Option Handling
  | [] => some s
  | e :: rest =>
    match s.step appId e with
    | some s1 => s1.run appId rest
    | none => none

/-- The lines of the `write` steps, in order. -/
def written : List HandlerEvent → List Bytes
  | [] => []
  | HandlerEvent.write line :: rest => line :: written rest
  | _ :: rest => written rest

/-- The lines that were written for the app and not yet sent to the
subscribers: the one that the handler holds, then the input queue. -/
def Handling.pending (s : Handling) (appId : String) : List Bytes :=
  s.held.toList ++ s.l.queue appId

/-- A new log manager whose file for "x" holds three lines, with no line
taken by the handler. -/
def threeLineFile : Handling :=
  { l := NewLogMgr "/log" (fun a => if a = "x" then some (ascii "p\nq\nr\n") else none)
    held := none }

/-- Two lines written and handled, each in two steps. -/
def twoWrites : List HandlerEvent :=
  [HandlerEvent.write (ascii "c"), HandlerEvent.take FileResult.good, HandlerEvent.deliver,
    HandlerEvent.write (ascii "d"), HandlerEvent.take FileResult.good, HandlerEvent.deliver]

end logmgr

namespace cluster

/-! ## Basic facts about the maps and the counters -/

@[simp] theorem setAt_same {α β : Type} [DecidableEq α] (f : α → β) (k : α) (v : β) :
    setAt f k v k = v := by
  simp [setAt]

theorem setAt_other {α β : Type} [DecidableEq α] (f : α → β) (k : α) (v : β) (x : α)
    (h : x ≠ k) : setAt f k v x = f x := by
  simp [setAt, h]

theorem uintInc_mod (n : Nat) : uintInc (n % uintSize) = (n + 1) % uintSize := by
  simp only [uintInc, uintSize]
  omega

theorem uintDec_mod (n : Nat) (h : 0 < n) : uintDec (n % uintSize) = (n - 1) % uintSize := by
  simp only [uintDec, uintSize]
  omega

theorem uintDec_uintInc (n : Nat) (h : n < uintSize) : uintDec (uintInc n) = n := by
  simp only [uintDec, uintInc, uintSize] at *
  omega

theorem uintDec_ne (n : Nat) : uintDec n ≠ n := by
  simp only [uintDec, uintSize] at *
  omega

theorem uintDec_pos (n : Nat) (h0 : 0 < n) (h : n < uintSize) : uintDec n + 1 = n := by
  simp only [uintDec, uintSize] at *
  omega

theorem mapGet_mapDelete_same (m : List (String × Context)) (k : String) :
    mapGet (mapDelete m k) k = none := by
  induction m with
  | nil => rfl
  | cons e rest ih =>
    obtain ⟨k1, v⟩ := e
    by_cases h : k1 = k
    · simpa [mapDelete, h] using ih
    · simpa [mapDelete, h, mapGet] using ih

theorem mapGet_mapDelete_other (m : List (String × Context)) (k x : String) (h : x ≠ k) :
    mapGet (mapDelete m k) x = mapGet m x := by
  induction m with
  | nil => rfl
  | cons e rest ih =>
    obtain ⟨k1, v⟩ := e
    by_cases h1 : k1 = k
    · have h2 : k1 ≠ x := fun h3 => h (h3 ▸ h1)
      have h3 : mapDelete ((k1, v) :: rest) k = mapDelete rest k := by
        simp [mapDelete, h1]
      rw [h3, ih]
      simp [mapGet, h2]
    · have h3 : mapDelete ((k1, v) :: rest) k = (k1, v) :: mapDelete rest k := by
        simp [mapDelete, h1]
      rw [h3]
      simp only [mapGet, ih]

theorem mapGet_mapSet_same (m : List (String × Context)) (k : String) (v : Context) :
    mapGet (mapSet m k v) k = some v := by
  simp [mapSet, mapGet]

theorem mapGet_mapSet_other (m : List (String × Context)) (k x : String) (v : Context)
    (h : x ≠ k) : mapGet (mapSet m k v) x = mapGet m x := by
  have h1 : k ≠ x := fun h2 => h h2.symm
  simp [mapSet, mapGet, h1, mapGet_mapDelete_other m k x h]

/-- The loop of `NewCluster` when no dial and no `CloseAll` fails. -/
theorem connectAgents_ok (agents : List String) (c : Cluster) :
    connectAgents (fun _ => none) (fun _ => none) agents c
      = Except.ok
          { c with
            AgentServiceClient := fun a => c.AgentServiceClient a || decide (a ∈ agents)
            Trace := c.Trace ++ agents.map Rpc.CloseAll } := by
  induction agents generalizing c with
  | nil => simp [connectAgents]
  | cons a rest ih =>
    simp only [connectAgents, ih]
    congr 2
    · funext x
      by_cases hx : x = a
      · simp [hx]
      · simp [setAt_other, hx]
    · simp

/-- `NewCluster` returns `fresh agents` when no dial and no `CloseAll` fails. -/
theorem NewCluster_fresh (agents : List String) :
    NewCluster agents (fun _ => none) (fun _ => none) = Except.ok (fresh agents) := by
  simp [NewCluster, connectAgents_ok, fresh, emptyCluster]

/-! ## C1: a failed `OpenContext` -/

/-- On a registry miss with a failing `OpenContext` or a failing `grpc.Dial`,
`GetContext` returns the error and leaves the registry and the refcounts as
they were, but the counter of the chosen agent stays incremented. -/
theorem GetContext_miss_failure (c : Cluster) (appId src wt : String)
    (openResult : Except String OpenContextResp) (dialErr : Option String) (err : String)
    (hmiss : mapGet c.AppContext appId = none)
    (hclient : c.AgentServiceClient c.bestAgent = true)
    (hfail : openResult = Except.error err ∨
      ((∃ resp, openResult = Except.ok resp) ∧ dialErr = some err)) :
    (c.GetContext appId src wt openResult dialErr).2 = Outcome.failed err
      ∧ (c.GetContext appId src wt openResult dialErr).1.AppContext = c.AppContext
      ∧ (c.GetContext appId src wt openResult dialErr).1.AppContextRefCount
          = c.AppContextRefCount
      ∧ (c.GetContext appId src wt openResult dialErr).1.AgentNumContexts c.bestAgent
          = uintInc (c.AgentNumContexts c.bestAgent) := by
  rcases hfail with h | ⟨⟨resp, h⟩, hd⟩
  · subst h
    simp [Cluster.GetContext, hmiss, hclient]
  · subst h
    subst hd
    simp [Cluster.GetContext, hmiss, hclient]

/-- C1 (evaluation at the failing input): on a fresh cluster with the single
agent "A", `GetContext("app1", "", "w1")` whose `OpenContext` fails returns the
error and leaves the registry and the refcount unchanged, but the counter of
"A", which was 0 before the call, is 1 after it and not back at 0; the same
happens when `OpenContext` succeeds and the channel creation fails. -/
theorem C1_failed_open_leaves_counter_incremented :
    ((fresh ["A"]).GetContext "app1" "" "w1" (Except.error "unavailable") none).2
        = Outcome.failed "unavailable"
      ∧ (fresh ["A"]).AgentNumContexts "A" = 0
      ∧ ((fresh ["A"]).GetContext "app1" "" "w1" (Except.error "unavailable") none).1.AgentNumContexts
          "A" = 1
      ∧ ((fresh ["A"]).GetContext "app1" "" "w1" (Except.error "unavailable") none).1.AppContext
          = (fresh ["A"]).AppContext
      ∧ ((fresh ["A"]).GetContext "app1" "" "w1" (Except.error "unavailable") none).1.AppContextRefCount
          "app1" = 0
      ∧ ((fresh ["A"]).GetContext "app1" "" "w1"
          (Except.ok { ContextId := "c1", GrpcEndpoint := "e", PortEndpoints := [] })
          (some "bad target")).2 = Outcome.failed "bad target"
      ∧ ((fresh ["A"]).GetContext "app1" "" "w1"
          (Except.ok { ContextId := "c1", GrpcEndpoint := "e", PortEndpoints := [] })
          (some "bad target")).1.AgentNumContexts "A" = 1 := by
  decide

/-! ## C2: agent counters and the registry -/

/-- C2 (evaluation at the failing input): from a fresh cluster with the single
agent "A", one `GetContext` whose `OpenContext` fails reaches a state in which
the counter of "A" is 1 while no context in the registry is placed on "A". -/
theorem C2_counter_exceeds_placed_after_failed_open :
    ((World.init ["A"]).run
        [Action.getContext "app1" "" "w1" (Except.error "unavailable") none]).map
      (fun w => (w.c.AgentNumContexts "A", w.c.placedOn "A")) = some (1, 0) := by
  decide

/-! ## C4: inconsistent worktree ids -/

/-- C4: when the registry holds a context for `appId` whose `WorktreeId` is not
the requested one, `GetContext` returns an error and no context, and the whole
state (registry, refcounts, agent counters, RPC trace) is as before the call,
so that no `OpenContext` is issued. -/
theorem C4_inconsistent_worktree (c : Cluster) (appId src wt : String) (context : Context)
    (openResult : Except String OpenContextResp) (dialErr : Option String)
    (hhit : mapGet c.AppContext appId = some context)
    (hdiff : context.WorktreeId ≠ wt) :
    c.GetContext appId src wt openResult dialErr
      = (c, Outcome.failed "Inconsistent worktree IDs for the same app") := by
  simp [Cluster.GetContext, hhit, hdiff]

/-- C4 at `twoLeases`, whose context for "app1" has the worktree id "w1", with
the request for "w2". -/
theorem C4_inconsistent_worktree_witness :
    mapGet twoLeases.AppContext "app1" = some sampleContext
      ∧ sampleContext.WorktreeId ≠ "w2"
      ∧ twoLeases.GetContext "app1" "" "w2" (Except.ok sampleResp) none
          = (twoLeases, Outcome.failed "Inconsistent worktree IDs for the same app") :=
  ⟨by decide, by decide,
    C4_inconsistent_worktree twoLeases "app1" "" "w2" sampleContext (Except.ok sampleResp) none
      (by decide) (by decide)⟩

/-! ## C3: refcounts and leases -/

/-- What `rlockAndReturn` does: it either waits forever and changes nothing,
or takes one read lock and returns the context with its closure. -/
theorem rlockAndReturn_cases (c : Cluster) (appId : String) (context : Context) :
    ((c.ctxMutex context.ptr).writer = true
        ∧ c.rlockAndReturn appId context = (c, Outcome.blocked))
      ∨ ((c.ctxMutex context.ptr).writer = false
        ∧ c.rlockAndReturn appId context =
          ({ c with
             ctxMutex := setAt c.ctxMutex context.ptr
               { readers := (c.ctxMutex context.ptr).readers + 1, writer := false } },
           Outcome.lease context { appId := appId, context := context.ptr })) := by
  by_cases h : (c.ctxMutex context.ptr).writer = true
  · left
    simp [Cluster.rlockAndReturn, h]
  · right
    simp [Cluster.rlockAndReturn, h]

/-- The refcounts after `rlockAndReturn` are those before it. -/
theorem rlockAndReturn_refcount (c : Cluster) (appId : String) (context : Context) :
    (c.rlockAndReturn appId context).1.AppContextRefCount = c.AppContextRefCount := by
  rcases rlockAndReturn_cases c appId context with ⟨_, h⟩ | ⟨_, h⟩ <;> rw [h]

/-- The outcome of `rlockAndReturn` is a lease on `appId` or a blocked call. -/
theorem rlockAndReturn_outcome (c : Cluster) (appId : String) (context : Context) :
    (c.rlockAndReturn appId context).2 = Outcome.blocked
      ∨ (c.rlockAndReturn appId context).2
          = Outcome.lease context { appId := appId, context := context.ptr } := by
  rcases rlockAndReturn_cases c appId context with ⟨_, h⟩ | ⟨_, h⟩ <;> rw [h] <;> simp

theorem refcountEffect_rlock (c c0 : Cluster) (appId : String) (context : Context)
    (h : c.AppContextRefCount
      = setAt c0.AppContextRefCount appId (uintInc (c0.AppContextRefCount appId))) :
    RefcountEffect c0 appId (c.rlockAndReturn appId context) := by
  have h1 := rlockAndReturn_refcount c appId context
  rcases rlockAndReturn_outcome c appId context with h2 | h2
  · refine ⟨?_, ?_, ?_, ?_⟩
    · intro context1 r h3
      rw [h2] at h3
      cases h3
    · intro _
      rw [h1, h]
    · intro err h3
      rw [h2] at h3
      cases h3
    · intro h3
      rw [h2] at h3
      cases h3
  · refine ⟨?_, ?_, ?_, ?_⟩
    · intro context1 r h3
      rw [h2] at h3
      injection h3 with h4 h5
      subst h5
      exact ⟨rfl, by rw [h1, h]⟩
    · intro h3
      rw [h2] at h3
      cases h3
    · intro err h3
      rw [h2] at h3
      cases h3
    · intro h3
      rw [h2] at h3
      cases h3

theorem refcountEffect_const (c c1 : Cluster) (appId : String) (o : Outcome)
    (h : c1.AppContextRefCount = c.AppContextRefCount)
    (ho : (∃ err, o = Outcome.failed err) ∨ o = Outcome.notFound ∨ o = Outcome.nilClient) :
    RefcountEffect c appId (c1, o) := by
  refine ⟨?_, ?_, ?_, ?_⟩
  · intro context r h3
    rcases ho with ⟨err, h4⟩ | h4 | h4 <;> simp [h4] at h3
  · intro h3
    rcases ho with ⟨err, h4⟩ | h4 | h4 <;> simp [h4] at h3
  · intro _ _
    exact h
  · intro _
    exact h

theorem GetExistingContext_refcount (c : Cluster) (appId : String) :
    RefcountEffect c appId (c.GetExistingContext appId) := by
  unfold Cluster.GetExistingContext
  split
  · exact refcountEffect_rlock _ c appId _ rfl
  · exact refcountEffect_const c c appId _ rfl (Or.inr (Or.inl rfl))

theorem GetContext_refcount (c : Cluster) (appId src wt : String)
    (openResult : Except String OpenContextResp) (dialErr : Option String) :
    RefcountEffect c appId (c.GetContext appId src wt openResult dialErr) := by
  unfold Cluster.GetContext
  split
  · split
    · exact refcountEffect_const c c appId _ rfl (Or.inl ⟨_, rfl⟩)
    · exact refcountEffect_rlock _ c appId _ rfl
  · simp only
    split
    · exact refcountEffect_const c _ appId _ rfl (Or.inr (Or.inr rfl))
    · split
      · exact refcountEffect_const c _ appId _ rfl (Or.inl ⟨_, rfl⟩)
      · split
        · exact refcountEffect_const c _ appId _ rfl (Or.inl ⟨_, rfl⟩)
        · exact refcountEffect_rlock _ c appId _ rfl

/-- Invariants are carried along an execution. -/
theorem run_invariant (P : World → Prop) (Q : Action → Prop)
    (hstep : ∀ w a w1, Q a → P w → w.step a = some w1 → P w1)
    (actions : List Action) (w w1 : World) (hQ : ∀ a ∈ actions, Q a) (hP : P w)
    (hrun : w.run actions = some w1) : P w1 := by
  induction actions generalizing w with
  | nil =>
    simp only [World.run, Option.some.injEq] at hrun
    exact hrun ▸ hP
  | cons a rest ih =>
    simp only [World.run] at hrun
    cases hs : w.step a with
    | none => simp [hs] at hrun
    | some w2 =>
      rw [hs] at hrun
      exact ih w2 (fun b hb => hQ b (List.mem_cons_of_mem a hb))
        (hstep w a w2 (hQ a (List.mem_cons_self a rest)) hP hs) hrun

theorem outstanding_cons (w : World) (c1 : Cluster) (r : ReleaseFn) (x : String) :
    World.outstanding { w with c := c1, leases := r :: w.leases } x
      = w.outstanding x + (if r.appId = x then 1 else 0) := by
  by_cases h : r.appId = x <;> simp [World.outstanding, List.filter_cons, h]

theorem waiting_cons (w : World) (c1 : Cluster) (a x : String) :
    World.waiting { w with c := c1, blocked := a :: w.blocked } x
      = w.waiting x + (if a = x then 1 else 0) := by
  by_cases h : a = x <;> simp [World.waiting, List.filter_cons, h]

theorem outstanding_erase (w : World) (c1 : Cluster) (r : ReleaseFn) (x : String)
    (h : r ∈ w.leases) :
    World.outstanding { w with c := c1, leases := w.leases.erase r } x
        + (if r.appId = x then 1 else 0) = w.outstanding x := by
  have hp := ((List.perm_cons_erase h).filter (fun r => decide (r.appId = x))).length_eq
  simp only [World.outstanding]
  rw [hp]
  by_cases h1 : r.appId = x <;> simp [List.filter_cons, h1]

theorem refInv_afterCall (w w1 : World) (appId : String) (res : Cluster × Outcome)
    (hinv : RefInv w) (heff : RefcountEffect w.c appId res)
    (h : w.afterCall appId res = some w1) : RefInv w1 := by
  obtain ⟨h1, h2, h3, h4⟩ := heff
  intro x
  have hx := hinv x
  have hi := uintInc_mod (w.outstanding x + w.waiting x)
  unfold World.afterCall at h
  split at h
  · rename_i context r ho
    obtain ⟨hr, hc⟩ := h1 context r ho
    simp only [Option.some.injEq] at h
    subst h
    rw [outstanding_cons]
    simp only [World.waiting] at *
    rw [hc]
    by_cases hxa : x = appId
    · subst hxa
      rw [setAt_same, hx, hi]
      simp only [hr, if_true]
      congr 1
      omega
    · have : r.appId ≠ x := fun h5 => hxa (h5 ▸ hr)
      rw [setAt_other _ _ _ _ hxa, hx]
      simp [this]
  · rename_i ho
    simp only [Option.some.injEq] at h
    subst h
    simp only [World.outstanding, World.waiting] at *
    rw [h4 ho, hx]
  · rename_i err ho
    simp only [Option.some.injEq] at h
    subst h
    simp only [World.outstanding, World.waiting] at *
    rw [h3 err ho, hx]
  · rename_i ho
    simp only [Option.some.injEq] at h
    subst h
    rw [waiting_cons]
    simp only [World.outstanding] at *
    rw [h2 ho]
    by_cases hxa : x = appId
    · subst hxa
      rw [setAt_same, hx, hi]
      simp only [if_true, Nat.add_assoc]
    · have : appId ≠ x := fun h5 => hxa h5.symm
      rw [setAt_other _ _ _ _ hxa, hx]
      simp [this]
  · simp at h

theorem expiryWatcher_refcount (c c1 : Cluster) (context : Context) (closeErr : Option Nat)
    (h : c.expiryWatcher context closeErr = some c1) :
    c1.AppContextRefCount = c.AppContextRefCount := by
  unfold Cluster.expiryWatcher at h
  split at h
  · simp only [Option.some.injEq] at h
    subst h
    rfl
  · split at h
    · simp at h
    · simp only at h
      split at h <;>
      · simp only [Option.some.injEq] at h
        subst h
        rfl

theorem call_refcount (r : ReleaseFn) (c c1 : Cluster) (h : r.call c = some c1) :
    c1.AppContextRefCount
      = setAt c.AppContextRefCount r.appId (uintDec (c.AppContextRefCount r.appId)) := by
  unfold ReleaseFn.call at h
  split at h
  · simp at h
  · simp only [Option.some.injEq] at h
    subst h
    rfl

theorem refInv_step (w : World) (a : Action) (w1 : World) (hinv : RefInv w)
    (h : w.step a = some w1) : RefInv w1 := by
  cases a with
  | getContext appId src wt openResult dialErr =>
    exact refInv_afterCall w w1 appId _ hinv (GetContext_refcount _ _ _ _ _ _) h
  | getExisting appId =>
    exact refInv_afterCall w w1 appId _ hinv (GetExistingContext_refcount _ _) h
  | release r =>
    simp only [World.step] at h
    split at h
    · rename_i hmem
      split at h
      · rename_i c1 hcall
        simp only [Option.some.injEq] at h
        subst h
        intro x
        have hx := hinv x
        have he := outstanding_erase w c1 r x hmem
        have hc := call_refcount r w.c c1 hcall
        show c1.AppContextRefCount x
          = (World.outstanding { w with c := c1, leases := w.leases.erase r } x
              + w.waiting x) % uintSize
        rw [hc]
        by_cases hxa : x = r.appId
        · subst hxa
          simp only [if_true] at he
          have hpos : 0 < w.outstanding r.appId + w.waiting r.appId := by omega
          rw [setAt_same, hx, uintDec_mod _ hpos]
          congr 1
          omega
        · have : r.appId ≠ x := fun h5 => hxa h5.symm
          simp only [this, if_false, Nat.add_zero] at he
          rw [setAt_other _ _ _ _ hxa, hx, he]
      · simp at h
    · simp at h
  | expire context closeErr =>
    simp only [World.step] at h
    split at h
    · split at h
      · rename_i c1 hexp
        simp only [Option.some.injEq] at h
        subst h
        intro x
        have hx := hinv x
        simp only [World.outstanding, World.waiting] at *
        rw [expiryWatcher_refcount _ _ _ _ hexp, hx]
      · simp at h
    · simp at h

theorem refInv_init (agents : List String) : RefInv (World.init agents) := by
  intro x
  simp [World.init, fresh, emptyCluster, World.outstanding, World.waiting]

theorem rlockAndReturn_noFence (c : Cluster) (appId : String) (context : Context)
    (h : ∀ p, (c.ctxMutex p).writer = false) :
    (∀ p, ((c.rlockAndReturn appId context).1.ctxMutex p).writer = false)
      ∧ (c.rlockAndReturn appId context).2 ≠ Outcome.blocked := by
  rcases rlockAndReturn_cases c appId context with ⟨h1, _⟩ | ⟨_, h2⟩
  · rw [h context.ptr] at h1
    cases h1
  · rw [h2]
    refine ⟨?_, by simp⟩
    intro p
    by_cases hp : p = context.ptr
    · subst hp
      simp
    · simp only [setAt_other _ _ _ _ hp]
      exact h p

theorem GetExistingContext_noFence (c : Cluster) (appId : String)
    (h : ∀ p, (c.ctxMutex p).writer = false) :
    (∀ p, ((c.GetExistingContext appId).1.ctxMutex p).writer = false)
      ∧ (c.GetExistingContext appId).2 ≠ Outcome.blocked := by
  unfold Cluster.GetExistingContext
  split
  · exact rlockAndReturn_noFence _ _ _ h
  · exact ⟨h, by simp⟩

theorem GetContext_noFence (c : Cluster) (appId src wt : String)
    (openResult : Except String OpenContextResp) (dialErr : Option String)
    (h : ∀ p, (c.ctxMutex p).writer = false) :
    (∀ p, ((c.GetContext appId src wt openResult dialErr).1.ctxMutex p).writer = false)
      ∧ (c.GetContext appId src wt openResult dialErr).2 ≠ Outcome.blocked := by
  unfold Cluster.GetContext
  split
  · split
    · exact ⟨h, by simp⟩
    · exact rlockAndReturn_noFence _ _ _ h
  · simp only
    split
    · exact ⟨h, by simp⟩
    · split
      · exact ⟨h, by simp⟩
      · split
        · exact ⟨h, by simp⟩
        · apply rlockAndReturn_noFence
          intro p
          by_cases hp : p = c.nextPtr
          · rw [hp]
            simp [newContext]
          · simp only [newContext, setAt_other _ _ _ _ hp]
            exact h p

theorem noFence_afterCall (w w1 : World) (appId : String) (res : Cluster × Outcome)
    (hinv : NoFence w)
    (hres : (∀ p, (res.1.ctxMutex p).writer = false) ∧ res.2 ≠ Outcome.blocked)
    (h : w.afterCall appId res = some w1) : NoFence w1 := by
  unfold World.afterCall at h
  split at h
  · simp only [Option.some.injEq] at h
    subst h
    exact ⟨hres.1, hinv.2⟩
  · simp only [Option.some.injEq] at h
    subst h
    exact ⟨hres.1, hinv.2⟩
  · simp only [Option.some.injEq] at h
    subst h
    exact ⟨hres.1, hinv.2⟩
  · rename_i ho
    exact absurd ho hres.2
  · simp at h

theorem noFence_step (w : World) (a : Action) (w1 : World) (hq : a.fatal = false)
    (hinv : NoFence w) (h : w.step a = some w1) : NoFence w1 := by
  cases a with
  | getContext appId src wt openResult dialErr =>
    exact noFence_afterCall w w1 appId _ hinv (GetContext_noFence _ _ _ _ _ _ hinv.1) h
  | getExisting appId =>
    exact noFence_afterCall w w1 appId _ hinv (GetExistingContext_noFence _ _ hinv.1) h
  | release r =>
    simp only [World.step] at h
    split at h
    · split at h
      · rename_i c1 hcall
        simp only [Option.some.injEq] at h
        subst h
        refine ⟨?_, hinv.2⟩
        unfold ReleaseFn.call at hcall
        split at hcall
        · simp at hcall
        · simp only [Option.some.injEq] at hcall
          subst hcall
          intro p
          by_cases hp : p = r.context
          · rw [hp]
            simpa using hinv.1 r.context
          · simp only [setAt_other _ _ _ _ hp]
            exact hinv.1 p
      · simp at h
    · simp at h
  | expire context closeErr =>
    simp only [World.step] at h
    split at h
    · split at h
      · rename_i c1 hexp
        simp only [Option.some.injEq] at h
        subst h
        refine ⟨?_, hinv.2⟩
        unfold Cluster.expiryWatcher at hexp
        split at hexp
        · simp only [Option.some.injEq] at hexp
          subst hexp
          exact hinv.1
        · split at hexp
          · simp at hexp
          · simp only at hexp
            split at hexp
            · simp only [Option.some.injEq] at hexp
              subst hexp
              intro p
              by_cases hp : p = context.ptr
              · subst hp
                simp
              · simp only [setAt_other _ _ _ _ hp]
                exact hinv.1 p
            · rename_i hne
              cases closeErr with
              | none => simp at hne
              | some code =>
                simp only [Action.fatal, decide_eq_false_iff_not, not_not] at hq
                simp [hq] at hne
      · simp at h
    · simp at h

theorem noFence_init (agents : List String) : NoFence (World.init agents) := by
  simp [NoFence, World.init, fresh, emptyCluster]

/-- C3 (the claim as stated fails): on a fresh cluster with the single agent
"A", lease "app1", release it, let the expiry fire with a `CloseContext` that
fails with `Unavailable`, then call `GetContext("app1", "", "w1")` again. The
last call increments the refcount and then waits forever on the context lock,
so the refcount of "app1" is 1 while no lease on "app1" is outstanding. -/
theorem C3_refcount_exceeds_leases_after_fence :
    ((World.init ["A"]).run
        [Action.getContext "app1" "" "w1" (Except.ok sampleResp) none,
          Action.release { appId := "app1", context := 0 },
          Action.expire sampleContext (some Unavailable),
          Action.getContext "app1" "" "w1" (Except.ok sampleResp) none]).map
      (fun w => (w.c.AppContextRefCount "app1", w.outstanding "app1", w.waiting "app1"))
      = some (1, 0, 1) := by
  decide

/-- C3 (amended): in every state reachable from a fresh cluster by `GetContext`
and `GetExistingContext` calls, calls of release closures (each at most once)
and timer deliveries, the refcount of every app equals, modulo `2 ^ 64`, the
number of leases returned for it and not yet released plus the number of calls
for it that incremented the refcount and then wait forever on the lock of a
context whose teardown failed; when no `CloseContext` of the execution failed
with a code other than `InvalidArgument` there are no such calls; and a
`GetContext` that returns an error changes no refcount. -/
theorem C3_refcount_counts_leases_and_waiting_calls (agents : List String)
    (actions : List Action) (w : World)
    (h : (World.init agents).run actions = some w) (x : String) :
    w.c.AppContextRefCount x = (w.outstanding x + w.waiting x) % uintSize
      ∧ ((∀ a ∈ actions, a.fatal = false) → w.waiting x = 0)
      ∧ (∀ src wt openResult dialErr err,
          (w.c.GetContext x src wt openResult dialErr).2 = Outcome.failed err →
          (w.c.GetContext x src wt openResult dialErr).1.AppContextRefCount
            = w.c.AppContextRefCount) := by
  refine ⟨?_, ?_, ?_⟩
  · exact run_invariant RefInv (fun _ => True)
      (fun w a w1 _ hi hs => refInv_step w a w1 hi hs) actions _ w
      (fun _ _ => trivial) (refInv_init agents) h x
  · intro hq
    have hn := run_invariant NoFence (fun a => a.fatal = false)
      (fun w a w1 hq hi hs => noFence_step w a w1 hq hi hs) actions _ w
      hq (noFence_init agents) h
    simp [World.waiting, hn.2]
  · intro src wt openResult dialErr err he
    exact (GetContext_refcount w.c x src wt openResult dialErr).2.2.1 err he

/-- C3 (amended), at the execution `fencedRun`, in which a call waits forever
on the fenced context of "app1". -/
theorem C3_refcount_counts_leases_and_waiting_calls_witness :
    (World.init ["A"]).run fencedRun = some fencedWorld
      ∧ fencedWorld.c.AppContextRefCount "app1"
          = (fencedWorld.outstanding "app1" + fencedWorld.waiting "app1") % uintSize
      ∧ ((∀ a ∈ fencedRun, a.fatal = false) → fencedWorld.waiting "app1" = 0)
      ∧ (∀ src wt openResult dialErr err,
          (fencedWorld.c.GetContext "app1" src wt openResult dialErr).2 = Outcome.failed err →
          (fencedWorld.c.GetContext "app1" src wt openResult dialErr).1.AppContextRefCount
            = fencedWorld.c.AppContextRefCount) :=
  ⟨rfl, C3_refcount_counts_leases_and_waiting_calls ["A"] fencedRun fencedWorld rfl "app1"⟩

/-! ## C5: a timer delivery while the context is leased -/

theorem countClose_append_open (t : List Rpc) (a w s : String) :
    countClose (t ++ [Rpc.OpenContext a w s]) = countClose t := by
  simp [countClose]

theorem countClose_append_close (t : List Rpc) (a i : String) :
    countClose (t ++ [Rpc.CloseContext a i]) = countClose t + 1 := by
  simp [countClose]

theorem rlockAndReturn_trace (c : Cluster) (appId : String) (context : Context) :
    (c.rlockAndReturn appId context).1.Trace = c.Trace := by
  rcases rlockAndReturn_cases c appId context with ⟨_, h⟩ | ⟨_, h⟩ <;> rw [h]

theorem GetExistingContext_trace (c : Cluster) (appId : String) :
    (c.GetExistingContext appId).1.Trace = c.Trace := by
  unfold Cluster.GetExistingContext
  split
  · rw [rlockAndReturn_trace]
  · rfl

/-- The trace after `GetContext` is the one before it, followed by at most one
`OpenContext`. -/
theorem GetContext_trace (c : Cluster) (appId src wt : String)
    (openResult : Except String OpenContextResp) (dialErr : Option String) :
    (c.GetContext appId src wt openResult dialErr).1.Trace = c.Trace
      ∨ (c.GetContext appId src wt openResult dialErr).1.Trace
          = c.Trace ++ [Rpc.OpenContext c.bestAgent wt src] := by
  unfold Cluster.GetContext
  split
  · split
    · exact Or.inl rfl
    · exact Or.inl (rlockAndReturn_trace _ _ _)
  · simp only
    split
    · exact Or.inl rfl
    · split
      · exact Or.inr rfl
      · split
        · exact Or.inr rfl
        · exact Or.inr (rlockAndReturn_trace _ _ _)

theorem call_trace (r : ReleaseFn) (c c1 : Cluster) (h : r.call c = some c1) :
    c1.Trace = c.Trace := by
  unfold ReleaseFn.call at h
  split at h
  · simp at h
  · simp only [Option.some.injEq] at h
    subst h
    rfl

/-- C5: a timer delivery at which the refcount of the app is positive does not
tear the context down: the watcher goes on, the registry, the agent counters
and the context locks stay as they are, no RPC is issued and the timer is armed
again. A timer delivery that issues a `CloseContext` is one at which the
refcount is zero, and neither `GetContext`, `GetExistingContext` nor a release
closure ever issues a `CloseContext`. -/
theorem C5_no_teardown_while_leased (c : Cluster) (context : Context)
    (closeErr : Option Nat) :
    (0 < c.AppContextRefCount context.AppId →
      ∃ c1, c.expiryWatcher context closeErr = some c1
        ∧ c1.AppContext = c.AppContext ∧ c1.Trace = c.Trace
        ∧ c1.Timer context.ptr = true ∧ c1.Watchers = c.Watchers
        ∧ c1.AgentNumContexts = c.AgentNumContexts ∧ c1.ctxMutex = c.ctxMutex
        ∧ c1.AppContextRefCount = c.AppContextRefCount)
      ∧ (∀ c1, c.expiryWatcher context closeErr = some c1 →
          countClose c1.Trace ≠ countClose c.Trace →
          c.AppContextRefCount context.AppId = 0)
      ∧ (∀ appId src wt openResult dialErr,
          countClose (c.GetContext appId src wt openResult dialErr).1.Trace
            = countClose c.Trace)
      ∧ (∀ appId, countClose (c.GetExistingContext appId).1.Trace = countClose c.Trace)
      ∧ (∀ (r : ReleaseFn) c1, r.call c = some c1 → countClose c1.Trace = countClose c.Trace) := by
  refine ⟨?_, ?_, ?_, ?_, ?_⟩
  · intro h
    exact ⟨{ c with Timer := setAt c.Timer context.ptr true },
      by simp [Cluster.expiryWatcher, h], rfl, rfl, by simp, rfl, rfl, rfl, rfl⟩
  · intro c1 h hne
    by_cases h0 : 0 < c.AppContextRefCount context.AppId
    · simp only [Cluster.expiryWatcher, gt_iff_lt, h0, if_true, Option.some.injEq] at h
      subst h
      exact absurd rfl hne
    · omega
  · intro appId src wt openResult dialErr
    rcases GetContext_trace c appId src wt openResult dialErr with h | h
    · rw [h]
    · rw [h, countClose_append_open]
  · intro appId
    rw [GetExistingContext_trace]
  · intro r c1 h
    rw [call_trace r c c1 h]

/-- C5 at two leases held: the refcount of "app1" is 2, and the timer delivery
keeps the context. -/
theorem C5_no_teardown_while_leased_witness :
    twoLeases.AppContextRefCount sampleContext.AppId = 2
      ∧ ∃ c1, twoLeases.expiryWatcher sampleContext none = some c1
        ∧ c1.AppContext = twoLeases.AppContext ∧ c1.Trace = twoLeases.Trace
        ∧ c1.Timer sampleContext.ptr = true ∧ c1.Watchers = twoLeases.Watchers
        ∧ c1.AgentNumContexts = twoLeases.AgentNumContexts
        ∧ c1.ctxMutex = twoLeases.ctxMutex
        ∧ c1.AppContextRefCount = twoLeases.AppContextRefCount :=
  ⟨by decide, (C5_no_teardown_while_leased twoLeases sampleContext none).1 (by decide)⟩

/-! ## C6: teardown -/

/-- C6: when the refcount of the app is zero at a timer delivery, the watcher
gets the context lock, and `CloseContext` succeeds or fails with
`InvalidArgument`, then exactly one `CloseContext` is issued to the hosting
agent, the entry of the app is removed from the registry (the other entries
stay), the counter of the hosting agent is decremented by one (the other
counters stay) and the context lock is free afterwards. On a fresh cluster with
the single agent "A", lease, release and one timer delivery take the counter
of "A" from 1 to 0 with exactly one `CloseContext`. -/
theorem C6_teardown_removes_and_decrements (c : Cluster) (context : Context)
    (closeErr : Option Nat)
    (h0 : c.AppContextRefCount context.AppId = 0)
    (hfree : c.ctxMutex context.ptr = { readers := 0, writer := false })
    (hok : closeErr = none ∨ closeErr = some InvalidArgument) :
    (∃ c1, c.expiryWatcher context closeErr = some c1
        ∧ mapGet c1.AppContext context.AppId = none
        ∧ (∀ x, x ≠ context.AppId → mapGet c1.AppContext x = mapGet c.AppContext x)
        ∧ c1.AgentNumContexts context.Agent = uintDec (c.AgentNumContexts context.Agent)
        ∧ (0 < c.AgentNumContexts context.Agent →
            c.AgentNumContexts context.Agent < uintSize →
            c1.AgentNumContexts context.Agent + 1 = c.AgentNumContexts context.Agent)
        ∧ (∀ a, a ≠ context.Agent → c1.AgentNumContexts a = c.AgentNumContexts a)
        ∧ c1.ctxMutex context.ptr = { readers := 0, writer := false }
        ∧ c1.Trace = c.Trace ++ [Rpc.CloseContext context.Agent context.Id])
      ∧ ((World.init ["A"]).run
            [Action.getContext "app1" "" "w1" (Except.ok sampleResp) none]).map
          (fun w => (w.c.AgentNumContexts "A", countOpen w.c.Trace, countClose w.c.Trace))
          = some (1, 1, 0)
      ∧ ((World.init ["A"]).run
            [Action.getContext "app1" "" "w1" (Except.ok sampleResp) none,
              Action.release { appId := "app1", context := 0 },
              Action.expire sampleContext closeErr]).map
          (fun w => (w.c.AgentNumContexts "A", countOpen w.c.Trace, countClose w.c.Trace,
            mapGet w.c.AppContext "app1"))
          = some (0, 1, 1, none) := by
  refine ⟨?_, by decide, ?_⟩
  · have hexp : c.expiryWatcher context closeErr = some
        { c with
          Timer := setAt c.Timer context.ptr false
          TrackerStopped := setAt c.TrackerStopped context.ptr true
          ConnClosed := setAt c.ConnClosed context.ptr true
          Watchers := c.Watchers.filter (fun w => decide (w ≠ context))
          Trace := c.Trace ++ [Rpc.CloseContext context.Agent context.Id]
          AppContext := mapDelete c.AppContext context.AppId
          AgentNumContexts :=
            setAt c.AgentNumContexts context.Agent (uintDec (c.AgentNumContexts context.Agent))
          ctxMutex := setAt c.ctxMutex context.ptr { readers := 0, writer := false } } := by
      simp [Cluster.expiryWatcher, h0, hfree, hok]
    refine ⟨_, hexp, ?_, ?_, ?_, ?_, ?_, ?_, rfl⟩
    · exact mapGet_mapDelete_same _ _
    · intro x hx
      exact mapGet_mapDelete_other _ _ _ hx
    · simp
    · intro hpos hlt
      simpa using uintDec_pos _ hpos hlt
    · intro a ha
      exact setAt_other _ _ _ _ ha
    · simp
  · rcases hok with h | h <;> subst h <;> decide

/-- C6 at the cluster that leased and released "app1" once. -/
theorem C6_teardown_removes_and_decrements_witness :
    leasedAndReleased.AppContextRefCount sampleContext.AppId = 0
      ∧ leasedAndReleased.AgentNumContexts "A" = 1
      ∧ ∃ c1, leasedAndReleased.expiryWatcher sampleContext (some InvalidArgument) = some c1
        ∧ mapGet c1.AppContext sampleContext.AppId = none
        ∧ c1.AgentNumContexts sampleContext.Agent
            = uintDec (leasedAndReleased.AgentNumContexts sampleContext.Agent)
        ∧ c1.ctxMutex sampleContext.ptr = { readers := 0, writer := false } :=
  ⟨by decide, by decide,
    match (C6_teardown_removes_and_decrements leasedAndReleased sampleContext
      (some InvalidArgument) (by decide) (by decide) (Or.inr rfl)).1 with
    | ⟨c1, h1, h2, _, h4, _, _, h7, _⟩ => ⟨c1, h1, h2, h4, h7⟩⟩

/-! ## C7: the fence after a failed teardown -/

theorem rlockAndReturn_frame (c : Cluster) (appId : String) (context : Context) :
    (c.rlockAndReturn appId context).1.AppContext = c.AppContext
      ∧ (c.rlockAndReturn appId context).1.Watchers = c.Watchers
      ∧ (c.rlockAndReturn appId context).1.nextPtr = c.nextPtr
      ∧ (c.rlockAndReturn appId context).1.AgentNumContexts = c.AgentNumContexts := by
  rcases rlockAndReturn_cases c appId context with ⟨_, h⟩ | ⟨_, h⟩ <;> rw [h] <;> simp

theorem rlockAndReturn_writer (c : Cluster) (appId : String) (context : Context) (p : Nat)
    (h : (c.ctxMutex p).writer = true) :
    ((c.rlockAndReturn appId context).1.ctxMutex p).writer = true := by
  rcases rlockAndReturn_cases c appId context with ⟨_, h1⟩ | ⟨h0, h1⟩ <;> rw [h1]
  · exact h
  · have hp : p ≠ context.ptr := by
      intro hp
      rw [hp, h0] at h
      cases h
    simp only [setAt_other _ _ _ _ hp]
    exact h

/-- The effect of `GetContext` on the registry, the watchers and `nextPtr`:
nothing, or the insertion of a new context for an app that had none. -/
theorem GetContext_structure (c : Cluster) (appId src wt : String)
    (openResult : Except String OpenContextResp) (dialErr : Option String) :
    ((c.GetContext appId src wt openResult dialErr).1.AppContext = c.AppContext
        ∧ (c.GetContext appId src wt openResult dialErr).1.Watchers = c.Watchers
        ∧ (c.GetContext appId src wt openResult dialErr).1.nextPtr = c.nextPtr)
      ∨ (mapGet c.AppContext appId = none ∧ ∃ resp,
          (c.GetContext appId src wt openResult dialErr).1.AppContext
            = mapSet c.AppContext appId (newContext c.nextPtr appId wt c.bestAgent resp)
          ∧ (c.GetContext appId src wt openResult dialErr).1.Watchers
            = newContext c.nextPtr appId wt c.bestAgent resp :: c.Watchers
          ∧ (c.GetContext appId src wt openResult dialErr).1.nextPtr = c.nextPtr + 1) := by
  unfold Cluster.GetContext
  split
  · split
    · exact Or.inl ⟨rfl, rfl, rfl⟩
    · have h := rlockAndReturn_frame
        { c with
          AppContextRefCount :=
            setAt c.AppContextRefCount appId (uintInc (c.AppContextRefCount appId)) }
        appId ‹Context›
      exact Or.inl ⟨h.1, h.2.1, h.2.2.1⟩
  · rename_i hmiss
    simp only
    split
    · exact Or.inl ⟨rfl, rfl, rfl⟩
    · split
      · exact Or.inl ⟨rfl, rfl, rfl⟩
      · rename_i resp
        split
        · exact Or.inl ⟨rfl, rfl, rfl⟩
        · refine Or.inr ⟨hmiss, resp, ?_⟩
          have h := rlockAndReturn_frame
            { c with
              AgentNumContexts :=
                setAt c.AgentNumContexts c.bestAgent (uintInc (c.AgentNumContexts c.bestAgent))
              Trace := c.Trace ++ [Rpc.OpenContext c.bestAgent wt src]
              AppContext :=
                mapSet c.AppContext appId (newContext c.nextPtr appId wt c.bestAgent resp)
              AppContextRefCount :=
                setAt c.AppContextRefCount appId (uintInc (c.AppContextRefCount appId))
              ctxMutex := setAt c.ctxMutex (newContext c.nextPtr appId wt c.bestAgent resp).ptr
                { readers := 0, writer := false }
              Timer := setAt c.Timer (newContext c.nextPtr appId wt c.bestAgent resp).ptr true
              TrackerStopped :=
                setAt c.TrackerStopped (newContext c.nextPtr appId wt c.bestAgent resp).ptr false
              ConnClosed :=
                setAt c.ConnClosed (newContext c.nextPtr appId wt c.bestAgent resp).ptr false
              Watchers := newContext c.nextPtr appId wt c.bestAgent resp :: c.Watchers
              nextPtr := c.nextPtr + 1 }
            appId (newContext c.nextPtr appId wt c.bestAgent resp)
          exact ⟨h.1, h.2.1, h.2.2.1⟩

theorem GetContext_writer (c : Cluster) (appId src wt : String)
    (openResult : Except String OpenContextResp) (dialErr : Option String) (p : Nat)
    (h : (c.ctxMutex p).writer = true) (hp : p ≠ c.nextPtr) :
    ((c.GetContext appId src wt openResult dialErr).1.ctxMutex p).writer = true := by
  unfold Cluster.GetContext
  split
  · split
    · exact h
    · exact rlockAndReturn_writer _ _ _ _ h
  · simp only
    split
    · exact h
    · split
      · exact h
      · split
        · exact h
        · apply rlockAndReturn_writer
          simp only [newContext, setAt_other _ _ _ _ hp]
          exact h

theorem GetExistingContext_structure (c : Cluster) (appId : String) :
    (c.GetExistingContext appId).1.AppContext = c.AppContext
      ∧ (c.GetExistingContext appId).1.Watchers = c.Watchers
      ∧ (c.GetExistingContext appId).1.nextPtr = c.nextPtr := by
  unfold Cluster.GetExistingContext
  split
  · have h := rlockAndReturn_frame
      { c with
        AppContextRefCount :=
          setAt c.AppContextRefCount appId (uintInc (c.AppContextRefCount appId)) }
      appId ‹Context›
    exact ⟨h.1, h.2.1, h.2.2.1⟩
  · exact ⟨rfl, rfl, rfl⟩

theorem GetExistingContext_writer (c : Cluster) (appId : String) (p : Nat)
    (h : (c.ctxMutex p).writer = true) :
    ((c.GetExistingContext appId).1.ctxMutex p).writer = true := by
  unfold Cluster.GetExistingContext
  split
  · exact rlockAndReturn_writer _ _ _ _ h
  · exact h

theorem call_structure (r : ReleaseFn) (c c1 : Cluster) (h : r.call c = some c1) :
    c1.AppContext = c.AppContext ∧ c1.Watchers = c.Watchers ∧ c1.nextPtr = c.nextPtr
      ∧ c1.AgentNumContexts = c.AgentNumContexts
      ∧ ∀ p, (c1.ctxMutex p).writer = (c.ctxMutex p).writer := by
  unfold ReleaseFn.call at h
  split at h
  · simp at h
  · simp only [Option.some.injEq] at h
    subst h
    refine ⟨rfl, rfl, rfl, rfl, ?_⟩
    intro p
    by_cases hp : p = r.context
    · rw [hp]
      simp
    · simp only [setAt_other _ _ _ _ hp]

/-- The effect of a timer delivery on the registry, the watchers, `nextPtr`
and the context locks. -/
theorem expiryWatcher_structure (c c1 : Cluster) (context : Context) (closeErr : Option Nat)
    (h : c.expiryWatcher context closeErr = some c1) :
    c1.nextPtr = c.nextPtr
      ∧ (c1.AppContext = c.AppContext ∨ c1.AppContext = mapDelete c.AppContext context.AppId)
      ∧ ((c1.AppContext = c.AppContext ∧ c1.Watchers = c.Watchers)
          ∨ (c1.AppContext = c.AppContext
              ∧ c1.Watchers = c.Watchers.filter (fun w => decide (w ≠ context)))
          ∨ (c1.AppContext = mapDelete c.AppContext context.AppId
              ∧ c1.Watchers = c.Watchers.filter (fun w => decide (w ≠ context))))
      ∧ ∀ p, p ≠ context.ptr → c1.ctxMutex p = c.ctxMutex p := by
  unfold Cluster.expiryWatcher at h
  split at h
  · simp only [Option.some.injEq] at h
    subst h
    exact ⟨rfl, Or.inl rfl, Or.inl ⟨rfl, rfl⟩, fun _ _ => rfl⟩
  · split at h
    · simp at h
    · simp only at h
      split at h
      · simp only [Option.some.injEq] at h
        subst h
        exact ⟨rfl, Or.inr rfl, Or.inr (Or.inr ⟨rfl, rfl⟩),
          fun p hp => setAt_other _ _ _ _ hp⟩
      · simp only [Option.some.injEq] at h
        subst h
        exact ⟨rfl, Or.inl rfl, Or.inr (Or.inl ⟨rfl, rfl⟩),
          fun p hp => setAt_other _ _ _ _ hp⟩

theorem watchInv_congr (c c1 : Cluster) (h1 : c1.AppContext = c.AppContext)
    (h2 : c1.Watchers = c.Watchers) (h3 : c1.nextPtr = c.nextPtr) (h : WatchInv c) :
    WatchInv c1 := by
  unfold WatchInv at *
  rw [h1, h2, h3]
  exact h

theorem fenced_congr (context : Context) (c c1 : Cluster) (h1 : c1.AppContext = c.AppContext)
    (h2 : c1.Watchers = c.Watchers) (h3 : c1.nextPtr = c.nextPtr)
    (h4 : (c.ctxMutex context.ptr).writer = true → (c1.ctxMutex context.ptr).writer = true)
    (h : Fenced context c) : Fenced context c1 := by
  unfold Fenced at *
  rw [h1, h2, h3]
  exact ⟨h.1, h4 h.2.1, h.2.2.1, h.2.2.2⟩

theorem watchInv_GetContext (c : Cluster) (appId src wt : String)
    (openResult : Except String OpenContextResp) (dialErr : Option String)
    (h : WatchInv c) : WatchInv (c.GetContext appId src wt openResult dialErr).1 := by
  rcases GetContext_structure c appId src wt openResult dialErr with
    ⟨h1, h2, h3⟩ | ⟨hmiss, resp, h1, h2, h3⟩
  · exact watchInv_congr c _ h1 h2 h3 h
  · unfold WatchInv
    rw [h1, h2, h3]
    have hold : ∀ v ∈ c.Watchers, v.AppId ≠ appId := by
      intro v hv hEq
      have := (h.1 v hv).1
      rw [hEq, hmiss] at this
      cases this
    constructor
    · intro v hv
      rcases List.mem_cons.1 hv with hv | hv
      · subst hv
        exact ⟨mapGet_mapSet_same _ _ _, Nat.lt_succ_self _⟩
      · exact ⟨by rw [mapGet_mapSet_other _ _ _ _ (hold v hv)]; exact (h.1 v hv).1,
          Nat.lt_succ_of_lt (h.1 v hv).2⟩
    · intro v hv v1 hv1 hp
      rcases List.mem_cons.1 hv with hv | hv <;> rcases List.mem_cons.1 hv1 with hv1 | hv1
      · rw [hv, hv1]
      · have := (h.1 v1 hv1).2
        rw [hv] at hp
        simp only [newContext] at hp
        omega
      · have := (h.1 v hv).2
        rw [hv1] at hp
        simp only [newContext] at hp
        omega
      · exact h.2 v hv v1 hv1 hp

theorem watchInv_expiryWatcher (c c1 : Cluster) (context : Context) (closeErr : Option Nat)
    (hmem : context ∈ c.Watchers) (h : WatchInv c)
    (hexp : c.expiryWatcher context closeErr = some c1) : WatchInv c1 := by
  obtain ⟨h3, _, hw, _⟩ := expiryWatcher_structure c c1 context closeErr hexp
  have hsub : ∀ v, v ∈ c.Watchers.filter (fun w => decide (w ≠ context)) →
      v ∈ c.Watchers ∧ v ≠ context := by
    intro v hv
    simpa using List.mem_filter.1 hv
  rcases hw with ⟨h1, hw⟩ | ⟨h1, hw⟩ | ⟨h1, hw⟩
  · exact watchInv_congr c c1 h1 hw h3 h
  · unfold WatchInv
    rw [h1, hw, h3]
    exact ⟨fun v hv => h.1 v (hsub v hv).1,
      fun v hv v1 hv1 hp => h.2 v (hsub v hv).1 v1 (hsub v1 hv1).1 hp⟩
  · unfold WatchInv
    rw [h1, hw, h3]
    refine ⟨fun v hv => ?_, fun v hv v1 hv1 hp => h.2 v (hsub v hv).1 v1 (hsub v1 hv1).1 hp⟩
    obtain ⟨hv1, hv2⟩ := hsub v hv
    have hne : v.AppId ≠ context.AppId := by
      intro hEq
      have e1 := (h.1 v hv1).1
      have e2 := (h.1 context hmem).1
      rw [hEq, e2] at e1
      exact hv2 (Option.some.inj e1).symm
    exact ⟨by rw [mapGet_mapDelete_other _ _ _ hne]; exact (h.1 v hv1).1, (h.1 v hv1).2⟩

theorem afterCall_c (w w1 : World) (appId : String) (res : Cluster × Outcome)
    (h : w.afterCall appId res = some w1) : w1.c = res.1 := by
  unfold World.afterCall at h
  split at h <;> first
    | (simp only [Option.some.injEq] at h; subst h; rfl)
    | simp at h

theorem watchInv_step (w : World) (a : Action) (w1 : World) (hinv : WatchInv w.c)
    (h : w.step a = some w1) : WatchInv w1.c := by
  cases a with
  | getContext appId src wt openResult dialErr =>
    rw [afterCall_c w w1 appId _ h]
    exact watchInv_GetContext _ _ _ _ _ _ hinv
  | getExisting appId =>
    rw [afterCall_c w w1 appId _ h]
    obtain ⟨h1, h2, h3⟩ := GetExistingContext_structure w.c appId
    exact watchInv_congr _ _ h1 h2 h3 hinv
  | release r =>
    simp only [World.step] at h
    split at h
    · split at h
      · rename_i c1 hcall
        simp only [Option.some.injEq] at h
        subst h
        obtain ⟨h1, h2, h3, _⟩ := call_structure r w.c c1 hcall
        exact watchInv_congr _ _ h1 h2 h3 hinv
      · simp at h
    · simp at h
  | expire context closeErr =>
    simp only [World.step] at h
    split at h
    · rename_i hmem
      split at h
      · rename_i c1 hexp
        simp only [Option.some.injEq] at h
        subst h
        exact watchInv_expiryWatcher _ _ _ _ hmem hinv hexp
      · simp at h
    · simp at h

theorem watchInv_init (agents : List String) : WatchInv (World.init agents).c := by
  simp [WatchInv, World.init, fresh, emptyCluster]

theorem fenced_GetContext (context : Context) (c : Cluster) (appId src wt : String)
    (openResult : Except String OpenContextResp) (dialErr : Option String)
    (h : Fenced context c) : Fenced context (c.GetContext appId src wt openResult dialErr).1 := by
  have hp : context.ptr ≠ c.nextPtr := Nat.ne_of_lt h.2.2.1
  have hwr := GetContext_writer c appId src wt openResult dialErr context.ptr h.2.1 hp
  rcases GetContext_structure c appId src wt openResult dialErr with
    ⟨h1, h2, h3⟩ | ⟨hmiss, resp, h1, h2, h3⟩
  · exact fenced_congr context c _ h1 h2 h3 (fun _ => hwr) h
  · have hne : context.AppId ≠ appId := by
      intro hEq
      have := h.1
      rw [hEq, hmiss] at this
      cases this
    unfold Fenced
    rw [h1, h2, h3]
    refine ⟨by rw [mapGet_mapSet_other _ _ _ _ hne]; exact h.1, hwr,
      Nat.lt_succ_of_lt h.2.2.1, ?_⟩
    intro v hv
    rcases List.mem_cons.1 hv with hv | hv
    · subst hv
      exact ⟨fun hEq => hne hEq.symm, fun hEq => hp hEq.symm⟩
    · exact h.2.2.2 v hv

theorem fenced_GetExistingContext (context : Context) (c : Cluster) (appId : String)
    (h : Fenced context c) : Fenced context (c.GetExistingContext appId).1 := by
  obtain ⟨h1, h2, h3⟩ := GetExistingContext_structure c appId
  exact fenced_congr context c _ h1 h2 h3
    (fun hw => GetExistingContext_writer c appId context.ptr hw) h

theorem fenced_expiryWatcher (context : Context) (c c1 : Cluster) (v : Context)
    (closeErr : Option Nat) (hmem : v ∈ c.Watchers) (h : Fenced context c)
    (hexp : c.expiryWatcher v closeErr = some c1) : Fenced context c1 := by
  obtain ⟨hv1, hv2⟩ := h.2.2.2 v hmem
  obtain ⟨h3, _, hw, hm⟩ := expiryWatcher_structure c c1 v closeErr hexp
  have hmx := hm context.ptr (fun hEq => hv2 hEq.symm)
  have hsub : ∀ u, u ∈ c.Watchers.filter (fun w => decide (w ≠ v)) → u ∈ c.Watchers := by
    intro u hu
    exact (List.mem_filter.1 hu).1
  unfold Fenced
  rw [h3, hmx]
  rcases hw with ⟨h1, hw⟩ | ⟨h1, hw⟩ | ⟨h1, hw⟩
  · rw [h1, hw]
    exact h
  · rw [h1, hw]
    exact ⟨h.1, h.2.1, h.2.2.1, fun u hu => h.2.2.2 u (hsub u hu)⟩
  · rw [h1, hw]
    exact ⟨by rw [mapGet_mapDelete_other _ _ _ (fun hEq => hv1 hEq.symm)]; exact h.1,
      h.2.1, h.2.2.1, fun u hu => h.2.2.2 u (hsub u hu)⟩

theorem fenced_step (context : Context) (w : World) (a : Action) (w1 : World)
    (hinv : Fenced context w.c) (h : w.step a = some w1) : Fenced context w1.c := by
  cases a with
  | getContext appId src wt openResult dialErr =>
    rw [afterCall_c w w1 appId _ h]
    exact fenced_GetContext _ _ _ _ _ _ _ hinv
  | getExisting appId =>
    rw [afterCall_c w w1 appId _ h]
    exact fenced_GetExistingContext _ _ _ hinv
  | release r =>
    simp only [World.step] at h
    split at h
    · split at h
      · rename_i c1 hcall
        simp only [Option.some.injEq] at h
        subst h
        obtain ⟨h1, h2, h3, _, h5⟩ := call_structure r w.c c1 hcall
        exact fenced_congr context _ _ h1 h2 h3 (fun hw => by rw [h5]; exact hw) hinv
      · simp at h
    · simp at h
  | expire v closeErr =>
    simp only [World.step] at h
    split at h
    · rename_i hmem
      split at h
      · rename_i c1 hexp
        simp only [Option.some.injEq] at h
        subst h
        exact fenced_expiryWatcher context _ _ v closeErr hmem hinv hexp
      · simp at h
    · simp at h

/-- On a fenced context every lease attempt waits forever, except a
`GetContext` with another worktree id, which fails. -/
theorem fenced_outcomes (context : Context) (c : Cluster) (h : Fenced context c) :
    (c.GetExistingContext context.AppId).2 = Outcome.blocked
      ∧ ∀ src wt openResult dialErr,
          (c.GetContext context.AppId src wt openResult dialErr).2
            = if wt = context.WorktreeId then Outcome.blocked
              else Outcome.failed "Inconsistent worktree IDs for the same app" := by
  constructor
  · simp [Cluster.GetExistingContext, h.1, Cluster.rlockAndReturn, h.2.1]
  · intro src wt openResult dialErr
    by_cases hwt : wt = context.WorktreeId
    · subst hwt
      simp [Cluster.GetContext, h.1, Cluster.rlockAndReturn, h.2.1]
    · have hwt1 : context.WorktreeId ≠ wt := fun hEq => hwt hEq.symm
      simp [Cluster.GetContext, h.1, hwt, hwt1]

/-- C7: in a state reached from a fresh cluster, let the timer of a waiting
watcher deliver while the refcount of its app is zero and its context lock is
free, and let `CloseContext` fail with a code other than `InvalidArgument`.
Then the `CloseContext` is issued, the write lock of the context stays held,
the registry and every agent counter are as before, and in every state that any
later events lead to the context is still registered and write-locked, so that
`GetExistingContext` for the app waits forever and `GetContext` for the app
waits forever or fails on the worktree id: neither returns a lease. -/
theorem C7_failed_teardown_fences_context (agents : List String) (actions : List Action)
    (w : World) (h : (World.init agents).run actions = some w)
    (context : Context) (code : Nat)
    (hmem : context ∈ w.c.Watchers)
    (h0 : w.c.AppContextRefCount context.AppId = 0)
    (hfree : w.c.ctxMutex context.ptr = { readers := 0, writer := false })
    (hcode : code ≠ InvalidArgument) :
    ∃ w1, w.step (Action.expire context (some code)) = some w1
      ∧ (w1.c.ctxMutex context.ptr).writer = true
      ∧ mapGet w1.c.AppContext context.AppId = some context
      ∧ w1.c.AppContext = w.c.AppContext
      ∧ w1.c.AgentNumContexts = w.c.AgentNumContexts
      ∧ w1.c.Trace = w.c.Trace ++ [Rpc.CloseContext context.Agent context.Id]
      ∧ ∀ later w2, w1.run later = some w2 →
          (w2.c.ctxMutex context.ptr).writer = true
          ∧ mapGet w2.c.AppContext context.AppId = some context
          ∧ (w2.c.GetExistingContext context.AppId).2 = Outcome.blocked
          ∧ ∀ src wt openResult dialErr,
              (w2.c.GetContext context.AppId src wt openResult dialErr).2
                = if wt = context.WorktreeId then Outcome.blocked
                  else Outcome.failed "Inconsistent worktree IDs for the same app" := by
  have hinv : WatchInv w.c := run_invariant (fun w => WatchInv w.c) (fun _ => True)
    (fun w a w1 _ hi hs => watchInv_step w a w1 hi hs) actions _ w
    (fun _ _ => trivial) (watchInv_init agents) h
  have hexp : w.c.expiryWatcher context (some code) = some
      { w.c with
        Timer := setAt w.c.Timer context.ptr false
        TrackerStopped := setAt w.c.TrackerStopped context.ptr true
        ConnClosed := setAt w.c.ConnClosed context.ptr true
        Watchers := w.c.Watchers.filter (fun v => decide (v ≠ context))
        Trace := w.c.Trace ++ [Rpc.CloseContext context.Agent context.Id]
        ctxMutex := setAt w.c.ctxMutex context.ptr { readers := 0, writer := true } } := by
    simp [Cluster.expiryWatcher, h0, hfree, hcode]
  have hstep : w.step (Action.expire context (some code)) = some
      { w with c :=
        { w.c with
          Timer := setAt w.c.Timer context.ptr false
          TrackerStopped := setAt w.c.TrackerStopped context.ptr true
          ConnClosed := setAt w.c.ConnClosed context.ptr true
          Watchers := w.c.Watchers.filter (fun v => decide (v ≠ context))
          Trace := w.c.Trace ++ [Rpc.CloseContext context.Agent context.Id]
          ctxMutex := setAt w.c.ctxMutex context.ptr { readers := 0, writer := true } } } := by
    simp only [World.step, hmem, if_true, hexp]
  have hreg := (hinv.1 context hmem).1
  have hf : Fenced context
      { w.c with
        Timer := setAt w.c.Timer context.ptr false
        TrackerStopped := setAt w.c.TrackerStopped context.ptr true
        ConnClosed := setAt w.c.ConnClosed context.ptr true
        Watchers := w.c.Watchers.filter (fun v => decide (v ≠ context))
        Trace := w.c.Trace ++ [Rpc.CloseContext context.Agent context.Id]
        ctxMutex := setAt w.c.ctxMutex context.ptr { readers := 0, writer := true } } := by
    refine ⟨hreg, by simp, (hinv.1 context hmem).2, ?_⟩
    intro v hv
    have hv1 : v ∈ w.c.Watchers ∧ v ≠ context := by
      simpa using List.mem_filter.1 hv
    constructor
    · intro hEq
      have e1 := (hinv.1 v hv1.1).1
      rw [hEq, hreg] at e1
      exact hv1.2 (Option.some.inj e1).symm
    · intro hEq
      exact hv1.2 (hinv.2 v hv1.1 context hmem hEq)
  refine ⟨_, hstep, by simp, hreg, rfl, rfl, rfl, ?_⟩
  intro later w2 hrun
  have hf2 : Fenced context w2.c := run_invariant (fun w => Fenced context w.c)
    (fun _ => True) (fun w a w1 _ hi hs => fenced_step context w a w1 hi hs) later _ w2
    (fun _ _ => trivial) hf hrun
  exact ⟨hf2.2.1, hf2.1, (fenced_outcomes context w2.c hf2).1,
    (fenced_outcomes context w2.c hf2).2⟩

/-- C7 at the world that leased and released "app1" once, with a `CloseContext`
that fails with `Unavailable`. -/
theorem C7_failed_teardown_fences_context_witness :
    (World.init ["A"]).run leaseReleaseRun = some leaseReleaseWorld
      ∧ sampleContext ∈ leaseReleaseWorld.c.Watchers
      ∧ leaseReleaseWorld.c.AppContextRefCount sampleContext.AppId = 0
      ∧ Unavailable ≠ InvalidArgument
      ∧ ∃ w1, leaseReleaseWorld.step (Action.expire sampleContext (some Unavailable)) = some w1
        ∧ (w1.c.ctxMutex sampleContext.ptr).writer = true
        ∧ mapGet w1.c.AppContext sampleContext.AppId = some sampleContext
        ∧ ∀ later w2, w1.run later = some w2 →
            (w2.c.GetExistingContext sampleContext.AppId).2 = Outcome.blocked
            ∧ ∀ src wt openResult dialErr,
                (w2.c.GetContext sampleContext.AppId src wt openResult dialErr).2
                  = if wt = sampleContext.WorktreeId then Outcome.blocked
                    else Outcome.failed "Inconsistent worktree IDs for the same app" :=
  ⟨rfl, by decide, by decide, by decide,
    match C7_failed_teardown_fences_context ["A"] leaseReleaseRun leaseReleaseWorld rfl
      sampleContext Unavailable (by decide) (by decide) (by decide) (by decide) with
    | ⟨w1, h1, h2, h3, _, _, _, h7⟩ =>
      ⟨w1, h1, h2, h3, fun later w2 hr => ⟨(h7 later w2 hr).2.2.1, (h7 later w2 hr).2.2.2⟩⟩⟩

/-! ## C8: repeated lease and release -/

/-- A registry miss with a successful `OpenContext` and `grpc.Dial`. -/
theorem GetContext_miss_ok (c : Cluster) (appId src wt : String) (resp : OpenContextResp)
    (hmiss : mapGet c.AppContext appId = none)
    (hclient : c.AgentServiceClient c.bestAgent = true) :
    (c.GetContext appId src wt (Except.ok resp) none).2
        = Outcome.lease (newContext c.nextPtr appId wt c.bestAgent resp)
            { appId := appId, context := c.nextPtr }
      ∧ (c.GetContext appId src wt (Except.ok resp) none).1.AppContext
          = mapSet c.AppContext appId (newContext c.nextPtr appId wt c.bestAgent resp)
      ∧ (c.GetContext appId src wt (Except.ok resp) none).1.AppContextRefCount
          = setAt c.AppContextRefCount appId (uintInc (c.AppContextRefCount appId))
      ∧ (c.GetContext appId src wt (Except.ok resp) none).1.AgentNumContexts
          = setAt c.AgentNumContexts c.bestAgent (uintInc (c.AgentNumContexts c.bestAgent))
      ∧ (c.GetContext appId src wt (Except.ok resp) none).1.ctxMutex c.nextPtr
          = { readers := 1, writer := false }
      ∧ (c.GetContext appId src wt (Except.ok resp) none).1.Trace
          = c.Trace ++ [Rpc.OpenContext c.bestAgent wt src]
      ∧ (c.GetContext appId src wt (Except.ok resp) none).1.Agents = c.Agents
      ∧ (c.GetContext appId src wt (Except.ok resp) none).1.AgentServiceClient
          = c.AgentServiceClient := by
  simp [Cluster.GetContext, hmiss, hclient, Cluster.rlockAndReturn, newContext]

theorem leaseThenRelease_miss (c : Cluster) (appId src wt : String) (resp : OpenContextResp)
    (hmiss : mapGet c.AppContext appId = none)
    (hclient : c.AgentServiceClient c.bestAgent = true)
    (h0 : c.AppContextRefCount appId = 0) :
    ∃ c1, c.leaseThenRelease appId src wt (Except.ok resp) none
        = some (c1, newContext c.nextPtr appId wt c.bestAgent resp)
      ∧ Idle appId (newContext c.nextPtr appId wt c.bestAgent resp)
          (c.Trace ++ [Rpc.OpenContext c.bestAgent wt src]) c1 := by
  simp [Cluster.leaseThenRelease, Cluster.GetContext, hmiss, hclient, Cluster.rlockAndReturn,
    newContext, ReleaseFn.call, Idle, h0, mapGet_mapSet_same, uintInc, uintDec, uintSize]

theorem leaseThenRelease_hit (c : Cluster) (appId src : String) (context : Context)
    (trace : List Rpc) (openResult : Except String OpenContextResp) (dialErr : Option String)
    (h : Idle appId context trace c) :
    ∃ c1, c.leaseThenRelease appId src context.WorktreeId openResult dialErr
        = some (c1, context)
      ∧ Idle appId context trace c1 := by
  obtain ⟨h1, h2, h3, h4⟩ := h
  simp [Cluster.leaseThenRelease, Cluster.GetContext, h1, Cluster.rlockAndReturn, h3,
    ReleaseFn.call, Idle, h2, h4, uintInc, uintDec, uintSize]

theorem leaseReleaseN_hit (results : List (Except String OpenContextResp × Option String))
    (c : Cluster) (appId src : String) (context : Context) (trace : List Rpc)
    (h : Idle appId context trace c) :
    ∃ c1, c.leaseReleaseN appId src context.WorktreeId results
        = some (c1, List.replicate results.length context)
      ∧ Idle appId context trace c1 := by
  induction results generalizing c with
  | nil => exact ⟨c, rfl, h⟩
  | cons e rest ih =>
    obtain ⟨c1, h1, h2⟩ := leaseThenRelease_hit c appId src context trace e.1 e.2 h
    obtain ⟨c2, h3, h4⟩ := ih c1 h2
    exact ⟨c2, by simp [Cluster.leaseReleaseN, h1, h3, List.replicate_succ], h4⟩

theorem countOpen_append_open (t : List Rpc) (a w s : String) :
    countOpen (t ++ [Rpc.OpenContext a w s]) = countOpen t + 1 := by
  simp [countOpen]

theorem countOpen_append_close (t : List Rpc) (a i : String) :
    countOpen (t ++ [Rpc.CloseContext a i]) = countOpen t := by
  simp [countOpen]

/-- At a timer delivery on an idle context the watcher issues one
`CloseContext`, whatever the RPC returns. -/
theorem expiryWatcher_idle (c : Cluster) (context : Context) (trace : List Rpc)
    (closeErr : Option Nat) (h : Idle context.AppId context trace c) :
    ∃ c1, c.expiryWatcher context closeErr = some c1
      ∧ c1.Trace = trace ++ [Rpc.CloseContext context.Agent context.Id] := by
  obtain ⟨_, h2, h3, h4⟩ := h
  by_cases hc : closeErr = none ∨ closeErr = some InvalidArgument
  · simp [Cluster.expiryWatcher, h2, h3, hc, h4]
  · simp [Cluster.expiryWatcher, h2, h3, hc, h4]

/-- C8: on a cluster whose registry has no context for `appId` (and whose
refcount for it is zero), `N >= 1` successive pairs of
`GetContext(appId, src, wt)` and release, the first with a successful
`OpenContext`, all return the same context and issue exactly one RPC, the
`OpenContext` of the first call; the timer delivery that follows issues exactly
one `CloseContext`, for that context. -/
theorem C8_one_open_one_close (c : Cluster) (appId src wt : String) (resp : OpenContextResp)
    (N : Nat) (results : List (Except String OpenContextResp × Option String))
    (hN : 1 ≤ N) (hlen : results.length = N)
    (hfirst : results.head? = some (Except.ok resp, none))
    (hmiss : mapGet c.AppContext appId = none)
    (hclient : c.AgentServiceClient c.bestAgent = true)
    (h0 : c.AppContextRefCount appId = 0) :
    ∃ cN, c.leaseReleaseN appId src wt results
        = some (cN, List.replicate N (newContext c.nextPtr appId wt c.bestAgent resp))
      ∧ cN.Trace = c.Trace ++ [Rpc.OpenContext c.bestAgent wt src]
      ∧ countOpen cN.Trace = countOpen c.Trace + 1
      ∧ countClose cN.Trace = countClose c.Trace
      ∧ ∀ closeErr, ∃ cF,
          cN.expiryWatcher (newContext c.nextPtr appId wt c.bestAgent resp) closeErr = some cF
          ∧ cF.Trace = cN.Trace ++ [Rpc.CloseContext c.bestAgent resp.ContextId]
          ∧ countOpen cF.Trace = countOpen c.Trace + 1
          ∧ countClose cF.Trace = countClose c.Trace + 1 := by
  cases results with
  | nil =>
    simp only [List.length_nil] at hlen
    omega
  | cons e rest =>
    simp only [List.head?_cons, Option.some.injEq] at hfirst
    subst hfirst
    simp only [List.length_cons] at hlen
    subst hlen
    obtain ⟨c1, h1, h2⟩ := leaseThenRelease_miss c appId src wt resp hmiss hclient h0
    obtain ⟨c2, h3, h4⟩ := leaseReleaseN_hit rest c1 appId src
      (newContext c.nextPtr appId wt c.bestAgent resp)
      (c.Trace ++ [Rpc.OpenContext c.bestAgent wt src]) h2
    have h5 : (newContext c.nextPtr appId wt c.bestAgent resp).WorktreeId = wt := rfl
    rw [h5] at h3
    have ht := h4.2.2.2
    refine ⟨c2, by simp [Cluster.leaseReleaseN, h1, h3, List.replicate_succ], ht,
      by rw [ht, countOpen_append_open], by rw [ht, countClose_append_open], ?_⟩
    intro closeErr
    obtain ⟨cF, h6, h7⟩ := expiryWatcher_idle c2
      (newContext c.nextPtr appId wt c.bestAgent resp)
      (c.Trace ++ [Rpc.OpenContext c.bestAgent wt src]) closeErr h4
    have h8 : cF.Trace = c2.Trace ++ [Rpc.CloseContext c.bestAgent resp.ContextId] := by
      rw [h7, ht]
      rfl
    exact ⟨cF, h6, h8,
      by rw [h8, ht, countOpen_append_close, countOpen_append_open],
      by rw [h8, ht, countClose_append_close, countClose_append_open]⟩

/-- C8 at three pairs on a fresh cluster with the single agent "A"; the second
and third `OpenContext` results are never used. -/
theorem C8_one_open_one_close_witness :
    ∃ cN, (fresh ["A"]).leaseReleaseN "app1" "" "w1"
        [(Except.ok sampleResp, none), (Except.error "unused", none),
          (Except.ok sampleResp, some "unused")]
        = some (cN, List.replicate 3
            (newContext (fresh ["A"]).nextPtr "app1" "w1" (fresh ["A"]).bestAgent sampleResp))
      ∧ cN.Trace = (fresh ["A"]).Trace ++ [Rpc.OpenContext (fresh ["A"]).bestAgent "w1" ""]
      ∧ countOpen cN.Trace = countOpen (fresh ["A"]).Trace + 1
      ∧ countClose cN.Trace = countClose (fresh ["A"]).Trace
      ∧ ∀ closeErr, ∃ cF,
          cN.expiryWatcher
            (newContext (fresh ["A"]).nextPtr "app1" "w1" (fresh ["A"]).bestAgent sampleResp)
            closeErr = some cF
          ∧ cF.Trace = cN.Trace
              ++ [Rpc.CloseContext (fresh ["A"]).bestAgent sampleResp.ContextId]
          ∧ countOpen cF.Trace = countOpen (fresh ["A"]).Trace + 1
          ∧ countClose cF.Trace = countClose (fresh ["A"]).Trace + 1 :=
  C8_one_open_one_close (fresh ["A"]) "app1" "" "w1" sampleResp 3
    [(Except.ok sampleResp, none), (Except.error "unused", none),
      (Except.ok sampleResp, some "unused")]
    (by decide) rfl rfl rfl (by decide) rfl

/-! ## C9: `bestAgent` -/

theorem toInt_small (n : Nat) (h : n < 2 ^ 63) : toInt n = (n : Int) := by
  have h1 : n % uintSize = n := Nat.mod_eq_of_lt (by simp only [uintSize]; omega)
  unfold toInt
  rw [h1, if_pos h]

/-- The loop of `bestAgent`, started on an agent `b` with its own count, over
agents whose counts are below `2 ^ 63`: either no agent of the list has a
smaller count than `b` and the state is unchanged, or the result is the first
agent of the list whose count is the least one, and that count is smaller than
the one of `b`. -/
theorem bestAgentLoop_spec (num : String → Nat) (l : List String) (b : String)
    (hl : ∀ a ∈ l, num a < 2 ^ 63) :
    (bestAgentLoop num l ((num b : Int), b) = ((num b : Int), b) ∧ ∀ a ∈ l, num b ≤ num a)
      ∨ ∃ pre post, l = pre ++ (bestAgentLoop num l ((num b : Int), b)).2 :: post
          ∧ num (bestAgentLoop num l ((num b : Int), b)).2 < num b
          ∧ (∀ a ∈ pre, num (bestAgentLoop num l ((num b : Int), b)).2 < num a)
          ∧ ∀ a ∈ post, num (bestAgentLoop num l ((num b : Int), b)).2 ≤ num a := by
  induction l generalizing b with
  | nil => exact Or.inl ⟨rfl, fun a ha => by simp at ha⟩
  | cons a t ih =>
    have ha : toInt (num a) = (num a : Int) := toInt_small _ (hl a (List.mem_cons_self a t))
    have ht : ∀ x ∈ t, num x < 2 ^ 63 := fun x hx => hl x (List.mem_cons_of_mem a hx)
    by_cases hlt : num a < num b
    · have hstep : bestAgentStep num ((num b : Int), b) a = ((num a : Int), a) := by
        have : (num a : Int) < (num b : Int) := by omega
        simp [bestAgentStep, ha, this]
      have hloop : bestAgentLoop num (a :: t) ((num b : Int), b)
          = bestAgentLoop num t ((num a : Int), a) := by
        simp only [bestAgentLoop, List.foldl_cons, hstep]
      rw [hloop]
      right
      rcases ih a ht with ⟨h1, h2⟩ | ⟨pre, post, h1, h2, h3, h4⟩
      · rw [h1]
        exact ⟨[], t, rfl, hlt, fun x hx => by simp at hx, h2⟩
      · refine ⟨a :: pre, post, by rw [List.cons_append, ← h1], by omega, ?_, h4⟩
        intro x hx
        rcases List.mem_cons.1 hx with hx | hx
        · rw [hx]
          exact h2
        · exact h3 x hx
    · have hstep : bestAgentStep num ((num b : Int), b) a = ((num b : Int), b) := by
        have h1 : ¬ (num a : Int) < (num b : Int) := by omega
        have h2 : ¬ (num b : Int) = -1 := by omega
        simp [bestAgentStep, ha, h1, h2]
      have hloop : bestAgentLoop num (a :: t) ((num b : Int), b)
          = bestAgentLoop num t ((num b : Int), b) := by
        simp only [bestAgentLoop, List.foldl_cons, hstep]
      rw [hloop]
      rcases ih b ht with ⟨h1, h2⟩ | ⟨pre, post, h1, h2, h3, h4⟩
      · left
        refine ⟨h1, ?_⟩
        intro x hx
        rcases List.mem_cons.1 hx with hx | hx
        · rw [hx]
          omega
        · exact h2 x hx
      · right
        refine ⟨a :: pre, post, by rw [List.cons_append, ← h1], h2, ?_, h4⟩
        intro x hx
        rcases List.mem_cons.1 hx with hx | hx
        · rw [hx]
          omega
        · exact h3 x hx

/-- With counts below `2 ^ 63`, `bestAgent` returns the first agent of the
configured list whose count is the least one. -/
theorem bestAgent_first_minimum (c : Cluster) (hne : c.Agents ≠ [])
    (hb : ∀ a ∈ c.Agents, c.AgentNumContexts a < 2 ^ 63) :
    ∃ pre post, c.Agents = pre ++ c.bestAgent :: post
      ∧ (∀ a ∈ pre, c.AgentNumContexts c.bestAgent < c.AgentNumContexts a)
      ∧ ∀ a ∈ post, c.AgentNumContexts c.bestAgent ≤ c.AgentNumContexts a := by
  unfold Cluster.bestAgent
  cases hA : c.Agents with
  | nil => exact absurd hA hne
  | cons a0 t =>
    rw [hA] at hb
    have ha : toInt (c.AgentNumContexts a0) = (c.AgentNumContexts a0 : Int) :=
      toInt_small _ (hb a0 (List.mem_cons_self a0 t))
    have ht : ∀ x ∈ t, c.AgentNumContexts x < 2 ^ 63 :=
      fun x hx => hb x (List.mem_cons_of_mem a0 hx)
    have hloop : bestAgentLoop c.AgentNumContexts (a0 :: t) (-1, "")
        = bestAgentLoop c.AgentNumContexts t ((c.AgentNumContexts a0 : Int), a0) := by
      simp [bestAgentLoop, bestAgentStep, ha]
    rw [hloop]
    rcases bestAgentLoop_spec c.AgentNumContexts t a0 ht with
      ⟨h1, h2⟩ | ⟨pre, post, h1, h2, h3, h4⟩
    · rw [h1]
      exact ⟨[], t, rfl, fun x hx => by simp at hx, h2⟩
    · refine ⟨a0 :: pre, post, by rw [List.cons_append, ← h1], ?_, h4⟩
      intro x hx
      rcases List.mem_cons.1 hx with hx | hx
      · rw [hx]
        exact h2
      · exact h3 x hx

/-- Outside the range of the counters that executions reach: with the agents
"A", "B" and the counter map that gives `2 ^ 63` to "A" and 0 to "B",
`bestAgent` returns "A", whose count is not minimal: `int(2 ^ 63)` is
negative. -/
theorem bestAgent_not_minimal_at_large_count :
    skewedCluster.Agents = ["A", "B"]
      ∧ skewedCluster.bestAgent = "A"
      ∧ skewedCluster.AgentNumContexts "B" < skewedCluster.AgentNumContexts "A"
      ∧ skewedCluster.AgentNumContexts "A" < uintSize := by
  decide

theorem bestAgent_two (c : Cluster) (a1 a2 : String) (hA : c.Agents = [a1, a2])
    (h1 : c.AgentNumContexts a1 < 2 ^ 63) (h2 : c.AgentNumContexts a2 < 2 ^ 63) :
    c.bestAgent = if c.AgentNumContexts a2 < c.AgentNumContexts a1 then a2 else a1 := by
  have e1 := toInt_small _ h1
  have e2 := toInt_small _ h2
  have hne : ¬ (c.AgentNumContexts a1 : Int) = -1 := by omega
  by_cases hlt : c.AgentNumContexts a2 < c.AgentNumContexts a1
  · have : (c.AgentNumContexts a2 : Int) < (c.AgentNumContexts a1 : Int) := by omega
    simp [Cluster.bestAgent, bestAgentLoop, bestAgentStep, hA, e1, e2, hlt, this]
  · have : ¬ (c.AgentNumContexts a2 : Int) < (c.AgentNumContexts a1 : Int) := by omega
    simp [Cluster.bestAgent, bestAgentLoop, bestAgentStep, hA, e1, e2, hlt, this, hne]

/-- Three distinct apps placed one after the other on two idle agents. -/
theorem placeAll_three (a1 a2 x1 x2 x3 s1 s2 s3 w1 w2 w3 : String)
    (r1 r2 r3 : OpenContextResp) (ha : a1 ≠ a2) (h12 : x1 ≠ x2) (h13 : x1 ≠ x3)
    (h23 : x2 ≠ x3) :
    ((fresh [a1, a2]).placeAll
        [(x1, s1, w1, r1), (x2, s2, w2, r2), (x3, s3, w3, r3)]).AgentNumContexts a1 = 2
      ∧ ((fresh [a1, a2]).placeAll
        [(x1, s1, w1, r1), (x2, s2, w2, r2), (x3, s3, w3, r3)]).AgentNumContexts a2 = 1
      ∧ ((fresh [a1, a2]).placeAll
        [(x1, s1, w1, r1), (x2, s2, w2, r2), (x3, s3, w3, r3)]).placedOn a1 = 2
      ∧ ((fresh [a1, a2]).placeAll
        [(x1, s1, w1, r1), (x2, s2, w2, r2), (x3, s3, w3, r3)]).placedOn a2 = 1 := by
  have ha1 : a2 ≠ a1 := fun h => ha h.symm
  -- first call
  have b0 : (fresh [a1, a2]).bestAgent = a1 := by
    rw [bestAgent_two (fresh [a1, a2]) a1 a2 rfl (by simp [fresh, emptyCluster])
      (by simp [fresh, emptyCluster])]
    simp [fresh, emptyCluster]
  obtain ⟨-, p1, -, p3, -, -, p5, p6⟩ := GetContext_miss_ok (fresh [a1, a2]) x1 s1 w1 r1
    (by simp [fresh, emptyCluster, mapGet]) (by rw [b0]; simp [fresh])
  rw [b0] at p1 p3
  obtain ⟨c1, hc1⟩ : ∃ c1, c1 = ((fresh [a1, a2]).GetContext x1 s1 w1 (Except.ok r1) none).1 :=
    ⟨_, rfl⟩
  rw [← hc1] at p1 p3 p5 p6
  -- second call
  have n1 : c1.AgentNumContexts a1 = 1 := by
    rw [p3]; simp [fresh, emptyCluster, uintInc, uintSize]
  have n2 : c1.AgentNumContexts a2 = 0 := by
    rw [p3, setAt_other _ _ _ _ ha1]; simp [fresh, emptyCluster]
  have b1 : c1.bestAgent = a2 := by
    rw [bestAgent_two c1 a1 a2 p5 (by omega) (by omega), n1, n2]
    simp
  have m1 : mapGet c1.AppContext x2 = none := by
    rw [p1, mapGet_mapSet_other _ _ _ _ (fun h => h12 h.symm)]
    simp [fresh, emptyCluster, mapGet]
  obtain ⟨-, q1, -, q3, -, -, q5, q6⟩ := GetContext_miss_ok c1 x2 s2 w2 r2 m1
    (by rw [b1, p6]; simp [fresh])
  rw [b1] at q1 q3
  obtain ⟨c2, hc2⟩ : ∃ c2, c2 = (c1.GetContext x2 s2 w2 (Except.ok r2) none).1 := ⟨_, rfl⟩
  rw [← hc2] at q1 q3 q5 q6
  -- third call
  have k1 : c2.AgentNumContexts a1 = 1 := by
    rw [q3, setAt_other _ _ _ _ ha, n1]
  have k2 : c2.AgentNumContexts a2 = 1 := by
    rw [q3, setAt_same, n2]; simp [uintInc, uintSize]
  have b2 : c2.bestAgent = a1 := by
    rw [bestAgent_two c2 a1 a2 (q5.trans p5) (by omega) (by omega), k1, k2]
    simp
  have m2 : mapGet c2.AppContext x3 = none := by
    rw [q1, mapGet_mapSet_other _ _ _ _ (fun h => h23 h.symm), p1,
      mapGet_mapSet_other _ _ _ _ (fun h => h13 h.symm)]
    simp [fresh, emptyCluster, mapGet]
  obtain ⟨-, t1, -, t3, -, -, -, -⟩ := GetContext_miss_ok c2 x3 s3 w3 r3 m2
    (by rw [b2, q6, p6]; simp [fresh])
  rw [b2] at t1 t3
  have e : (fresh [a1, a2]).placeAll [(x1, s1, w1, r1), (x2, s2, w2, r2), (x3, s3, w3, r3)]
      = (c2.GetContext x3 s3 w3 (Except.ok r3) none).1 := by
    simp only [Cluster.placeAll]
    rw [← hc1, ← hc2]
  rw [e]
  have hx21 : x2 ≠ x1 := fun h => h12 h.symm
  have hx31 : x3 ≠ x1 := fun h => h13 h.symm
  have hx32 : x3 ≠ x2 := fun h => h23 h.symm
  refine ⟨?_, ?_, ?_, ?_⟩
  · rw [t3, setAt_same, k1]
    simp [uintInc, uintSize]
  · rw [t3, setAt_other _ _ _ _ ha1, k2]
  · simp [Cluster.placedOn, t1, q1, p1, mapSet, mapDelete, newContext, fresh, emptyCluster,
      h12, h13, h23, hx21, hx31, hx32, ha, ha1, List.filter_cons]
  · simp [Cluster.placedOn, t1, q1, p1, mapSet, mapDelete, newContext, fresh, emptyCluster,
      h12, h13, h23, hx21, hx31, hx32, ha, ha1, List.filter_cons]

/-- C9: for every non-empty agent list and every counter map whose values on
the listed agents are below `2 ^ 63` (a counter moves by one per `GetContext`
and per teardown, so that no execution leaves this range), `bestAgent` returns an agent of
the list whose `AgentNumContexts` is minimal over the list, and among the
agents with the minimal count the one that comes first in the configured
order: every agent before it has a strictly larger count. Consequently three
distinct apps placed one after the other on two idle agents leave the counter
of the first configured agent at 2 and the one of the second at 1, with as many
contexts registered on each. -/
theorem C9_bestAgent_first_least_loaded (c : Cluster) (hne : c.Agents ≠ [])
    (hb : ∀ a ∈ c.Agents, c.AgentNumContexts a < 2 ^ 63) :
    c.bestAgent ∈ c.Agents
      ∧ (∀ a ∈ c.Agents, c.AgentNumContexts c.bestAgent ≤ c.AgentNumContexts a)
      ∧ (∃ pre post, c.Agents = pre ++ c.bestAgent :: post
          ∧ ∀ a ∈ pre, c.AgentNumContexts c.bestAgent < c.AgentNumContexts a)
      ∧ ∀ (a1 a2 x1 x2 x3 s1 s2 s3 w1 w2 w3 : String) (r1 r2 r3 : OpenContextResp),
          a1 ≠ a2 → x1 ≠ x2 → x1 ≠ x3 → x2 ≠ x3 →
          ((fresh [a1, a2]).placeAll
              [(x1, s1, w1, r1), (x2, s2, w2, r2), (x3, s3, w3, r3)]).AgentNumContexts a1 = 2
            ∧ ((fresh [a1, a2]).placeAll
              [(x1, s1, w1, r1), (x2, s2, w2, r2), (x3, s3, w3, r3)]).AgentNumContexts a2 = 1
            ∧ ((fresh [a1, a2]).placeAll
              [(x1, s1, w1, r1), (x2, s2, w2, r2), (x3, s3, w3, r3)]).placedOn a1 = 2
            ∧ ((fresh [a1, a2]).placeAll
              [(x1, s1, w1, r1), (x2, s2, w2, r2), (x3, s3, w3, r3)]).placedOn a2 = 1 := by
  obtain ⟨pre, post, h1, h2, h3⟩ := bestAgent_first_minimum c hne hb
  refine ⟨?_, ?_, ⟨pre, post, h1, h2⟩, ?_⟩
  · rw [h1]
    simp
  · intro a ha
    rw [h1] at ha
    rcases List.mem_append.1 ha with ha | ha
    · exact Nat.le_of_lt (h2 a ha)
    · rcases List.mem_cons.1 ha with ha | ha
      · rw [ha]
      · exact h3 a ha
  · intro a1 a2 x1 x2 x3 s1 s2 s3 w1 w2 w3 r1 r2 r3 ha h12 h13 h23
    exact placeAll_three a1 a2 x1 x2 x3 s1 s2 s3 w1 w2 w3 r1 r2 r3 ha h12 h13 h23

/-- C9 at the agents "A", "B" with the counters 3 and 1: `bestAgent` is "B",
an agent of the list with the least counter; and at three apps placed on the
fresh cluster. -/
theorem C9_bestAgent_first_least_loaded_witness :
    (∀ a ∈ loadedCluster.Agents, loadedCluster.AgentNumContexts a < 2 ^ 63)
      ∧ loadedCluster.bestAgent = "B"
      ∧ loadedCluster.bestAgent ∈ loadedCluster.Agents
      ∧ (∀ a ∈ loadedCluster.Agents,
          loadedCluster.AgentNumContexts loadedCluster.bestAgent
            ≤ loadedCluster.AgentNumContexts a)
      ∧ (∃ pre post, loadedCluster.Agents = pre ++ loadedCluster.bestAgent :: post
          ∧ ∀ a ∈ pre,
            loadedCluster.AgentNumContexts loadedCluster.bestAgent
              < loadedCluster.AgentNumContexts a)
      ∧ ((fresh ["A", "B"]).placeAll
          [("app1", "", "w1", sampleResp), ("app2", "", "w2", sampleResp),
            ("app3", "", "w3", sampleResp)]).AgentNumContexts "A" = 2
      ∧ ((fresh ["A", "B"]).placeAll
          [("app1", "", "w1", sampleResp), ("app2", "", "w2", sampleResp),
            ("app3", "", "w3", sampleResp)]).AgentNumContexts "B" = 1 :=
  ⟨by decide, by decide,
    (C9_bestAgent_first_least_loaded loadedCluster (by decide) (by decide)).1,
    (C9_bestAgent_first_least_loaded loadedCluster (by decide) (by decide)).2.1,
    (C9_bestAgent_first_least_loaded loadedCluster (by decide) (by decide)).2.2.1,
    ((C9_bestAgent_first_least_loaded loadedCluster (by decide) (by decide)).2.2.2
      "A" "B" "app1" "app2" "app3" "" "" "" "w1" "w2" "w3" sampleResp sampleResp sampleResp
      (by decide) (by decide) (by decide) (by decide)).1,
    ((C9_bestAgent_first_least_loaded loadedCluster (by decide) (by decide)).2.2.2
      "A" "B" "app1" "app2" "app3" "" "" "" "w1" "w2" "w3" sampleResp sampleResp sampleResp
      (by decide) (by decide) (by decide) (by decide)).2.1⟩

/-! ## C10: calling a release closure twice -/

/-- C10 (the claim as stated fails): with two leases on "app1" held, the
refcount is 2; the release closure of the first lease takes it to 1, and a
second call of the same closure takes it to 0. -/
theorem C10_second_release_decrements_again :
    ((fresh ["A"]).GetContext "app1" "" "w1" (Except.ok sampleResp) none).2
        = Outcome.lease sampleContext { appId := "app1", context := 0 }
      ∧ twoLeases.AppContextRefCount "app1" = 2
      ∧ ((ReleaseFn.mk "app1" 0).call twoLeases).map (fun c => c.AppContextRefCount "app1")
          = some 1
      ∧ (((ReleaseFn.mk "app1" 0).call twoLeases).bind (ReleaseFn.mk "app1" 0).call).map
          (fun c => c.AppContextRefCount "app1") = some 0 := by
  decide

/-- C10 (amended): a release closure is not idempotent. A first call that
returns decrements the refcount of the app by one (wrapping at zero). A second
call of the same closure aborts in `RUnlock` exactly when the lease was the
only read lock held on the context; otherwise it returns and has decremented
the refcount once more, so that the refcount differs from the value it had
after the first call. -/
theorem C10_release_not_idempotent (r : ReleaseFn) (c c1 : Cluster)
    (h : r.call c = some c1) :
    c1.AppContextRefCount r.appId = uintDec (c.AppContextRefCount r.appId)
      ∧ (r.call c1 = none ↔ (c.ctxMutex r.context).readers = 1)
      ∧ ∀ c2, r.call c1 = some c2 →
          c2.AppContextRefCount r.appId = uintDec (uintDec (c.AppContextRefCount r.appId))
          ∧ c2.AppContextRefCount r.appId ≠ c1.AppContextRefCount r.appId := by
  have hc := call_refcount r c c1 h
  have hr : (c.ctxMutex r.context).readers ≠ 0
      ∧ (c1.ctxMutex r.context).readers = (c.ctxMutex r.context).readers - 1 := by
    unfold ReleaseFn.call at h
    split at h
    · simp at h
    · rename_i hne
      simp only [Option.some.injEq] at h
      subst h
      exact ⟨hne, by simp⟩
  have h1 : c1.AppContextRefCount r.appId = uintDec (c.AppContextRefCount r.appId) := by
    rw [hc, setAt_same]
  refine ⟨h1, ?_, ?_⟩
  · constructor
    · intro hn
      by_cases h0 : (c1.ctxMutex r.context).readers = 0
      · omega
      · simp [ReleaseFn.call, h0] at hn
    · intro h2
      have h0 : (c1.ctxMutex r.context).readers = 0 := by omega
      simp [ReleaseFn.call, h0]
  · intro c2 h2
    have hc2 := call_refcount r c1 c2 h2
    have h3 : c2.AppContextRefCount r.appId = uintDec (c1.AppContextRefCount r.appId) := by
      rw [hc2, setAt_same]
    exact ⟨by rw [h3, h1], by rw [h3]; exact uintDec_ne _⟩

/-- C10 (amended) at the release closure of a single lease on "app1" (the
second call aborts) and at the one of the first of two leases (the second call
takes the refcount from 1 to 0). -/
theorem C10_release_not_idempotent_witness :
    (ReleaseFn.mk "app1" 0).call singleLease = some leasedAndReleased
      ∧ (ReleaseFn.mk "app1" 0).call leasedAndReleased = none
      ∧ (ReleaseFn.mk "app1" 0).call twoLeases = some releasedOnce
      ∧ (ReleaseFn.mk "app1" 0).call releasedOnce = some releasedTwice
      ∧ releasedOnce.AppContextRefCount "app1" = 1
      ∧ releasedTwice.AppContextRefCount "app1" ≠ releasedOnce.AppContextRefCount "app1" :=
  ⟨rfl,
    (C10_release_not_idempotent (ReleaseFn.mk "app1" 0) singleLease leasedAndReleased
      rfl).2.1.2 (by decide),
    rfl, rfl, by decide,
    ((C10_release_not_idempotent (ReleaseFn.mk "app1" 0) twoLeases releasedOnce rfl).2.2
      releasedTwice rfl).2⟩

/-! ## Agent counters when no `OpenContext` fails

A failed open is the only way in which a counter and the registry come
apart. -/

theorem mapGet_none_not_mem (m : List (String × Context)) (k : String)
    (h : mapGet m k = none) : ∀ e ∈ m, e.1 ≠ k := by
  induction m with
  | nil => intro e he; simp at he
  | cons e0 rest ih =>
    obtain ⟨k1, v⟩ := e0
    by_cases h1 : k1 = k
    · simp [mapGet, h1] at h
    · simp only [mapGet, h1, if_false] at h
      intro e he
      rcases List.mem_cons.1 he with he | he
      · rw [he]
        exact h1
      · exact ih h e he

theorem mapDelete_of_none (m : List (String × Context)) (k : String)
    (h : mapGet m k = none) : mapDelete m k = m := by
  unfold mapDelete
  rw [List.filter_eq_self]
  intro e he
  simpa using mapGet_none_not_mem m k h e he

/-- Deleting the key of a registered context removes exactly that entry from
the count of every agent. -/
theorem placed_mapDelete (m : List (String × Context)) (k : String) (v : Context)
    (a : String) (hn : (m.map Prod.fst).Nodup) (hg : mapGet m k = some v) :
    ((mapDelete m k).filter (fun e => decide (e.2.Agent = a))).length
        + (if v.Agent = a then 1 else 0)
      = (m.filter (fun e => decide (e.2.Agent = a))).length := by
  induction m with
  | nil => simp [mapGet] at hg
  | cons e0 rest ih =>
    obtain ⟨k1, v1⟩ := e0
    simp only [List.map_cons, List.nodup_cons] at hn
    by_cases h1 : k1 = k
    · subst h1
      simp only [mapGet, if_true, Option.some.injEq] at hg
      subst hg
      have hnone : ∀ e ∈ rest, e.1 ≠ k1 := by
        intro e he hEq
        exact hn.1 (List.mem_map.2 ⟨e, he, hEq⟩)
      have hrest : mapDelete rest k1 = rest := by
        unfold mapDelete
        rw [List.filter_eq_self]
        intro e he
        simpa using hnone e he
      have hd : mapDelete ((k1, v1) :: rest) k1 = rest := by
        rw [← hrest]
        simp [mapDelete]
      rw [hd]
      by_cases h2 : v1.Agent = a <;> simp [List.filter_cons, h2]
    · simp only [mapGet, h1, if_false] at hg
      have hd : mapDelete ((k1, v1) :: rest) k = (k1, v1) :: mapDelete rest k := by
        simp [mapDelete, h1]
      rw [hd]
      have := ih hn.2 hg
      by_cases h2 : v1.Agent = a
      · simp only [List.filter_cons, h2, decide_True, if_true, List.length_cons]
        omega
      · simp only [List.filter_cons, h2, decide_False]
        exact this

theorem nodup_mapDelete (m : List (String × Context)) (k : String)
    (hn : (m.map Prod.fst).Nodup) : ((mapDelete m k).map Prod.fst).Nodup := by
  unfold mapDelete
  exact List.Nodup.sublist (List.Sublist.map _ (List.filter_sublist _)) hn

/-- The effect of a timer delivery on the agent counters and the registry. -/
theorem expiryWatcher_counters (c c1 : Cluster) (context : Context) (closeErr : Option Nat)
    (h : c.expiryWatcher context closeErr = some c1) :
    (c1.AppContext = c.AppContext ∧ c1.AgentNumContexts = c.AgentNumContexts)
      ∨ (c1.AppContext = mapDelete c.AppContext context.AppId
          ∧ c1.AgentNumContexts = setAt c.AgentNumContexts context.Agent
              (uintDec (c.AgentNumContexts context.Agent))) := by
  unfold Cluster.expiryWatcher at h
  split at h
  · simp only [Option.some.injEq] at h
    subst h
    exact Or.inl ⟨rfl, rfl⟩
  · split at h
    · simp at h
    · simp only at h
      split at h
      · simp only [Option.some.injEq] at h
        subst h
        exact Or.inr ⟨rfl, rfl⟩
      · simp only [Option.some.injEq] at h
        subst h
        exact Or.inl ⟨rfl, rfl⟩

theorem countInv_congr (c c1 : Cluster) (h1 : c1.AppContext = c.AppContext)
    (h2 : c1.AgentNumContexts = c.AgentNumContexts) (h3 : WatchInv c1) (h : CountInv c) :
    CountInv c1 := by
  unfold CountInv Cluster.placedOn at *
  rw [h1, h2]
  exact ⟨h.1, h.2.1, h3⟩

theorem GetContext_hit_frame (c : Cluster) (appId src wt : String) (context : Context)
    (openResult : Except String OpenContextResp) (dialErr : Option String)
    (hhit : mapGet c.AppContext appId = some context) :
    (c.GetContext appId src wt openResult dialErr).1.AppContext = c.AppContext
      ∧ (c.GetContext appId src wt openResult dialErr).1.AgentNumContexts
          = c.AgentNumContexts := by
  unfold Cluster.GetContext
  simp only [hhit]
  split
  · exact ⟨rfl, rfl⟩
  · have h := rlockAndReturn_frame
      { c with
        AppContextRefCount :=
          setAt c.AppContextRefCount appId (uintInc (c.AppContextRefCount appId)) }
      appId context
    exact ⟨h.1, h.2.2.2⟩

theorem countInv_step (w : World) (a : Action) (w1 : World) (hq : a.opensOk = true)
    (hinv : CountInv w.c) (h : w.step a = some w1) : CountInv w1.c := by
  have hw1 : WatchInv w1.c := watchInv_step w a w1 hinv.2.2 h
  cases a with
  | getContext appId src wt openResult dialErr =>
    have hc := afterCall_c w w1 appId _ h
    cases hg : mapGet w.c.AppContext appId with
    | some context =>
      obtain ⟨h1, h2⟩ := GetContext_hit_frame w.c appId src wt context openResult dialErr hg
      rw [← hc] at h1 h2
      exact countInv_congr _ _ h1 h2 hw1 hinv
    | none =>
      cases openResult with
      | error err => simp [Action.opensOk] at hq
      | ok resp =>
        cases dialErr with
        | some err => simp [Action.opensOk] at hq
        | none =>
          by_cases hcl : w.c.AgentServiceClient w.c.bestAgent = true
          · obtain ⟨-, p1, -, p3, -, -, -, -⟩ :=
              GetContext_miss_ok w.c appId src wt resp hg hcl
            rw [← hc] at p1 p3
            refine ⟨?_, ?_, hw1⟩
            · intro x
              have hx := hinv.1 x
              unfold Cluster.placedOn at *
              rw [p1, p3, mapSet, mapDelete_of_none _ _ hg]
              by_cases hxa : x = w.c.bestAgent
              · subst hxa
                rw [setAt_same, hx, uintInc_mod]
                simp [List.filter_cons, newContext]
              · have : ¬ w.c.bestAgent = x := fun h5 => hxa h5.symm
                rw [setAt_other _ _ _ _ hxa, hx]
                simp [List.filter_cons, newContext, this]
            · rw [p1, mapSet, mapDelete_of_none _ _ hg]
              simp only [List.map_cons, List.nodup_cons]
              refine ⟨?_, hinv.2.1⟩
              intro hmem
              obtain ⟨e, he, hEq⟩ := List.mem_map.1 hmem
              exact mapGet_none_not_mem _ _ hg e he hEq
          · exfalso
            have hcl1 : w.c.AgentServiceClient w.c.bestAgent = false := by
              simpa using hcl
            simp [World.step, World.afterCall, Cluster.GetContext, hg, hcl1] at h
  | getExisting appId =>
    have hc := afterCall_c w w1 appId _ h
    unfold Cluster.GetExistingContext at hc
    split at hc
    · have hf := rlockAndReturn_frame
        { w.c with
          AppContextRefCount :=
            setAt w.c.AppContextRefCount appId (uintInc (w.c.AppContextRefCount appId)) }
        appId ‹Context›
      rw [← hc] at hf
      exact countInv_congr _ _ hf.1 hf.2.2.2 hw1 hinv
    · simp only at hc
      rw [hc]
      exact hinv
  | release r =>
    simp only [World.step] at h
    split at h
    · split at h
      · rename_i c1 hcall
        simp only [Option.some.injEq] at h
        subst h
        obtain ⟨h1, _, _, h4, _⟩ := call_structure r w.c c1 hcall
        exact countInv_congr _ _ h1 h4 hw1 hinv
      · simp at h
    · simp at h
  | expire context closeErr =>
    simp only [World.step] at h
    split at h
    · rename_i hmem
      split at h
      · rename_i c1 hexp
        simp only [Option.some.injEq] at h
        subst h
        rcases expiryWatcher_counters w.c c1 context closeErr hexp with ⟨h1, h2⟩ | ⟨h1, h2⟩
        · exact countInv_congr _ _ h1 h2 hw1 hinv
        · have hreg := (hinv.2.2.1 context hmem).1
          refine ⟨?_, ?_, hw1⟩
          · intro x
            have hx := hinv.1 x
            have hp := placed_mapDelete w.c.AppContext context.AppId context x hinv.2.1 hreg
            unfold Cluster.placedOn at *
            simp only
            rw [h1, h2]
            by_cases hxa : x = context.Agent
            · subst hxa
              simp only [if_true] at hp
              rw [setAt_same, hx, uintDec_mod _ (by omega)]
              congr 1
              omega
            · have : ¬ context.Agent = x := fun h5 => hxa h5.symm
              simp only [this, if_false, Nat.add_zero] at hp
              rw [setAt_other _ _ _ _ hxa, hx, hp]
          · simp only
            rw [h1]
            exact nodup_mapDelete _ _ hinv.2.1
      · simp at h
    · simp at h

/-- In every state reached from a fresh cluster by an execution in which no
`OpenContext` and no `grpc.Dial` fails, the counter of every agent is the
number of contexts of the registry placed on it, modulo `2 ^ 64`. -/
theorem counter_eq_placed_without_failed_open (agents : List String) (actions : List Action)
    (w : World) (h : (World.init agents).run actions = some w)
    (hok : ∀ a ∈ actions, a.opensOk = true) (agent : String) :
    w.c.AgentNumContexts agent = w.c.placedOn agent % uintSize := by
  have hinit : CountInv (World.init agents).c := by
    refine ⟨?_, ?_, watchInv_init agents⟩
    · intro a
      simp [World.init, fresh, emptyCluster, Cluster.placedOn]
    · simp [World.init, fresh, emptyCluster]
  exact (run_invariant (fun w => CountInv w.c) (fun a => a.opensOk = true)
    (fun w a w1 hq hi hs => countInv_step w a w1 hq hi hs) actions _ w hok hinit h).1 agent

end cluster

/-! # State subscriptions -/

namespace cluster

open golang

/-! ## C14: subscribing and unsubscribing -/

theorem GetAppStateChan_eq (ctx : TrackedContext) :
    GetAppStateChan ctx = some
      ({ ctx with
         AppStateChan := setAt ctx.AppStateChan ctx.NextChanId
           (some { cap := 256, buf := [ctx.AppState] })
         NextChanId := uintInc ctx.NextChanId },
       { cap := 256, buf := [ctx.AppState] }, ctx.NextChanId) := by
  simp [GetAppStateChan, Chan.make, Chan.send]

/-- An event other than a subscription returns no id and keeps `NextChanId`. -/
theorem subStep_other (ctx : TrackedContext) (e : SubEvent) (h : e ≠ SubEvent.subscribe) :
    (subStep ctx e).2 = none ∧ (subStep ctx e).1.NextChanId = ctx.NextChanId := by
  cases e with
  | subscribe => exact absurd rfl h
  | remove chanId => exact ⟨rfl, rfl⟩
  | tick resp =>
    refine ⟨rfl, ?_⟩
    simp only [subStep]
    unfold trackerTick
    split
    · rfl
    · split <;> rfl
  | recv chanId =>
    simp only [subStep]
    cases ctx.AppStateChan chanId with
    | none => exact ⟨rfl, rfl⟩
    | some c =>
      simp only
      cases c.recv with
      | none => exact ⟨rfl, rfl⟩
      | some p => exact ⟨rfl, rfl⟩

theorem subRun_cons_none (ctx : TrackedContext) (e : SubEvent) (rest : List SubEvent)
    (h : (subStep ctx e).2 = none) :
    subRun ctx (e :: rest) = subRun (subStep ctx e).1 rest := by
  simp only [subRun]
  generalize subStep ctx e = p at h
  obtain ⟨c1, o⟩ := p
  simp only at h
  subst h
  rfl

/-- Without a wrap of `NextChanId`, the ids that a sequence of events returns
are the successive numbers from `NextChanId` on. -/
theorem subRun_ids (events : List SubEvent) (ctx : TrackedContext)
    (h : ctx.NextChanId + countSubscribe events < uintSize) :
    (subRun ctx events).2 = List.range' ctx.NextChanId (countSubscribe events) := by
  induction events generalizing ctx with
  | nil => simp [subRun, countSubscribe]
  | cons e rest ih =>
    by_cases he : e = SubEvent.subscribe
    · subst he
      have hc : countSubscribe (SubEvent.subscribe :: rest) = countSubscribe rest + 1 := by
        simp [countSubscribe]
      rw [hc] at h ⊢
      have hn : uintInc ctx.NextChanId = ctx.NextChanId + 1 := by
        simp only [uintInc, uintSize] at *
        omega
      simp only [subRun, subStep, GetAppStateChan_eq]
      rw [ih _ (by simp only [hn]; omega)]
      simp only [hn]
      rw [List.range'_succ]
    · have hc : countSubscribe (e :: rest) = countSubscribe rest := by
        cases e with
        | subscribe => exact absurd rfl he
        | remove chanId => simp [countSubscribe]
        | tick resp => simp [countSubscribe]
        | recv chanId => simp [countSubscribe]
      obtain ⟨h1, h2⟩ := subStep_other ctx e he
      rw [hc] at h ⊢
      rw [subRun_cons_none ctx e rest h1, ← h2]
      exact ih _ (by rw [h2]; exact h)

/-- C14: `GetAppStateChan` returns the id `NextChanId` and a channel of
capacity 256 that holds exactly the current `AppState`, registers exactly this
channel under this id and leaves every other subscriber and the state as they
are; `RemoveAppStateChan(id)` removes the entry of `id` and nothing else. In a
sequence of subscriptions, removals, tracker ticks and reads that allocates
fewer than `2 ^ 64` ids from a new context, the ids returned are 0, 1, 2, ...:
each is strictly greater than every id returned before. -/
theorem C14_subscribe_and_remove (ctx : TrackedContext) :
    (∃ ctx1, GetAppStateChan ctx
          = some (ctx1, { cap := 256, buf := [ctx.AppState] }, ctx.NextChanId)
        ∧ ctx1.AppStateChan ctx.NextChanId = some { cap := 256, buf := [ctx.AppState] }
        ∧ (∀ i, i ≠ ctx.NextChanId → ctx1.AppStateChan i = ctx.AppStateChan i)
        ∧ ctx1.AppState = ctx.AppState
        ∧ ctx1.NextChanId = uintInc ctx.NextChanId)
      ∧ (∀ chanId, (RemoveAppStateChan ctx chanId).AppStateChan chanId = none
          ∧ (∀ i, i ≠ chanId → (RemoveAppStateChan ctx chanId).AppStateChan i = ctx.AppStateChan i)
          ∧ (RemoveAppStateChan ctx chanId).AppState = ctx.AppState
          ∧ (RemoveAppStateChan ctx chanId).NextChanId = ctx.NextChanId)
      ∧ (∀ events, countSubscribe events < uintSize →
          (subRun newTracked events).2 = List.range (countSubscribe events)
          ∧ (subRun newTracked events).2.Pairwise (fun a b => a < b)) := by
  refine ⟨⟨_, GetAppStateChan_eq ctx, by simp, fun i hi => setAt_other _ _ _ _ hi, rfl, rfl⟩,
    fun chanId => ⟨by simp [RemoveAppStateChan], fun i hi => setAt_other _ _ _ _ hi, rfl, rfl⟩,
    ?_⟩
  intro events h
  have hids := subRun_ids events newTracked (by simpa [newTracked] using h)
  have hr : (subRun newTracked events).2 = List.range (countSubscribe events) := by
    rw [hids, List.range_eq_range']
    rfl
  refine ⟨hr, ?_⟩
  rw [hr]
  exact List.pairwise_lt_range _

/-- C14 at a new context: two subscriptions, a tick and a removal. -/
theorem C14_subscribe_and_remove_witness :
    (subRun newTracked
        [SubEvent.subscribe, SubEvent.tick (some ProcessState.RUNNING), SubEvent.subscribe,
          SubEvent.remove 0, SubEvent.subscribe]).2 = List.range 3
      ∧ (subRun newTracked
        [SubEvent.subscribe, SubEvent.tick (some ProcessState.RUNNING), SubEvent.subscribe,
          SubEvent.remove 0, SubEvent.subscribe]).2.Pairwise (fun a b => a < b) :=
  (C14_subscribe_and_remove newTracked).2.2
    [SubEvent.subscribe, SubEvent.tick (some ProcessState.RUNNING), SubEvent.subscribe,
      SubEvent.remove 0, SubEvent.subscribe] (by decide)

/-! ## C15: the tracker emits on change only -/

theorem trackerTick_same (ctx : TrackedContext) (state : ProcessState)
    (h : state = ctx.AppState) : trackerTick ctx (some state) = ctx := by
  simp [trackerTick, h]

theorem trackerTick_state (ctx : TrackedContext) (state : ProcessState) :
    (trackerTick ctx (some state)).AppState = state := by
  by_cases h : ctx.AppState = state
  · simp [trackerTick, h]
  · simp [trackerTick, h]

theorem trackerTicks_same (n : Nat) (ctx : TrackedContext) (state : ProcessState)
    (h : state = ctx.AppState) :
    trackerTicks ctx (List.replicate n (some state)) = ctx := by
  induction n with
  | zero => rfl
  | succ n ih =>
    simp only [List.replicate_succ, trackerTicks, trackerTick_same ctx state h]
    exact ih

/-- C15: a tick whose polled state is the stored `AppState` (and a tick whose
RPC fails) changes nothing: no subscriber is sent anything. A tick whose polled
state differs stores it and offers it once to every registered channel, which
afterwards holds what it held before or that followed by the new state. So in
a stream of identical polled states no tick after the first one sends
anything, and a subscriber that was sent this state at subscription holds
exactly that one event after the stream. -/
theorem C15_tracker_emits_on_change (ctx : TrackedContext) (state : ProcessState) :
    (state = ctx.AppState → trackerTick ctx (some state) = ctx)
      ∧ trackerTick ctx none = ctx
      ∧ (state ≠ ctx.AppState →
          (trackerTick ctx (some state)).AppState = state
          ∧ (trackerTick ctx (some state)).NextChanId = ctx.NextChanId
          ∧ (∀ i, (trackerTick ctx (some state)).AppStateChan i
              = (ctx.AppStateChan i).map (fun c => c.offer state))
          ∧ ∀ i c, ctx.AppStateChan i = some c →
              ∃ c1, (trackerTick ctx (some state)).AppStateChan i = some c1
                ∧ c1.cap = c.cap ∧ (c1.buf = c.buf ∨ c1.buf = c.buf ++ [state]))
      ∧ (∀ n, trackerTicks ctx (List.replicate (n + 1) (some state))
          = trackerTick ctx (some state))
      ∧ (∀ n ctx1 c chanId, state = ctx.AppState →
          GetAppStateChan ctx = some (ctx1, c, chanId) →
          (trackerTicks ctx1 (List.replicate n (some state))).AppStateChan chanId
            = some { cap := 256, buf := [state] }) := by
  refine ⟨trackerTick_same ctx state, rfl, ?_, ?_, ?_⟩
  · intro h
    have h1 : ctx.AppState ≠ state := fun e => h e.symm
    refine ⟨trackerTick_state ctx state, by simp [trackerTick, h1], ?_, ?_⟩
    · intro i
      simp [trackerTick, h1]
    · intro i c hc
      refine ⟨c.offer state, by simp [trackerTick, h1, hc], ?_, ?_⟩
      · unfold Chan.offer
        split <;> rfl
      · unfold Chan.offer
        split
        · exact Or.inr rfl
        · exact Or.inl rfl
  · intro n
    simp only [List.replicate_succ, trackerTicks]
    exact trackerTicks_same n _ state (trackerTick_state ctx state).symm
  · intro n ctx1 c chanId h hsub
    rw [GetAppStateChan_eq] at hsub
    simp only [Option.some.injEq, Prod.mk.injEq] at hsub
    obtain ⟨h1, _, h3⟩ := hsub
    subst h1
    subst h3
    rw [trackerTicks_same n _ state (by simpa using h)]
    simp [h]

/-- C15 at a context whose app is running: a subscriber and three ticks that
poll `RUNNING`. -/
theorem C15_tracker_emits_on_change_witness :
    (trackerTicks
        { AppState := ProcessState.RUNNING
          AppStateChan :=
            setAt newTracked.AppStateChan 0 (some { cap := 256, buf := [ProcessState.RUNNING] })
          NextChanId := uintInc 0 }
        (List.replicate 3 (some ProcessState.RUNNING))).AppStateChan 0
      = some { cap := 256, buf := [ProcessState.RUNNING] } :=
  (C15_tracker_emits_on_change
    { newTracked with AppState := ProcessState.RUNNING } ProcessState.RUNNING).2.2.2.2
    3 _ _ 0 rfl rfl

/-! ## C17: what a subscriber receives -/

theorem view_step (s : Subscription) (a : SubAction) : (s.step a).view = s.view.step a := by
  cases a with
  | tick resp =>
    cases resp with
    | none => rfl
    | some state =>
      by_cases h : s.ctx.AppState = state
      · simp [Subscription.step, Subscription.view, SubView.step, trackerTick, h]
      · simp [Subscription.step, Subscription.view, SubView.step, trackerTick, h]
  | read =>
    cases hch : s.ctx.AppStateChan s.chanId with
    | none => simp [Subscription.step, Subscription.view, SubView.step, hch]
    | some c =>
      cases hr : c.recv with
      | none => simp [Subscription.step, Subscription.view, SubView.step, hch, hr]
      | some p => simp [Subscription.step, Subscription.view, SubView.step, hch, hr]

theorem view_run (actions : List SubAction) (s : Subscription) :
    (s.run actions).view = s.view.run actions := by
  induction actions generalizing s with
  | nil => rfl
  | cons a rest ih =>
    simp only [Subscription.run, SubView.run]
    rw [ih, view_step]

theorem viewInv_step (v : SubView) (a : SubAction) (h : ViewInv v) : ViewInv (v.step a) := by
  obtain ⟨c, hc, hcap, hsub, heq⟩ := h
  cases a with
  | tick resp =>
    cases resp with
    | none => exact ⟨c, hc, hcap, hsub, heq⟩
    | some state =>
      by_cases hs : v.AppState = state
      · simp only [SubView.step, hs, ne_eq, not_true_eq_false, if_false]
        exact ⟨c, hc, hcap, hsub, heq⟩
      · by_cases hfull : c.buf.length < c.cap
        · refine ⟨{ c with buf := c.buf ++ [state] }, ?_, hcap, ?_, ?_⟩
          · simp [SubView.step, hs, hc, Chan.offer, hfull]
          · simp only [SubView.step, hs, ne_eq, not_false_eq_true, if_true]
            rw [← List.append_assoc]
            exact List.Sublist.append hsub (List.Sublist.refl _)
          · simp only [SubView.step, hs, ne_eq, not_false_eq_true, if_true,
              List.length_append, List.length_singleton]
            intro hl
            rw [← List.append_assoc, heq (by omega)]
        · refine ⟨c, ?_, hcap, ?_, ?_⟩
          · simp [SubView.step, hs, hc, Chan.offer, hfull]
          · simp only [SubView.step, hs, ne_eq, not_false_eq_true, if_true]
            exact List.Sublist.trans hsub (List.sublist_append_left _ _)
          · simp only [SubView.step, hs, ne_eq, not_false_eq_true, if_true,
              List.length_append, List.length_singleton]
            intro hl
            exfalso
            have h1 := heq (by omega)
            have h2 : (v.received ++ c.buf).length = v.truth.length := by rw [h1]
            simp only [List.length_append] at h2
            omega
  | read =>
    cases hb : c.buf with
    | nil =>
      have : v.step SubAction.read = v := by
        simp [SubView.step, hc, Chan.recv, hb]
      rw [this]
      exact ⟨c, hc, hcap, hsub, heq⟩
    | cons x rest =>
      refine ⟨{ c with buf := rest }, ?_, hcap, ?_, ?_⟩
      · simp [SubView.step, hc, Chan.recv, hb]
      · have : (v.step SubAction.read).received = v.received ++ [x]
            ∧ (v.step SubAction.read).truth = v.truth := by
          simp [SubView.step, hc, Chan.recv, hb]
        rw [this.1, this.2]
        simpa [hb] using hsub
      · have : (v.step SubAction.read).received = v.received ++ [x]
            ∧ (v.step SubAction.read).truth = v.truth := by
          simp [SubView.step, hc, Chan.recv, hb]
        rw [this.1, this.2]
        simpa [hb] using heq

theorem viewInv_run (actions : List SubAction) (v : SubView) (h : ViewInv v) :
    ViewInv (v.run actions) := by
  induction actions generalizing v with
  | nil => exact h
  | cons a rest ih => exact ih _ (viewInv_step v a h)

theorem viewInv_start (ctx : TrackedContext) (s : Subscription)
    (h : Subscription.start ctx = some s) : ViewInv s.view := by
  simp only [Subscription.start, GetAppStateChan_eq, Option.some.injEq] at h
  subst h
  exact ⟨{ cap := 256, buf := [ctx.AppState] }, by simp [Subscription.view], rfl,
    by simp [Subscription.view], by simp [Subscription.view]⟩

theorem buffered_eq (s : Subscription) (c : Chan ProcessState) (h : s.view.chan = some c) :
    s.buffered = c.buf := by
  simp only [Subscription.view] at h
  simp [Subscription.buffered, h]

/-- C17 (amended): for every sequence of tracker ticks and of reads of the
subscriber after `GetAppStateChan`, what the subscriber has received, followed
by what waits in its channel, is the true sequence (the state at subscription
time followed by every later transition) with some events left out: nothing is
reordered or repeated. As long as the true sequence has at most 256 events
nothing is left out, and what was received is a beginning of the true
sequence. -/
theorem C17_received_is_subsequence (ctx : TrackedContext) (s : Subscription)
    (actions : List SubAction) (h : Subscription.start ctx = some s) :
    List.Sublist ((s.run actions).received ++ (s.run actions).buffered) (s.run actions).truth
      ∧ List.Sublist (s.run actions).received (s.run actions).truth
      ∧ ((s.run actions).truth.length ≤ 256 →
          (s.run actions).received ++ (s.run actions).buffered = (s.run actions).truth
          ∧ (s.run actions).received <+: (s.run actions).truth) := by
  have hinv : ViewInv (s.run actions).view := by
    rw [view_run]
    exact viewInv_run actions _ (viewInv_start ctx s h)
  obtain ⟨c, hc, _, hsub, heq⟩ := hinv
  rw [buffered_eq _ c hc]
  have hr : (s.run actions).view.received = (s.run actions).received := rfl
  have ht : (s.run actions).view.truth = (s.run actions).truth := rfl
  rw [hr, ht] at hsub heq
  refine ⟨hsub, List.Sublist.trans (List.sublist_append_left _ _) hsub, ?_⟩
  intro hl
  exact ⟨heq hl, ⟨c.buf, heq hl⟩⟩

/-- C17 (amended) at a new context: subscribe, two transitions, one read. -/
theorem C17_received_is_subsequence_witness :
    Subscription.start newTracked
        = some
          { ctx :=
              { AppState := ProcessState.NOT_RUNNING
                AppStateChan :=
                  setAt newTracked.AppStateChan 0
                    (some { cap := 256, buf := [ProcessState.NOT_RUNNING] })
                NextChanId := uintInc 0 }
            chanId := 0
            received := []
            truth := [ProcessState.NOT_RUNNING] }
      ∧ List.Sublist
          ((Subscription.run
            { ctx :=
                { AppState := ProcessState.NOT_RUNNING
                  AppStateChan :=
                    setAt newTracked.AppStateChan 0
                      (some { cap := 256, buf := [ProcessState.NOT_RUNNING] })
                  NextChanId := uintInc 0 }
              chanId := 0
              received := []
              truth := [ProcessState.NOT_RUNNING] }
            [SubAction.tick (some ProcessState.STARTING), SubAction.read,
              SubAction.tick (some ProcessState.RUNNING)]).received)
          ((Subscription.run
            { ctx :=
                { AppState := ProcessState.NOT_RUNNING
                  AppStateChan :=
                    setAt newTracked.AppStateChan 0
                      (some { cap := 256, buf := [ProcessState.NOT_RUNNING] })
                  NextChanId := uintInc 0 }
              chanId := 0
              received := []
              truth := [ProcessState.NOT_RUNNING] }
            [SubAction.tick (some ProcessState.STARTING), SubAction.read,
              SubAction.tick (some ProcessState.RUNNING)]).truth) :=
  ⟨rfl,
    (C17_received_is_subsequence newTracked _
      [SubAction.tick (some ProcessState.STARTING), SubAction.read,
        SubAction.tick (some ProcessState.RUNNING)] rfl).2.1⟩

theorem viewRun_append (a b : List SubAction) (v : SubView) :
    v.run (a ++ b) = (v.run a).run b := by
  induction a generalizing v with
  | nil => rfl
  | cons x rest ih =>
    show (v.step x).run (rest ++ b) = ((v.step x).run rest).run b
    exact ih _

theorem alternate_length (n : Nat) (prev : ProcessState) : (alternate n prev).length = n := by
  induction n generalizing prev with
  | zero => rfl
  | succ n ih => simp [alternate, ih]

/-- Transitions that find room in the channel are all appended to it. -/
theorem viewRun_fill (n : Nat) (v : SubView) (b : List ProcessState)
    (hc : v.chan = some { cap := 256, buf := b }) (hl : b.length + n ≤ 256)
    (hf : v.AppState ≠ ProcessState.FINISHED) :
    (v.run ((alternate n v.AppState).map (fun state => SubAction.tick (some state)))).chan
        = some { cap := 256, buf := b ++ alternate n v.AppState }
      ∧ (v.run ((alternate n v.AppState).map (fun state => SubAction.tick (some state)))).received
        = v.received
      ∧ (v.run ((alternate n v.AppState).map (fun state => SubAction.tick (some state)))).truth
        = v.truth ++ alternate n v.AppState
      ∧ (v.run ((alternate n v.AppState).map (fun state => SubAction.tick (some state)))).AppState
        ≠ ProcessState.FINISHED := by
  induction n generalizing v b with
  | zero => simp [alternate, SubView.run, hc, hf]
  | succ n ih =>
    obtain ⟨next, hnext⟩ : ∃ next,
        next = (if v.AppState = ProcessState.STARTING then ProcessState.RUNNING
          else ProcessState.STARTING) := ⟨_, rfl⟩
    have hne : v.AppState ≠ next := by
      rw [hnext]
      split
      · rename_i h
        rw [h]
        decide
      · rename_i h
        exact h
    have hnf : next ≠ ProcessState.FINISHED := by
      rw [hnext]
      split <;> decide
    have hstep : v.step (SubAction.tick (some next))
        = { AppState := next
            chan := some { cap := 256, buf := b ++ [next] }
            received := v.received
            truth := v.truth ++ [next] } := by
      have : b.length < 256 := by omega
      simp [SubView.step, hne, hc, Chan.offer, this]
    have halt : alternate (n + 1) v.AppState = next :: alternate n next := by
      simp only [alternate, ← hnext]
    rw [halt]
    simp only [List.map_cons, SubView.run, hstep]
    have := ih
      { AppState := next
        chan := some { cap := 256, buf := b ++ [next] }
        received := v.received
        truth := v.truth ++ [next] } (b ++ [next]) rfl
      (by simp only [List.length_append, List.length_singleton]; omega) hnf
    simpa using this

/-- Reading as often as events wait moves them all to the subscriber. -/
theorem viewRun_drain (b : List ProcessState) (v : SubView) (cap : Nat)
    (hc : v.chan = some { cap := cap, buf := b }) :
    v.run (List.replicate b.length SubAction.read)
      = { v with chan := some { cap := cap, buf := [] }, received := v.received ++ b } := by
  induction b generalizing v with
  | nil =>
    simp only [List.length_nil, List.replicate_zero, SubView.run, List.append_nil]
    rw [← hc]
  | cons x rest ih =>
    have hstep : v.step SubAction.read
        = { v with chan := some { cap := cap, buf := rest }, received := v.received ++ [x] } := by
      simp [SubView.step, hc, Chan.recv]
    simp only [List.length_cons, List.replicate_succ, SubView.run, hstep]
    rw [ih _ rfl]
    simp

/-- On a full channel: a transition is dropped, then one read and a further
transition, then everything is read. -/
theorem viewRun_lossy_tail (v : SubView) (x : ProcessState) (rest : List ProcessState)
    (hc : v.chan = some { cap := 256, buf := x :: rest }) (hlen : rest.length = 255)
    (hf : v.AppState ≠ ProcessState.FINISHED) :
    (v.run ([SubAction.tick (some ProcessState.FINISHED), SubAction.read,
          SubAction.tick (some ProcessState.NOT_RUNNING)]
        ++ List.replicate (rest ++ [ProcessState.NOT_RUNNING]).length SubAction.read)).received
        = v.received ++ [x] ++ (rest ++ [ProcessState.NOT_RUNNING])
      ∧ (v.run ([SubAction.tick (some ProcessState.FINISHED), SubAction.read,
          SubAction.tick (some ProcessState.NOT_RUNNING)]
        ++ List.replicate (rest ++ [ProcessState.NOT_RUNNING]).length SubAction.read)).truth
        = v.truth ++ [ProcessState.FINISHED] ++ [ProcessState.NOT_RUNNING] := by
  have hfull : ¬ (rest.length + 1 < 256) := by omega
  have hroom : rest.length < 256 := by omega
  have h1 : v.step (SubAction.tick (some ProcessState.FINISHED))
      = { v with AppState := ProcessState.FINISHED, truth := v.truth ++ [ProcessState.FINISHED] } := by
    simp [SubView.step, hf, hc, Chan.offer, hfull]
  have h2 : SubView.step
        { v with AppState := ProcessState.FINISHED, truth := v.truth ++ [ProcessState.FINISHED] }
        SubAction.read
      = { AppState := ProcessState.FINISHED
          chan := some { cap := 256, buf := rest }
          received := v.received ++ [x]
          truth := v.truth ++ [ProcessState.FINISHED] } := by
    simp [SubView.step, hc, Chan.recv]
  have h3 : SubView.step
        { AppState := ProcessState.FINISHED
          chan := some { cap := 256, buf := rest }
          received := v.received ++ [x]
          truth := v.truth ++ [ProcessState.FINISHED] }
        (SubAction.tick (some ProcessState.NOT_RUNNING))
      = { AppState := ProcessState.NOT_RUNNING
          chan := some { cap := 256, buf := rest ++ [ProcessState.NOT_RUNNING] }
          received := v.received ++ [x]
          truth := v.truth ++ [ProcessState.FINISHED] ++ [ProcessState.NOT_RUNNING] } := by
    simp [SubView.step, Chan.offer, hroom]
  rw [viewRun_append]
  simp only [SubView.run, h1, h2, h3]
  rw [viewRun_drain _ _ 256 rfl]
  exact ⟨rfl, rfl⟩

/-- C17 (the claim as stated fails): a new subscriber that lets 256 events
pile up in its channel misses the next transition (to `FINISHED`), reads one
event, and is sent the transition after that (to `NOT_RUNNING`). What it
receives in the end is the true sequence without the `FINISHED` in the middle,
which is no beginning of the true sequence. -/
theorem C17_event_lost_in_the_middle :
    (Subscription.start newTracked).map
        (fun s => ((s.run lossySchedule).received, (s.run lossySchedule).truth))
      = some
        (ProcessState.NOT_RUNNING
          :: (alternate 255 ProcessState.NOT_RUNNING ++ [ProcessState.NOT_RUNNING]),
         ProcessState.NOT_RUNNING
          :: (alternate 255 ProcessState.NOT_RUNNING
            ++ [ProcessState.FINISHED, ProcessState.NOT_RUNNING]))
      ∧ ¬ (ProcessState.NOT_RUNNING
          :: (alternate 255 ProcessState.NOT_RUNNING ++ [ProcessState.NOT_RUNNING]))
        <+: (ProcessState.NOT_RUNNING
          :: (alternate 255 ProcessState.NOT_RUNNING
            ++ [ProcessState.FINISHED, ProcessState.NOT_RUNNING])) := by
  have hsched : lossySchedule
      = (alternate 255 ProcessState.NOT_RUNNING).map (fun state => SubAction.tick (some state))
        ++ ([SubAction.tick (some ProcessState.FINISHED), SubAction.read,
            SubAction.tick (some ProcessState.NOT_RUNNING)]
          ++ List.replicate
            (alternate 255 ProcessState.NOT_RUNNING ++ [ProcessState.NOT_RUNNING]).length
            SubAction.read) := by
    rw [List.length_append, alternate_length]
    rfl
  obtain ⟨f1, f2, f3, f4⟩ := viewRun_fill 255
    { AppState := ProcessState.NOT_RUNNING
      chan := some { cap := 256, buf := [ProcessState.NOT_RUNNING] }
      received := []
      truth := [ProcessState.NOT_RUNNING] }
    [ProcessState.NOT_RUNNING] rfl (by simp) (by simp)
  have hlen := alternate_length 255 ProcessState.NOT_RUNNING
  rw [hsched]
  generalize alternate 255 ProcessState.NOT_RUNNING = A at *
  constructor
  · simp only [Subscription.start, GetAppStateChan_eq, Option.map_some', Option.some.injEq]
    obtain ⟨s0, hs0⟩ : ∃ s0 : Subscription, s0 =
        { ctx :=
            { newTracked with
              AppStateChan := setAt newTracked.AppStateChan newTracked.NextChanId
                (some { cap := 256, buf := [newTracked.AppState] })
              NextChanId := uintInc newTracked.NextChanId }
          chanId := newTracked.NextChanId
          received := []
          truth := [newTracked.AppState] } := ⟨_, rfl⟩
    rw [← hs0]
    have hv : s0.view
        = { AppState := ProcessState.NOT_RUNNING
            chan := some { cap := 256, buf := [ProcessState.NOT_RUNNING] }
            received := []
            truth := [ProcessState.NOT_RUNNING] } := by
      rw [hs0]
      simp [Subscription.view, newTracked]
    have hr : ∀ acts, (s0.run acts).received = (s0.run acts).view.received := fun _ => rfl
    have ht : ∀ acts, (s0.run acts).truth = (s0.run acts).view.truth := fun _ => rfl
    rw [hr, ht, view_run, hv, viewRun_append]
    obtain ⟨t1, t2⟩ := viewRun_lossy_tail _ ProcessState.NOT_RUNNING A f1 hlen f4
    rw [t1, t2, f2, f3]
    simp
  · intro h
    have h1 := List.cons_prefix_cons.1 h
    have h2 := (List.prefix_append_right_inj _).1 h1.2
    exact absurd h2 (by decide)

end cluster

/-! # The log manager -/

namespace logmgr

open golang cluster

/-! ## The effect of the operations on one app -/

theorem getAppContext_appContext (l : LogMgr) (appId : String) :
    (l.getAppContext appId).1.appContext appId = some (l.getAppContext appId).2 := by
  unfold LogMgr.getAppContext
  cases h : l.appContext appId with
  | none => simp
  | some ac => simp [h]

theorem queue_eq (l : LogMgr) (appId : String) :
    l.queue appId = (l.getAppContext appId).2.inputChan.buf := by
  unfold LogMgr.queue LogMgr.getAppContext
  cases h : l.appContext appId with
  | none => simp [newAppContext, Chan.make]
  | some ac => simp

theorem subscriber_eq (l : LogMgr) (appId : String) (i : Nat) :
    l.subscriber appId i = (l.getAppContext appId).2.outputChans i := by
  unfold LogMgr.subscriber LogMgr.getAppContext
  cases h : l.appContext appId with
  | none => simp [newAppContext]
  | some ac => simp

theorem running_eq (l : LogMgr) (appId : String) :
    l.running appId = (l.getAppContext appId).2.handlerRunning := by
  unfold LogMgr.running LogMgr.getAppContext
  cases h : l.appContext appId with
  | none => simp [newAppContext]
  | some ac => simp

theorem getAppContext_files (l : LogMgr) (appId : String) :
    (l.getAppContext appId).1.files = l.files := by
  unfold LogMgr.getAppContext
  cases h : l.appContext appId with
  | none => simp
  | some ac => simp

/-- A `WriteLine` of a line without newline on a queue with room. -/
theorem WriteLine_room (l : LogMgr) (appId : String) (line : Bytes)
    (hn : containsNewline line = false) (hr : (l.queue appId).length < l.inputCap appId) :
    (l.WriteLine appId line).2 = WriteOutcome.ok
      ∧ (l.WriteLine appId line).1.queue appId = l.queue appId ++ [line]
      ∧ (l.WriteLine appId line).1.inputCap appId = l.inputCap appId
      ∧ (l.WriteLine appId line).1.running appId = true
      ∧ (∀ i, (l.WriteLine appId line).1.subscriber appId i = l.subscriber appId i)
      ∧ (l.WriteLine appId line).1.files = l.files := by
  have e1 := queue_eq l appId
  have e2 : l.inputCap appId = (l.getAppContext appId).2.inputChan.cap := rfl
  have e3 := fun i => subscriber_eq l appId i
  rw [e1, e2] at hr
  rw [e1, e2]
  simp only [e3]
  clear e1 e2 e3
  have hf := getAppContext_files l appId
  simp only [LogMgr.WriteLine, hn, Chan.send, hr, if_true, Bool.false_eq_true, if_false]
  generalize l.getAppContext appId = p at *
  obtain ⟨g, ac⟩ := p
  simp only at hr hf ⊢
  by_cases hrun : ac.handlerRunning = true
  · simp [LogMgr.maybeStartHandler, hrun, LogMgr.store, LogMgr.queue, LogMgr.getAppContext,
      LogMgr.running, LogMgr.subscriber, LogMgr.inputCap, hf]
  · simp [LogMgr.maybeStartHandler, hrun, LogMgr.store, LogMgr.queue, LogMgr.getAppContext,
      LogMgr.running, LogMgr.subscriber, LogMgr.inputCap, hf]

/-- A `WriteLine` of a line without newline on a full queue. -/
theorem WriteLine_full (l : LogMgr) (appId : String) (line : Bytes)
    (hn : containsNewline line = false) (hr : ¬ (l.queue appId).length < l.inputCap appId) :
    (l.WriteLine appId line).2 = WriteOutcome.blocked
      ∧ (l.WriteLine appId line).1.queue appId = l.queue appId
      ∧ (l.WriteLine appId line).1.running appId = l.running appId
      ∧ (l.WriteLine appId line).1.files = l.files := by
  have e1 := queue_eq l appId
  have e2 : l.inputCap appId = (l.getAppContext appId).2.inputChan.cap := rfl
  rw [e1, e2] at hr
  rw [running_eq l, e1]
  clear e1 e2
  have hf := getAppContext_files l appId
  have hg := getAppContext_appContext l appId
  simp only [LogMgr.WriteLine, hn, Chan.send, hr, if_true, Bool.false_eq_true, if_false]
  generalize l.getAppContext appId = p at *
  obtain ⟨g, ac⟩ := p
  simp only at hr hf hg ⊢
  simp [LogMgr.queue, LogMgr.running, hg, hf]

/-- One line taken by the handler: it leaves the queue, is offered to every
subscriber and, without file error, is appended to the file with a newline. -/
theorem handleLine_effect (l l1 : LogMgr) (appId : String) (res : FileResult)
    (h : l.handleLine appId res = some l1) :
    ∃ line, l.queue appId = line :: l1.queue appId
      ∧ l1.inputCap appId = l.inputCap appId
      ∧ l.running appId = true ∧ l1.running appId = true
      ∧ (∀ i, l1.subscriber appId i = (l.subscriber appId i).map (fun c => c.offer line))
      ∧ (res = FileResult.good →
          (l1.files appId).getD [] = (l.files appId).getD [] ++ (line ++ [newline])) := by
  unfold LogMgr.handleLine at h
  cases hac : l.appContext appId with
  | none => simp [hac] at h
  | some ac =>
    simp only [hac] at h
    cases hrun1 : ac.handlerRunning with
    | false => simp [hrun1] at h
    | true =>
      cases hb : ac.inputChan.buf with
      | nil => simp [Chan.recv, hb, hrun1] at h
      | cons line rest =>
        simp only [Chan.recv, hb, hrun1, Bool.true_eq_false, if_false, Option.some.injEq] at h
        subst h
        refine ⟨line, ?_, ?_, ?_, ?_, ?_, ?_⟩
        · simp [LogMgr.queue, hac, hb]
        · simp [LogMgr.inputCap, LogMgr.getAppContext, hac]
        · simp [LogMgr.running, hac, hrun1]
        · simp [LogMgr.running, hrun1]
        · intro i
          simp [LogMgr.subscriber, hac, fanOut]
        · intro hres
          subst hres
          by_cases hf : l.handlerFile appId = true
          · simp [FileResult.good, hf]
          · simp [FileResult.good, hf]

/-- The idle timer of the handler: the handler ends, the rest stays. -/
theorem handleIdle_effect (l l1 : LogMgr) (appId : String)
    (h : l.handleIdle appId = some l1) :
    l1.queue appId = l.queue appId
      ∧ l1.inputCap appId = l.inputCap appId
      ∧ l1.running appId = false
      ∧ (∀ i, l1.subscriber appId i = l.subscriber appId i)
      ∧ l1.files = l.files := by
  unfold LogMgr.handleIdle at h
  cases hac : l.appContext appId with
  | none => simp [hac] at h
  | some ac =>
    simp only [hac] at h
    cases hrun1 : ac.handlerRunning with
    | false => simp [hrun1] at h
    | true =>
      simp only [hrun1, Bool.true_eq_false, if_false, Option.some.injEq] at h
      subst h
      simp [LogMgr.queue, LogMgr.inputCap, LogMgr.getAppContext, LogMgr.running,
        LogMgr.subscriber, hac]

theorem handleIdle_some (l : LogMgr) (appId : String) (h : l.running appId = true) :
    ∃ l1, l.handleIdle appId = some l1 := by
  unfold LogMgr.running at h
  unfold LogMgr.handleIdle
  cases hac : l.appContext appId with
  | none => simp [hac] at h
  | some ac =>
    simp only [hac] at h
    simp [h]

/-- A `write` event that happens is a `WriteLine` on a queue with room. -/
theorem step_write (l l1 : LogMgr) (appId : String) (line : Bytes)
    (h : l.step appId (LogEvent.write line) = some l1) :
    l1.queue appId = l.queue appId ++ [line]
      ∧ l1.inputCap appId = l.inputCap appId
      ∧ l1.running appId = true
      ∧ (∀ i, l1.subscriber appId i = l.subscriber appId i)
      ∧ l1.files = l.files := by
  simp only [LogMgr.step] at h
  by_cases hn : containsNewline line = true
  · simp [LogMgr.WriteLine, hn] at h
  · have hn1 : containsNewline line = false := by simpa using hn
    by_cases hr : (l.queue appId).length < l.inputCap appId
    · obtain ⟨h1, h2, h3, h4, h5, h6⟩ := WriteLine_room l appId line hn1 hr
      generalize l.WriteLine appId line = p at *
      obtain ⟨l2, o⟩ := p
      simp only at h1
      subst h1
      simp only [Option.some.injEq] at h
      subst h
      exact ⟨h2, h3, h4, h5, h6⟩
    · obtain ⟨h1, _⟩ := WriteLine_full l appId line hn1 hr
      generalize l.WriteLine appId line = p at *
      obtain ⟨l2, o⟩ := p
      simp only at h1
      subst h1
      simp at h

theorem step_write_some (l : LogMgr) (appId : String) (line : Bytes)
    (hn : containsNewline line = false) (hr : (l.queue appId).length < l.inputCap appId) :
    l.step appId (LogEvent.write line) = some (l.WriteLine appId line).1 := by
  have h1 := (WriteLine_room l appId line hn hr).1
  simp only [LogMgr.step]
  generalize l.WriteLine appId line = p at *
  obtain ⟨l2, o⟩ := p
  simp only at h1
  subst h1
  rfl

theorem run_append (a b : List LogEvent) (l : LogMgr) (appId : String) :
    l.run appId (a ++ b) = (l.run appId a).bind (fun l1 => l1.run appId b) := by
  induction a generalizing l with
  | nil => rfl
  | cons e rest ih =>
    show (match l.step appId e with
        | some l1 => l1.run appId (rest ++ b)
        | none => none)
      = (match l.step appId e with
        | some l1 => l1.run appId rest
        | none => none).bind (fun l1 => l1.run appId b)
    cases l.step appId e with
    | none => rfl
    | some l1 => exact ih l1

/-- As many writes of a line as the queue has room for all happen. -/
theorem run_writes (n : Nat) (l : LogMgr) (appId : String) (line : Bytes)
    (hn : containsNewline line = false)
    (h : (l.queue appId).length + n ≤ l.inputCap appId) :
    ∃ l1, l.run appId (List.replicate n (LogEvent.write line)) = some l1
      ∧ l1.queue appId = l.queue appId ++ List.replicate n line
      ∧ l1.inputCap appId = l.inputCap appId
      ∧ (0 < n → l1.running appId = true) := by
  induction n generalizing l with
  | zero => exact ⟨l, rfl, by simp, rfl, fun h0 => absurd h0 (Nat.lt_irrefl 0)⟩
  | succ n ih =>
    have hr : (l.queue appId).length < l.inputCap appId := by omega
    obtain ⟨_, h2, h3, h4, _, _⟩ := WriteLine_room l appId line hn hr
    obtain ⟨l1, r1, r2, r3, r4⟩ := ih (l.WriteLine appId line).1
      (by rw [h2, h3, List.length_append, List.length_singleton]; omega)
    refine ⟨l1, ?_, ?_, by rw [r3, h3], ?_⟩
    · simp only [List.replicate_succ, LogMgr.run, step_write_some l appId line hn hr]
      exact r1
    · rw [r2, h2, List.replicate_succ, List.append_assoc]
      rfl
    · intro _
      by_cases hz : 0 < n
      · exact r4 hz
      · have : n = 0 := by omega
        subst this
        simp only [List.replicate_zero, LogMgr.run, Option.some.injEq] at r1
        rw [← r1]
        exact h4

/-! ## C18: `WriteLine` -/

/-- C18 (the claim as stated fails): after 1024 lines were written for the app
"x" and the idle timer ended the handler before it took any of them, a further
`WriteLine` of a line without newline neither returns an error nor appends the
line nor starts a handler: it waits in the send on the full input queue. -/
theorem C18_write_waits_on_full_queue :
    ((NewLogMgr "/log" (fun _ => none)).run "x"
        (List.replicate 1024 (LogEvent.write (ascii "a")) ++ [LogEvent.idle])).map
      (fun l =>
        ((l.queue "x").length, l.running "x", (l.WriteLine "x" (ascii "b")).2,
          ((l.WriteLine "x" (ascii "b")).1.queue "x").length,
          (l.WriteLine "x" (ascii "b")).1.running "x"))
      = some (1024, false, WriteOutcome.blocked, 1024, false) := by
  obtain ⟨l1, r1, r2, r3, _⟩ := run_writes 1024 (NewLogMgr "/log" (fun _ => none)) "x"
    (ascii "a") (by decide) (by simp [LogMgr.queue, LogMgr.inputCap, LogMgr.getAppContext,
      NewLogMgr, newAppContext, Chan.make])
  have hrun1 : l1.running "x" = true := by
    have := run_writes 1024 (NewLogMgr "/log" (fun _ => none)) "x"
      (ascii "a") (by decide) (by simp [LogMgr.queue, LogMgr.inputCap, LogMgr.getAppContext,
        NewLogMgr, newAppContext, Chan.make])
    obtain ⟨l1a, ra, _, _, rd⟩ := this
    rw [r1] at ra
    cases ra
    exact rd (by omega)
  obtain ⟨l2, hidle⟩ := handleIdle_some l1 "x" hrun1
  obtain ⟨i1, i2, i3, _, _⟩ := handleIdle_effect l1 l2 "x" hidle
  have hq : (l2.queue "x").length = 1024 := by
    have h0 : (NewLogMgr "/log" (fun _ => none)).queue "x" = [] := rfl
    rw [i1, r2, h0, List.nil_append, List.length_replicate]
  have hcap : l2.inputCap "x" = 1024 := by
    rw [i2, r3]
    simp [LogMgr.inputCap, LogMgr.getAppContext, NewLogMgr, newAppContext, Chan.make]
  obtain ⟨w1, w2, w3, _⟩ := WriteLine_full l2 "x" (ascii "b") (by decide)
    (by rw [hq, hcap]; omega)
  rw [run_append, r1]
  simp only [Option.bind, LogMgr.run, LogMgr.step, hidle, Option.map_some', Option.some.injEq]
  rw [w1, w2, w3, hq, i3]

/-- C18 (amended): `WriteLine` returns an error exactly when the line contains
a newline, and then changes nothing: no app context is created, nothing is
enqueued and no handler is started. For a line without newline, when the
input queue of the app has room (it has 1024 places) the call returns `nil`,
the line is appended to the queue and a handler runs afterwards; when the queue
is full the call does not return as long as no handler receives from the
queue, and until then nothing is enqueued and no handler is started. -/
theorem C18_WriteLine (l : LogMgr) (appId : String) (line : Bytes) :
    ((∃ msg, (l.WriteLine appId line).2 = WriteOutcome.error msg) ↔ containsNewline line = true)
      ∧ (containsNewline line = true →
          l.WriteLine appId line = (l, WriteOutcome.error "Line cannot contain \\n"))
      ∧ (l.appContext appId = none → l.inputCap appId = 1024)
      ∧ (containsNewline line = false → (l.queue appId).length < l.inputCap appId →
          (l.WriteLine appId line).2 = WriteOutcome.ok
          ∧ (l.WriteLine appId line).1.queue appId = l.queue appId ++ [line]
          ∧ (l.WriteLine appId line).1.running appId = true)
      ∧ (containsNewline line = false → ¬ (l.queue appId).length < l.inputCap appId →
          (l.WriteLine appId line).2 = WriteOutcome.blocked
          ∧ (l.WriteLine appId line).1.queue appId = l.queue appId
          ∧ (l.WriteLine appId line).1.running appId = l.running appId) := by
  refine ⟨?_, ?_, ?_, ?_, ?_⟩
  · constructor
    · rintro ⟨msg, hm⟩
      by_cases hn : containsNewline line = true
      · exact hn
      · have hn1 : containsNewline line = false := by simpa using hn
        by_cases hr : (l.queue appId).length < l.inputCap appId
        · rw [(WriteLine_room l appId line hn1 hr).1] at hm
          cases hm
        · rw [(WriteLine_full l appId line hn1 hr).1] at hm
          cases hm
    · intro hn
      exact ⟨"Line cannot contain \\n", by simp [LogMgr.WriteLine, hn]⟩
  · intro hn
    simp [LogMgr.WriteLine, hn]
  · intro hnone
    simp [LogMgr.inputCap, LogMgr.getAppContext, hnone, newAppContext, Chan.make]
  · intro hn hr
    obtain ⟨h1, h2, _, h4, _, _⟩ := WriteLine_room l appId line hn hr
    exact ⟨h1, h2, h4⟩
  · intro hn hr
    obtain ⟨h1, h2, h3, _⟩ := WriteLine_full l appId line hn hr
    exact ⟨h1, h2, h3⟩

/-- C18 (amended) at the first line written for the app "x". -/
theorem C18_WriteLine_witness :
    containsNewline (ascii "one") = false
      ∧ ((NewLogMgr "/log" (fun _ => none)).WriteLine "x" (ascii "one")).2 = WriteOutcome.ok
      ∧ ((NewLogMgr "/log" (fun _ => none)).WriteLine "x" (ascii "one")).1.queue "x"
          = (NewLogMgr "/log" (fun _ => none)).queue "x" ++ [ascii "one"]
      ∧ ((NewLogMgr "/log" (fun _ => none)).WriteLine "x" (ascii "one")).1.running "x" = true :=
  ⟨by decide,
    (C18_WriteLine (NewLogMgr "/log" (fun _ => none)) "x" (ascii "one")).2.2.2.1
      (by decide) (by decide)⟩

/-! ## C19: the file and the subscribers after a sequence of lines -/

/-- The effect of a sequence of events on one app: the lines `done` that the
handler took are the beginning of what waited and what was written; a
subscriber whose channel has room for them holds them all afterwards, in
order; without file error they are appended to the file, each with a
newline. -/
theorem run_effect (events : List LogEvent) (l l1 : LogMgr) (appId : String)
    (h : l.run appId events = some l1) :
    ∃ done, l.queue appId ++ writes events = done ++ l1.queue appId
      ∧ (∀ i c, l.subscriber appId i = some c → c.buf.length + done.length ≤ c.cap →
          l1.subscriber appId i = some { c with buf := c.buf ++ done })
      ∧ ((∀ e ∈ events, e.fileOk = true) →
          (l1.files appId).getD []
            = (l.files appId).getD [] ++ (done.map (fun line => line ++ [newline])).flatten) := by
  induction events generalizing l with
  | nil =>
    simp only [LogMgr.run, Option.some.injEq] at h
    subst h
    exact ⟨[], by simp [writes], fun i c hc _ => by simp [hc], fun _ => by simp⟩
  | cons e rest ih =>
    simp only [LogMgr.run] at h
    cases hs : l.step appId e with
    | none => simp [hs] at h
    | some l2 =>
      rw [hs] at h
      obtain ⟨done, d1, d2, d3⟩ := ih l2 h
      cases e with
      | write line =>
        obtain ⟨w1, _, _, w4, w5⟩ := step_write l l2 appId line hs
        refine ⟨done, ?_, ?_, ?_⟩
        · rw [← d1, w1]
          simp [writes]
        · intro i c hc hl
          exact d2 i c (by rw [w4, hc]) hl
        · intro hok
          rw [d3 (fun e he => hok e (List.mem_cons_of_mem _ he)), w5]
      | handle res =>
        obtain ⟨line, q1, _, _, _, q5, q6⟩ := handleLine_effect l l2 appId res hs
        refine ⟨line :: done, ?_, ?_, ?_⟩
        · rw [q1]
          simp only [writes, List.cons_append]
          rw [d1]
        · intro i c hc hl
          simp only [List.length_cons] at hl
          have hroom : c.buf.length < c.cap := by omega
          have h2 : l2.subscriber appId i = some { c with buf := c.buf ++ [line] } := by
            rw [q5, hc]
            simp [Chan.offer, hroom]
          rw [d2 i _ h2 (by simp only [List.length_append, List.length_singleton]; omega)]
          simp
        · intro hok
          have hres : res = FileResult.good := by
            have := hok (LogEvent.handle res) (List.mem_cons_self _ _)
            simpa [LogEvent.fileOk] using this
          rw [d3 (fun e he => hok e (List.mem_cons_of_mem _ he)), q6 hres]
          simp
      | idle =>
        obtain ⟨i1, _, _, i4, i5⟩ := handleIdle_effect l l2 appId hs
        refine ⟨done, ?_, ?_, ?_⟩
        · rw [← d1, i1]
          simp [writes]
        · intro i c hc hl
          exact d2 i c (by rw [i4, hc]) hl
        · intro hok
          rw [d3 (fun e he => hok e (List.mem_cons_of_mem _ he)), i5]

/-- C19: let writes, handler steps without file error and idle timers of the
handler happen for an app in any order, from an empty input queue to an empty
input queue. Then the bytes appended to the file of the app are the written
lines in the order of the writes, each followed by a newline, and every
subscriber channel that was registered before and has room for all of them
holds afterwards what it held before followed by exactly these lines, in that
order. -/
theorem C19_file_and_subscribers_get_lines_in_order (l l1 : LogMgr) (appId : String)
    (events : List LogEvent) (h : l.run appId events = some l1)
    (hok : ∀ e ∈ events, e.fileOk = true)
    (hq : l.queue appId = []) (hq1 : l1.queue appId = []) :
    (l1.files appId).getD []
        = (l.files appId).getD []
          ++ ((writes events).map (fun line => line ++ [newline])).flatten
      ∧ ∀ i c, l.subscriber appId i = some c →
          c.buf.length + (writes events).length ≤ c.cap →
          l1.subscriber appId i = some { c with buf := c.buf ++ writes events } := by
  obtain ⟨done, d1, d2, d3⟩ := run_effect events l l1 appId h
  rw [hq, hq1, List.nil_append, List.append_nil] at d1
  subst d1
  exact ⟨d3 hok, d2⟩

/-- C19 at three lines written for the app "x", with a subscriber registered
before: the file holds the three lines, newline-terminated and in order, and
the channel of the subscriber holds the three lines in order. -/
theorem C19_file_and_subscribers_get_lines_in_order_witness :
    subscribedLog.run "x" threeLines = some threeLinesLog
      ∧ subscribedLog.subscriber "x" 0 = some { cap := 4, buf := [] }
      ∧ (threeLinesLog.files "x").getD [] = ascii "one\ntwo\nthree\n"
      ∧ threeLinesLog.subscriber "x" 0
          = some { cap := 4, buf := [ascii "one", ascii "two", ascii "three"] } :=
  ⟨rfl, by decide,
    (C19_file_and_subscribers_get_lines_in_order subscribedLog threeLinesLog "x" threeLines rfl
      (by decide) (by decide) (by decide)).1,
    (C19_file_and_subscribers_get_lines_in_order subscribedLog threeLinesLog "x" threeLines rfl
      (by decide) (by decide) (by decide)).2 0 { cap := 4, buf := [] } (by decide) (by decide)⟩

/-! ## C20: a tail subscription followed by writes -/

theorem splitLines_flatten (c : Bytes) : (splitLines c).flatten = c := by
  induction c with
  | nil => rfl
  | cons b rest ih =>
    by_cases hb : b = newline
    · simp [splitLines, hb, ih]
    · simp only [splitLines, hb, if_false]
      cases hs : splitLines rest with
      | nil =>
        rw [hs] at ih
        simp only [List.flatten_nil] at ih
        simp [← ih]
      | cons piece pieces =>
        rw [hs] at ih
        simp only [List.flatten_cons] at ih
        simp [← ih]

/-- The pieces of the last lines of a stream are these lines. -/
theorem splitLines_drop (c : Bytes) (n : Nat) :
    splitLines ((splitLines c).drop n).flatten = (splitLines c).drop n := by
  induction c generalizing n with
  | nil => simp [splitLines]
  | cons b rest ih =>
    cases n with
    | zero => simp only [List.drop_zero, splitLines_flatten]
    | succ n =>
      by_cases hb : b = newline
      · simp only [splitLines, hb, if_true, List.drop_succ_cons]
        exact ih n
      · simp only [splitLines, hb, if_false]
        cases hs : splitLines rest with
        | nil => simp [splitLines]
        | cons piece pieces =>
          simp only [List.drop_succ_cons]
          have := ih (n + 1)
          rw [hs] at this
          simpa using this

theorem preload_length (tailLines : Nat) (content : Bytes) :
    (splitLines (tailProgram tailLines content)).length ≤ tailLines := by
  unfold tailProgram
  rw [splitLines_drop, List.length_drop]
  omega

theorem sendAll_ok (lines : List Bytes) (c : Chan Bytes)
    (h : c.buf.length + lines.length ≤ c.cap) :
    sendAll c lines = some { c with buf := c.buf ++ lines } := by
  induction lines generalizing c with
  | nil => simp [sendAll]
  | cons line rest ih =>
    simp only [List.length_cons] at h
    have hroom : c.buf.length < c.cap := by omega
    simp only [sendAll, Chan.send, hroom, if_true]
    rw [ih _ (by simp only [List.length_append, List.length_singleton]; omega)]
    simp

/-- `tailFile` without error of `tail` returns, with at most `tailLines` lines
in the channel. -/
theorem tailFile_ok (l : LogMgr) (appId : String) (tailLines : Nat) :
    ∃ pre, pre.length ≤ tailLines
      ∧ l.tailFile appId tailLines (Chan.make (tailLines * 2)) none
        = some (Except.ok { cap := tailLines * 2, buf := pre }) := by
  cases hfile : l.files appId with
  | none => exact ⟨[], by simp, by simp [LogMgr.tailFile, hfile, Chan.make]⟩
  | some content =>
    have hl := preload_length tailLines content
    have hsend := sendAll_ok
      ((splitLines (tailProgram tailLines content)).map trimRightNewline)
      (Chan.make (tailLines * 2))
      (by simp only [Chan.make, List.length_nil, List.length_map]; omega)
    simp only [Chan.make, List.nil_append] at hsend
    exact ⟨(splitLines (tailProgram tailLines content)).map trimRightNewline,
      by simpa using hl, by simp [LogMgr.tailFile, hfile, hsend, Chan.make]⟩

/-- `GetTailChan` without error of `tail` returns: the channel has capacity
`2 * tailLines`, holds at most `tailLines` lines and is registered under the
id returned; the input queue and the files are as before. -/
theorem GetTailChan_ok (l : LogMgr) (appId : String) (tailLines : Nat) :
    ∃ l1 pre, l.GetTailChan appId tailLines none
        = some (l1, Except.ok ((l.getAppContext appId).2.nextId,
            { cap := tailLines * 2, buf := pre }))
      ∧ pre.length ≤ tailLines
      ∧ l1.subscriber appId (l.getAppContext appId).2.nextId
          = some { cap := tailLines * 2, buf := pre }
      ∧ l1.queue appId = l.queue appId
      ∧ l1.files = l.files := by
  have hq := queue_eq l appId
  have hf := getAppContext_files l appId
  obtain ⟨pre, hpre, htail⟩ := tailFile_ok l appId tailLines
  refine ⟨(l.getAppContext appId).1.store appId
      { (l.getAppContext appId).2 with
        outputChans :=
          setAt (l.getAppContext appId).2.outputChans (l.getAppContext appId).2.nextId
            (some { cap := tailLines * 2, buf := pre })
        nextId := uintInc (l.getAppContext appId).2.nextId },
    pre, by simp [LogMgr.GetTailChan, htail], hpre, ?_, ?_, ?_⟩
  · simp [LogMgr.subscriber, LogMgr.store]
  · rw [hq]
    simp [LogMgr.queue, LogMgr.store]
  · simp [LogMgr.store, hf]

/-- C20 (the claim as stated fails): for the app "x" the line "a" is in the
file and the line "b" was written but still waits in the input queue when
`GetTailChan("x", 1)` is called. The channel (capacity 2) is preloaded with
"a"; then "c" is written and the handler takes "b" and "c": "b" fills the
channel and "c" is dropped. The channel holds "a", "b": its last element is
not the line written after the subscription. -/
theorem C20_pending_line_displaces_write :
    ((((NewLogMgr "/log" (fun _ => none)).run "x"
          [LogEvent.write (ascii "a"), LogEvent.handle FileResult.good,
            LogEvent.write (ascii "b")]).bind
        (fun l => l.GetTailChan "x" 1 none)).bind
      (fun r =>
        r.1.run "x"
          [LogEvent.write (ascii "c"), LogEvent.handle FileResult.good,
            LogEvent.handle FileResult.good])).map
      (fun l => (l.subscriber "x" 0, l.queue "x", l.files "x"))
      = some (some { cap := 2, buf := [ascii "a", ascii "b"] }, [], some (ascii "a\nb\nc\n")) := by
  decide

/-- A handler that runs with a line waiting takes it, whatever the file does. -/
theorem handleLine_some (l : LogMgr) (appId : String) (line : Bytes) (rest : List Bytes)
    (res : FileResult) (hrun : l.running appId = true) (hq : l.queue appId = line :: rest) :
    ∃ l1, l.handleLine appId res = some l1 := by
  unfold LogMgr.handleLine
  cases hac : l.appContext appId with
  | none => simp [LogMgr.running, hac] at hrun
  | some ac =>
    have hr : ac.handlerRunning = true := by simpa [LogMgr.running, hac] using hrun
    have hb : ac.inputChan.buf = line :: rest := by simpa [LogMgr.queue, hac] using hq
    simp only [Chan.recv, hb, hr, Bool.true_eq_false, if_false]
    exact ⟨_, rfl⟩

/-- The non-blocking send on a full channel and on one with room. -/
theorem offer_effect {α : Type} (c : Chan α) (v : α) :
    (c.cap ≤ c.buf.length → c.offer v = c)
      ∧ (c.buf.length < c.cap → c.offer v = { c with buf := c.buf ++ [v] }) := by
  unfold Chan.offer
  constructor
  · intro h
    rw [if_neg (by omega)]
  · intro h
    rw [if_pos h]

/-- C16: in a fan-out step of the state tracker (a tick that polled a state
different from the recorded one) and of the log handler (a line taken from the
input queue, whatever the file operations return), the step completes, a
subscriber whose channel is full keeps its queue unchanged, and every
subscriber whose channel has room gets the event appended to its queue. -/
theorem C16_full_channel_drops_event :
    (∀ (ctx : TrackedContext) (state : ProcessState), ctx.AppState ≠ state →
      (trackerTick ctx (some state)).AppState = state
        ∧ ∀ i c, ctx.AppStateChan i = some c →
          (c.cap ≤ c.buf.length → (trackerTick ctx (some state)).AppStateChan i = some c)
            ∧ (c.buf.length < c.cap →
                (trackerTick ctx (some state)).AppStateChan i
                  = some { c with buf := c.buf ++ [state] }))
      ∧ (∀ (l : LogMgr) (appId : String) (line : Bytes) (rest : List Bytes) (res : FileResult),
          l.running appId = true → l.queue appId = line :: rest →
          ∃ l1, l.handleLine appId res = some l1 ∧ l1.queue appId = rest
            ∧ ∀ i c, l.subscriber appId i = some c →
              (c.cap ≤ c.buf.length → l1.subscriber appId i = some c)
                ∧ (c.buf.length < c.cap →
                    l1.subscriber appId i = some { c with buf := c.buf ++ [line] })) := by
  constructor
  · intro ctx state hne
    have ht : trackerTick ctx (some state)
        = { ctx with
            AppState := state
            AppStateChan := fun i => (ctx.AppStateChan i).map (fun c => c.offer state) } := by
      simp only [trackerTick]
      rw [if_pos hne]
    rw [ht]
    refine ⟨rfl, ?_⟩
    intro i c hc
    simp only [hc, Option.map_some']
    exact ⟨fun h => by rw [(offer_effect c state).1 h],
      fun h => by rw [(offer_effect c state).2 h]⟩
  · intro l appId line rest res hrun hq
    obtain ⟨l1, h1⟩ := handleLine_some l appId line rest res hrun hq
    obtain ⟨line1, e1, _, _, _, e5, _⟩ := handleLine_effect l l1 appId res h1
    rw [hq] at e1
    have hl : line = line1 := (List.cons.inj e1).1
    have hrest : rest = l1.queue appId := (List.cons.inj e1).2
    subst hl
    refine ⟨l1, h1, hrest.symm, ?_⟩
    intro i c hc
    rw [e5 i, hc, Option.map_some']
    exact ⟨fun h => by rw [(offer_effect c line).1 h],
      fun h => by rw [(offer_effect c line).2 h]⟩

/-- C16 on a context with two subscribers: channel 0 (capacity 1) still holds
an unread event, channel 1 is empty. The tick that polls FINISHED leaves
channel 0 as it was and appends FINISHED to channel 1. -/
theorem C16_full_channel_drops_event_witness :
    (trackerTick
        { AppState := ProcessState.RUNNING
          AppStateChan := fun i =>
            if i = 0 then some { cap := 1, buf := [ProcessState.RUNNING] }
            else some { cap := 1, buf := [] }
          NextChanId := 2 }
        (some ProcessState.FINISHED)).AppStateChan 0
        = some { cap := 1, buf := [ProcessState.RUNNING] }
      ∧ (trackerTick
        { AppState := ProcessState.RUNNING
          AppStateChan := fun i =>
            if i = 0 then some { cap := 1, buf := [ProcessState.RUNNING] }
            else some { cap := 1, buf := [] }
          NextChanId := 2 }
        (some ProcessState.FINISHED)).AppStateChan 1
        = some { cap := 1, buf := [ProcessState.FINISHED] } :=
  ⟨((C16_full_channel_drops_event.1 _ ProcessState.FINISHED (by decide)).2 0 _ rfl).1
      (by decide),
    ((C16_full_channel_drops_event.1 _ ProcessState.FINISHED (by decide)).2 1 _ rfl).2
      (by decide)⟩

end logmgr

/-! # The reverse proxy -/

namespace server

open cluster

/-- The director removes the internal header. -/
theorem proxyDirector_removes_header (r : Request) :
    (proxyDirector r).Header.Get "POSTVERTA_APP_ENDPOINT" = ""
      ∧ (proxyDirector r).Header.values (canonicalMIMEHeaderKey "POSTVERTA_APP_ENDPOINT") = [] := by
  simp [proxyDirector, Header.Del, Header.Get, setAt]

/-- The host that the director sets for a request to which `ServeHTTP` has
added the endpoint: the first value that the client sent under the key of the
internal header if there is one, the endpoint otherwise. -/
theorem proxyDirector_target (r : Request) (endpoint scheme : String) :
    (proxyDirector
        { r with
          Header := r.Header.Add "POSTVERTA_APP_ENDPOINT" endpoint
          URLScheme := scheme }).URLHost
      = (r.Header.values (canonicalMIMEHeaderKey "POSTVERTA_APP_ENDPOINT") ++ [endpoint]).headD "" := by
  simp only [proxyDirector, Header.Add, Header.Get, setAt, if_true]
  cases r.Header.values (canonicalMIMEHeaderKey "POSTVERTA_APP_ENDPOINT") <;> rfl

/-- C11 (the code on the failing input): the app "app1" runs with the endpoint
"10.0.0.1:31000". A request for "app1.postverta.com" without headers is
forwarded to that endpoint; the same request with the additional header line
`POSTVERTA_APP_ENDPOINT: evil.example:80` is forwarded to "evil.example:80". -/
theorem C11_client_header_sets_target :
    (ServeHTTP sampleEnv 1002 (fresh ["A"]) (plainRequest "app1.postverta.com")).map
        (fun s => s.reply.target) = some (some "10.0.0.1:31000")
      ∧ (ServeHTTP sampleEnv 1002 (fresh ["A"])
          (forgedRequest "app1.postverta.com" "evil.example:80")).map
        (fun s => s.reply.target) = some (some "evil.example:80") := by
  constructor <;> decide

/-- `strings.Split` returns at least one part. -/
theorem splitDots_ne_nil (s : List Char) : splitDots s ≠ [] := by
  cases s with
  | nil => simp [splitDots]
  | cons c rest =>
    unfold splitDots
    split
    · simp
    · split <;> simp

/-- The first part of a string that starts with a dot-free name and a dot. -/
theorem splitDots_name (name rest : List Char) (hname : '.' ∉ name) :
    splitDots (name ++ '.' :: rest) = name :: splitDots rest := by
  induction name with
  | nil => simp [splitDots]
  | cons c name ih =>
    have hc : c ≠ '.' := fun h => hname (by simp [h])
    have ht : '.' ∉ name := fun h => hname (by simp [h])
    rw [List.cons_append, splitDots, if_neg hc, ih ht]

/-- C12 (the claim as stated fails): the host "postverta.com", the bare suffix,
passes the check; the app is looked up under the name "postverta" and, when the
database has such an app, a context is leased and the request is forwarded. The
host ".postverta.com" is looked up under the empty name, and the host
"app1.postverta.org", which does not end in the app-host suffix, is looked up
under "app1". -/
theorem C12_bare_suffix_is_looked_up :
    (ServeHTTP emptyDbEnv 1002 (fresh ["A"]) (plainRequest "postverta.com")).map
        (fun s => (s.reply.status, s.lookups, s.leases)) = some (some 404, ["postverta"], 0)
      ∧ (ServeHTTP sampleEnv 1002 (fresh ["A"]) (plainRequest "postverta.com")).map
        (fun s => (s.reply.target, s.lookups, s.leases))
          = some (some "10.0.0.1:31000", ["postverta"], 1)
      ∧ (ServeHTTP emptyDbEnv 1002 (fresh ["A"]) (plainRequest ".postverta.com")).map
        (fun s => (s.reply.status, s.lookups, s.leases)) = some (some 404, [""], 0)
      ∧ (ServeHTTP emptyDbEnv 1002 (fresh ["A"]) (plainRequest "app1.postverta.org")).map
        (fun s => (s.reply.status, s.lookups, s.leases)) = some (some 404, ["app1"], 0) := by
  refine ⟨?_, ?_, ?_, ?_⟩ <;> decide

/-- C12 (amended): `ServeHTTP` answers 404 without any lookup or lease when
the host has fewer than two parts between dots or its last part but one is not
"postverta"; for every other host a call that returns has looked up exactly one
name, the part before the first dot (which may be empty, and is "postverta" for
the host "postverta.com"), and has asked for at most one lease. Every host
made of a dot-free name followed by ".postverta.com" or ".dev.postverta.io" passes
the check and is looked up under that name. -/
theorem C12_host_check (env : Env) (fuel : Nat) (c : Cluster) (r : Request) :
    (isAppHost (splitDots r.Host.toList) = false →
        ServeHTTP env fuel c r
          = some { reply := Reply.notFound, lookups := [], leases := 0, releases := 0, c := c })
      ∧ (isAppHost (splitDots r.Host.toList) = true →
          ∀ s, ServeHTTP env fuel c r = some s →
            s.lookups = [String.mk ((splitDots r.Host.toList).headD [])] ∧ s.leases ≤ 1)
      ∧ (∀ name : List Char, '.' ∉ name →
          (r.Host = String.mk (name ++ ".postverta.com".toList)
              ∨ r.Host = String.mk (name ++ ".dev.postverta.io".toList)) →
          isAppHost (splitDots r.Host.toList) = true
            ∧ (splitDots r.Host.toList).headD [] = name) := by
  refine ⟨?_, ?_, ?_⟩
  · intro h
    simp only [ServeHTTP, h, if_true]
  · intro h s hs
    simp only [ServeHTTP, h, Bool.true_eq_false, if_false] at hs
    split at hs
    · cases hs
      exact ⟨rfl, by simp⟩
    · cases hs
      exact ⟨rfl, by simp⟩
    · split at hs
      · cases hs
        exact ⟨rfl, by simp⟩
      · split at hs
        · cases hs
        · split at hs
          · cases hs
          · cases hs
            exact ⟨rfl, by simp⟩
      · cases hs
  · intro name hname hhost
    rcases hhost with hhost | hhost
    · have e : splitDots (name ++ ".postverta.com".toList)
          = name :: splitDots "postverta.com".toList := splitDots_name name _ hname
      have e2 : splitDots "postverta.com".toList = ["postverta".toList, "com".toList] := by
        decide
      rw [hhost]
      show isAppHost (splitDots (name ++ _)) = true ∧ (splitDots (name ++ _)).headD [] = name
      rw [e, e2]
      exact ⟨by simp [isAppHost], rfl⟩
    · have e : splitDots (name ++ ".dev.postverta.io".toList)
          = name :: splitDots "dev.postverta.io".toList := splitDots_name name _ hname
      have e2 : splitDots "dev.postverta.io".toList
          = ["dev".toList, "postverta".toList, "io".toList] := by
        decide
      rw [hhost]
      show isAppHost (splitDots (name ++ _)) = true ∧ (splitDots (name ++ _)).headD [] = name
      rw [e, e2]
      exact ⟨by simp [isAppHost], rfl⟩

/-- C12 (amended) on the host "shop.postverta.com" with an empty database. -/
theorem C12_host_check_witness :
    isAppHost (splitDots (plainRequest "shop.postverta.com").Host.toList) = true
      ∧ (splitDots (plainRequest "shop.postverta.com").Host.toList).headD [] = "shop".toList :=
  (C12_host_check emptyDbEnv 1002 (fresh ["A"]) (plainRequest "shop.postverta.com")).2.2
    "shop".toList (by decide) (Or.inl (by decide))

/-- The clock of the wait loop after `i` sleeps of 10 ms. -/
theorem elapsed_lower (elapsed : Nat → Nat)
    (hclock : ∀ i, elapsed i + 10000000 ≤ elapsed (i + 1)) (i : Nat) :
    i * 10000000 ≤ elapsed i := by
  induction i with
  | zero => simp
  | succ i ih =>
    have h := hclock i
    omega

/-- The wait loop goes on over the iterations that see neither RUNNING nor
FINISHED nor the timeout. -/
theorem waitLoop_skip (appState : Nat → ProcessState) (elapsed : Nat → Nat) (k : Nat) :
    ∀ (fuel i : Nat),
      (∀ j, i ≤ j → j < i + k →
        appState j ≠ ProcessState.RUNNING ∧ appState j ≠ ProcessState.FINISHED
          ∧ elapsed j ≤ timeoutDuration) →
      waitLoop appState elapsed (fuel + k) i = waitLoop appState elapsed fuel (i + k) := by
  induction k with
  | zero =>
    intro fuel i _
    rfl
  | succ k ih =>
    intro fuel i h
    have h0 := h i (le_refl _) (by omega)
    have e : fuel + (k + 1) = (fuel + k) + 1 := by omega
    rw [e, waitLoop, if_neg h0.1, if_neg h0.2.1, if_neg (Nat.not_lt.mpr h0.2.2),
      ih fuel (i + 1) (fun j h1 h2 => h j (by omega) (by omega))]
    congr 1
    omega

/-- The wait loop with a clock that advances by at least 10 ms per iteration
ends within 1002 iterations, and it ends with `running` exactly when some
iteration reads RUNNING and no earlier iteration has read FINISHED or a clock
value above 10 s. -/
theorem waitLoop_result (appState : Nat → ProcessState) (elapsed : Nat → Nat)
    (hclock : ∀ i, elapsed i + 10000000 ≤ elapsed (i + 1)) :
    ∃ res, waitLoop appState elapsed 1002 0 = some res
      ∧ (res = WaitResult.running ↔
          ∃ n, appState n = ProcessState.RUNNING
            ∧ ∀ j, j < n → appState j ≠ ProcessState.FINISHED ∧ elapsed j ≤ timeoutDuration) := by
  classical
  have hex : ∃ j, appState j = ProcessState.RUNNING ∨ appState j = ProcessState.FINISHED
      ∨ elapsed j > timeoutDuration := by
    refine ⟨1001, Or.inr (Or.inr ?_)⟩
    have h := elapsed_lower elapsed hclock 1001
    unfold timeoutDuration
    omega
  have hle : Nat.find hex ≤ 1001 := by
    apply Nat.find_min'
    refine Or.inr (Or.inr ?_)
    have h := elapsed_lower elapsed hclock 1001
    unfold timeoutDuration
    omega
  have hstop := Nat.find_spec hex
  have hmin : ∀ j, j < Nat.find hex →
      appState j ≠ ProcessState.RUNNING ∧ appState j ≠ ProcessState.FINISHED
        ∧ elapsed j ≤ timeoutDuration := by
    intro j hj
    have h := Nat.find_min hex hj
    exact ⟨fun h1 => h (Or.inl h1), fun h1 => h (Or.inr (Or.inl h1)),
      Nat.le_of_not_lt (fun h1 => h (Or.inr (Or.inr h1)))⟩
  generalize Nat.find hex = n0 at hle hstop hmin
  obtain ⟨m, hm⟩ : ∃ m, 1002 = (m + 1) + n0 := ⟨1001 - n0, by omega⟩
  have hrun : waitLoop appState elapsed 1002 0 = waitLoop appState elapsed (m + 1) n0 := by
    rw [hm, waitLoop_skip appState elapsed n0 (m + 1) 0 (fun j _ h2 => hmin j (by omega)),
      Nat.zero_add]
  rw [hrun, waitLoop]
  by_cases hR : appState n0 = ProcessState.RUNNING
  · rw [if_pos hR]
    refine ⟨WaitResult.running, rfl, ?_⟩
    exact ⟨fun _ => ⟨n0, hR, fun j hj => (hmin j hj).2⟩, fun _ => rfl⟩
  · rw [if_neg hR]
    have hno : ¬ ∃ n, appState n = ProcessState.RUNNING
        ∧ ∀ j, j < n → appState j ≠ ProcessState.FINISHED ∧ elapsed j ≤ timeoutDuration := by
      rintro ⟨n, hn, hbefore⟩
      rcases Nat.lt_trichotomy n n0 with h | h | h
      · exact (hmin n h).1 hn
      · exact hR (h ▸ hn)
      · rcases hstop with h1 | h1 | h1
        · exact hR h1
        · exact (hbefore n0 h).1 h1
        · exact Nat.not_lt.mpr (hbefore n0 h).2 h1
    by_cases hF : appState n0 = ProcessState.FINISHED
    · rw [if_pos hF]
      refine ⟨WaitResult.finished, rfl, ?_⟩
      exact Iff.intro (fun h => nomatch h) (fun h => (hno h).elim)
    · rw [if_neg hF]
      have hT : elapsed n0 > timeoutDuration := by
        rcases hstop with h1 | h1 | h1
        · exact (hR h1).elim
        · exact (hF h1).elim
        · exact h1
      rw [if_pos hT]
      refine ⟨WaitResult.timeout, rfl, ?_⟩
      exact Iff.intro (fun h => nomatch h) (fun h => (hno h).elim)

/-- C13: a call of `ServeHTTP` that holds a lease (the host passed the check,
the app was found, `GetContext` returned the context with its release closure)
returns, with a clock that advances by at least 10 ms per iteration of the
wait loop, after at most 1002 iterations, and the release closure has then been
called exactly once, whatever the answer is. When the app process was enabled
without error, the request is forwarded if some iteration reads RUNNING and no
earlier iteration has read FINISHED or a clock value above 10 s, and it is
answered 404 otherwise. -/
theorem C13_wait_then_release_once (env : Env) (c c1 c2 : Cluster) (r : Request) (app : App)
    (context : Context) (closeFunc : ReleaseFn)
    (hclock : ∀ i, env.elapsed i + 10000000 ≤ env.elapsed (i + 1))
    (hhost : isAppHost (splitDots r.Host.toList) = true)
    (hdb : env.GetAppByName (String.mk ((splitDots r.Host.toList).headD []))
      = Except.ok (some app))
    (hlease : c.GetContext app.Id app.WorktreeId app.WorktreeId env.openResult env.dialErr
      = (c1, Outcome.lease context closeFunc))
    (hrel : closeFunc.call c1 = some c2) :
    ∃ reply,
      ServeHTTP env 1002 c r
          = some
            { reply := reply, lookups := [String.mk ((splitDots r.Host.toList).headD [])],
              leases := 1, releases := 1, c := c2 }
        ∧ (env.enableErr = none →
            ((∃ n, env.appState n = ProcessState.RUNNING
                ∧ ∀ j, j < n →
                  env.appState j ≠ ProcessState.FINISHED ∧ env.elapsed j ≤ timeoutDuration) →
              ∃ websocket out, reply = Reply.proxied websocket out)
            ∧ ((¬ ∃ n, env.appState n = ProcessState.RUNNING
                ∧ ∀ j, j < n →
                  env.appState j ≠ ProcessState.FINISHED ∧ env.elapsed j ≤ timeoutDuration) →
              reply = Reply.notFound)) := by
  obtain ⟨res, hres, hiff⟩ := waitLoop_result env.appState env.elapsed hclock
  simp only [ServeHTTP, hhost, Bool.true_eq_false, if_false, hdb, hlease]
  cases hen : env.enableErr with
  | some err =>
    refine ⟨Reply.internalServerError, ?_, ?_⟩
    · simp only [serveLeased, hen, hrel]
    · intro h
      cases h
  | none =>
    cases res with
    | running =>
      by_cases hws : env.IsWebSocketRequest
          { r with Header := r.Header.Add "POSTVERTA_APP_ENDPOINT" context.AppEndpoint } = true
      · refine ⟨Reply.proxied true
            (proxyDirector
              { r with
                Header := r.Header.Add "POSTVERTA_APP_ENDPOINT" context.AppEndpoint
                URLScheme := "ws" }), ?_, ?_⟩
        · simp only [serveLeased, hen, hres, hws, if_true, hrel]
        · intro _
          exact ⟨fun _ => ⟨_, _, rfl⟩, fun h => (h (hiff.1 rfl)).elim⟩
      · refine ⟨Reply.proxied false
            (proxyDirector
              { r with
                Header := r.Header.Add "POSTVERTA_APP_ENDPOINT" context.AppEndpoint
                URLScheme := "http" }), ?_, ?_⟩
        · simp only [serveLeased, hen, hres, hws, Bool.false_eq_true, if_false, hrel]
        · intro _
          exact ⟨fun _ => ⟨_, _, rfl⟩, fun h => (h (hiff.1 rfl)).elim⟩
    | finished =>
      refine ⟨Reply.notFound, ?_, ?_⟩
      · simp only [serveLeased, hen, hres, hrel]
      · intro _
        exact ⟨fun h => (nomatch hiff.2 h), fun _ => rfl⟩
    | timeout =>
      refine ⟨Reply.notFound, ?_, ?_⟩
      · simp only [serveLeased, hen, hres, hrel]
      · intro _
        exact ⟨fun h => (nomatch hiff.2 h), fun _ => rfl⟩

/-- C13 on a fresh cluster with the agent "A": the request for
"app1.postverta.com" whose app process is running from the first iteration on
is forwarded, and the release closure has been called once. -/
theorem C13_wait_then_release_once_witness :
    ∃ reply c2,
      ServeHTTP sampleEnv 1002 (fresh ["A"]) (plainRequest "app1.postverta.com")
          = some { reply := reply, lookups := ["app1"], leases := 1, releases := 1, c := c2 }
        ∧ ∃ websocket out, reply = Reply.proxied websocket out := by
  obtain ⟨reply, h1, h2⟩ :=
    C13_wait_then_release_once sampleEnv (fresh ["A"])
      ((fresh ["A"]).GetContext "app1" "w1" "w1" (Except.ok sampleResp) none).1
      (((ReleaseFn.mk "app1" 0).call
        ((fresh ["A"]).GetContext "app1" "w1" "w1" (Except.ok sampleResp) none).1).getD
        (fresh ["A"]))
      (plainRequest "app1.postverta.com") sampleApp sampleContext (ReleaseFn.mk "app1" 0)
      (fun i => by simp only [sampleEnv]; omega) (by decide) rfl rfl rfl
  exact ⟨reply, _, h1, (h2 rfl).1 ⟨0, rfl, fun j hj => absurd hj (Nat.not_lt_zero j)⟩⟩

end server

/-! # The keep-alive WebSocket connection -/

namespace util

open logmgr

/-- The heartbeat is answered and the loop goes on. -/
theorem ReadMessage_ping (m : Message) (rest : List Message) (h : m.isPing = true) :
    ReadMessage (m :: rest)
      = { ReadMessage rest with
          written := (TextMessage, ascii "_pong") :: (ReadMessage rest).written } := by
  simp only [Message.isPing, decide_eq_true_eq] at h
  obtain ⟨h1, h2, h3⟩ := h
  have h4 : m.p = 95 :: ascii "ping" := by rw [h3]; decide
  rw [ReadMessage]
  simp only [h1, ne_eq, not_true_eq_false, if_false, h2, if_true]
  rw [h4]
  simp only [true_and]
  rw [if_pos (by decide)]

/-- A frame that is neither the heartbeat nor an empty text frame, and a read
error, are returned. -/
theorem ReadMessage_other (m : Message) (rest : List Message) (h1 : m.isPing = false)
    (h2 : m.isEmptyText = false) :
    ReadMessage (m :: rest)
      = { outcome := ReadOutcome.returned m, written := [], rest := rest } := by
  simp only [Message.isPing, Message.isEmptyText, decide_eq_false_iff_not] at h1 h2
  rw [ReadMessage]
  by_cases he : m.err = none
  · simp only [he, ne_eq, not_true_eq_false, if_false]
    by_cases ht : m.messageType = TextMessage
    · simp only [ht, if_true]
      cases hp : m.p with
      | nil => exact absurd ⟨he, ht, hp⟩ h2
      | cons b tail =>
        simp only
        rw [if_neg]
        rintro ⟨_, h3⟩
        exact h1 ⟨he, ht, hp ▸ h3⟩
    · simp only [ht, if_false]
  · simp only [ne_eq, he, not_false_eq_true, if_true]

/-- Over heartbeats followed by a frame that is neither a heartbeat nor an
empty text frame (or by a read error), `ReadMessage` writes one "_pong" per
heartbeat and returns that frame. -/
theorem ReadMessage_heartbeats (pings : List Message) (m : Message) (rest : List Message)
    (hp : ∀ x ∈ pings, x.isPing = true) (h1 : m.isPing = false) (h2 : m.isEmptyText = false) :
    ReadMessage (pings ++ m :: rest)
      = { outcome := ReadOutcome.returned m
          written := List.replicate pings.length (TextMessage, ascii "_pong")
          rest := rest } := by
  induction pings with
  | nil => exact ReadMessage_other m rest h1 h2
  | cons x xs ih =>
    rw [List.cons_append, ReadMessage_ping x _ (hp x (List.mem_cons_self _ _)),
      ih (fun y hy => hp y (List.mem_cons_of_mem _ hy))]
    rfl

/-- C23 (the code on the failing input): two heartbeats followed by a text
frame with an empty payload and a text frame "hello". `ReadMessage` answers
the two heartbeats and then panics in `p[0]`: the first frame that is not a
text "_ping", the empty text frame, is not returned to the caller. -/
theorem C23_empty_text_frame_is_not_returned :
    ReadMessage [text "_ping", text "_ping", text "", text "hello"]
      = { outcome := ReadOutcome.panicked "index out of range"
          written := [(TextMessage, ascii "_pong"), (TextMessage, ascii "_pong")]
          rest := [text "hello"] } := by
  decide

/-- C30 (the code on the failing input): a text frame with an empty payload
is read without error; `ReadMessage` evaluates `p[0]` on it and panics. The
same payload in a binary frame is returned. -/
theorem C30_empty_text_frame_panics :
    (ReadMessage [{ messageType := TextMessage, p := [], err := none }]).outcome
        = ReadOutcome.panicked "index out of range"
      ∧ (ReadMessage [{ messageType := BinaryMessage, p := [], err := none }]).outcome
        = ReadOutcome.returned { messageType := BinaryMessage, p := [], err := none } := by
  decide

end util

/-! # Middlewares and handlers of the API server -/

namespace server

/-- A request without bearer token: `inner` is called with the empty user id,
and when the authentication is not optional the status 401 is written
before. -/
theorem CheckAuth_without_token (verifyAccessToken : String → Bool × String)
    (authOptional : Bool) (r : Request)
    (h : startsWith (r.Header.Get "Authorization") "Bearer " = false) :
    CheckAuth verifyAccessToken authOptional r
      = { statuses := if authOptional = false then [401] else [], inner := some "" } := by
  unfold CheckAuth
  rw [h]
  cases authOptional <;> rfl

/-- A request with a bearer token: `inner` is called exactly when the token is
valid, with the user id of the token; the status 401 is written otherwise. -/
theorem CheckAuth_with_token (verifyAccessToken : String → Bool × String)
    (authOptional : Bool) (r : Request)
    (h : startsWith (r.Header.Get "Authorization") "Bearer " = true) :
    CheckAuth verifyAccessToken authOptional r
      = if (verifyAccessToken (trimStart (r.Header.Get "Authorization") "Bearer ")).1 = true then
          { statuses := []
            inner :=
              some (verifyAccessToken (trimStart (r.Header.Get "Authorization") "Bearer ")).2 }
        else { statuses := [401], inner := none } := by
  unfold CheckAuth
  rw [if_pos h]
  cases (verifyAccessToken (trimStart (r.Header.Get "Authorization") "Bearer ")).1 <;> rfl

/-- C28 (the code on the failing input): the handler of a route with
`authOptional = false` on a request without `Authorization` header, and on one
whose header is "Basic abc": the status 401 is written and then `inner` is
called, with the empty user id. With the valid token "good" `inner` is called
with the user of the token, with an invalid token it is not called. -/
theorem C28_inner_runs_after_401 :
    CheckAuth sampleVerify false (plainRequest "api.postverta.com")
        = { statuses := [401], inner := some "" }
      ∧ CheckAuth sampleVerify false (authRequest "api.postverta.com" "Basic abc")
        = { statuses := [401], inner := some "" }
      ∧ CheckAuth sampleVerify false (authRequest "api.postverta.com" "Bearer good")
        = { statuses := [], inner := some "alice" }
      ∧ CheckAuth sampleVerify false (authRequest "api.postverta.com" "Bearer bad")
        = { statuses := [401], inner := none } := by
  refine ⟨?_, ?_, ?_, ?_⟩ <;> decide

/-- In a name that is accepted nothing is answered 400 and the install task is
sent with the name and the version of the format `[@scope/]pkg@version`. -/
theorem HandleAppPackagePost_accepted :
    HandleAppPackagePost none none none "lodash@4.17.4"
        = { statuses := [200], execs := [installReq "lodash" "4.17.4", syncTypesReq],
            panicked := none }
      ∧ HandleAppPackagePost none none none "@types/node@8.0.0"
        = { statuses := [200], execs := [installReq "@types/node" "8.0.0", syncTypesReq],
            panicked := none } := by
  constructor <;> decide

/-- C29 (the code on the failing inputs): after the status 400 the handler
goes on. For "lodash" (one part) it panics in `parts[1]`; for "a@b@c" (three
parts, the first not empty) and for "a@b@c@d" (four parts) it sends the install
task for the package "@b" in the version "c" to the sandbox. -/
theorem C29_handler_goes_on_after_400 :
    HandleAppPackagePost none none none "lodash"
        = { statuses := [400], execs := [], panicked := some "index out of range" }
      ∧ HandleAppPackagePost none none none "a@b@c"
        = { statuses := [400, 200], execs := [installReq "@b" "c", syncTypesReq],
            panicked := none }
      ∧ HandleAppPackagePost none none none "a@b@c@d"
        = { statuses := [400, 200], execs := [installReq "@b" "c", syncTypesReq],
            panicked := none } := by
  refine ⟨?_, ?_, ?_⟩ <;> decide

end server

/-! # The endpoints of a new context -/

namespace cluster

/-- The loop over the port mappings keeps, for each of the two well-known
ports, the endpoint of the last mapping of that port. -/
theorem portEndpoints_foldl (pes : List PortEndpoint) (st : String × String) :
    (pes.foldl portEndpointStep st).1
        = ((pes.reverse.find? (fun pe => decide (pe.Port = 8080))).map
            (fun pe => pe.Endpoint)).getD st.1
      ∧ (pes.foldl portEndpointStep st).2
        = ((pes.reverse.find? (fun pe => decide (pe.Port = 2089))).map
            (fun pe => pe.Endpoint)).getD st.2 := by
  induction pes using List.reverseRecOn with
  | nil => exact ⟨rfl, rfl⟩
  | append_singleton init pe ih =>
    rw [List.foldl_append, List.reverse_append]
    simp only [List.foldl_cons, List.foldl_nil, List.reverse_cons, List.reverse_nil,
      List.nil_append, List.singleton_append, List.find?_cons]
    by_cases h1 : pe.Port = 8080
    · have h2 : pe.Port ≠ 2089 := by omega
      simp [portEndpointStep, h1, ih.2]
    · by_cases h2 : pe.Port = 2089
      · simp [portEndpointStep, h1, h2, ih.1]
      · simp [portEndpointStep, h1, h2, ih.1, ih.2]

/-- The mappings of other ports change nothing. -/
theorem portEndpoints_filter (pes : List PortEndpoint) (st : String × String) :
    (pes.filter (fun pe => decide (pe.Port = 8080 ∨ pe.Port = 2089))).foldl portEndpointStep st
      = pes.foldl portEndpointStep st := by
  induction pes generalizing st with
  | nil => rfl
  | cons pe rest ih =>
    by_cases h : pe.Port = 8080 ∨ pe.Port = 2089
    · simp only [List.filter_cons, h, decide_True, if_true, List.foldl_cons]
      exact ih _
    · have h1 : pe.Port ≠ 8080 := fun e => h (Or.inl e)
      have h2 : pe.Port ≠ 2089 := fun e => h (Or.inr e)
      simp only [List.filter_cons, h, decide_False, Bool.false_eq_true, if_false,
        List.foldl_cons]
      rw [ih]
      simp [portEndpointStep, h1, h2]

/-- C24: a `GetContext` that misses the registry and whose `OpenContext` and
`grpc.Dial` succeed returns a context whose `AppEndpoint` is the endpoint of
the (last) mapping of port 8080 in the response and whose `LspEndpoint` is the
endpoint of the (last) mapping of port 2089, the empty string when the
response has no mapping of that port; the response without its mappings of
other ports gives the same two endpoints. -/
theorem C24_endpoints_by_port (c : Cluster) (appId src wt : String) (resp : OpenContextResp)
    (hmiss : mapGet c.AppContext appId = none)
    (hclient : c.AgentServiceClient c.bestAgent = true) :
    ∃ context release,
      (c.GetContext appId src wt (Except.ok resp) none).2 = Outcome.lease context release
        ∧ context.AppEndpoint
          = ((resp.PortEndpoints.reverse.find? (fun pe => decide (pe.Port = 8080))).map
              (fun pe => pe.Endpoint)).getD ""
        ∧ context.LspEndpoint
          = ((resp.PortEndpoints.reverse.find? (fun pe => decide (pe.Port = 2089))).map
              (fun pe => pe.Endpoint)).getD ""
        ∧ portEndpoints
            (resp.PortEndpoints.filter (fun pe => decide (pe.Port = 8080 ∨ pe.Port = 2089)))
          = (context.AppEndpoint, context.LspEndpoint) := by
  refine ⟨newContext c.nextPtr appId wt c.bestAgent resp, { appId := appId, context := c.nextPtr },
    (GetContext_miss_ok c appId src wt resp hmiss hclient).1, ?_, ?_, ?_⟩
  · exact (portEndpoints_foldl resp.PortEndpoints ("", "")).1
  · exact (portEndpoints_foldl resp.PortEndpoints ("", "")).2
  · exact portEndpoints_filter resp.PortEndpoints ("", "")

/-- C24 on a fresh cluster with the agent "A" and a response that maps the
ports 8080, 9999 and 2089. -/
theorem C24_endpoints_by_port_witness :
    ∃ context release,
      ((fresh ["A"]).GetContext "app1" "" "w1"
          (Except.ok
            { ContextId := "ctx-1", GrpcEndpoint := "10.0.0.1:50051"
              PortEndpoints :=
                [{ Port := 8080, Endpoint := "10.0.0.1:31000" },
                  { Port := 9999, Endpoint := "10.0.0.1:31002" },
                  { Port := 2089, Endpoint := "10.0.0.1:31001" }] }) none).2
          = Outcome.lease context release
        ∧ context.AppEndpoint = "10.0.0.1:31000"
        ∧ context.LspEndpoint = "10.0.0.1:31001" := by
  obtain ⟨context, release, h1, h2, h3, _⟩ :=
    C24_endpoints_by_port (fresh ["A"]) "app1" "" "w1"
      { ContextId := "ctx-1", GrpcEndpoint := "10.0.0.1:50051"
        PortEndpoints :=
          [{ Port := 8080, Endpoint := "10.0.0.1:31000" },
            { Port := 9999, Endpoint := "10.0.0.1:31002" },
            { Port := 2089, Endpoint := "10.0.0.1:31001" }] }
      rfl (by decide)
  exact ⟨context, release, h1, h2, h3⟩

end cluster

/-! # The fork of an app -/

namespace server

/-- The assignments of the loop, from the index `k` on. -/
theorem copyLoop_eq (rest : List model.KeyValuePair) (done : List model.KeyValuePair)
    (pad : List model.KeyValuePair) (hpad : pad.length = rest.length) :
    (rest.enumFrom done.length).foldl
        (fun newEnvVars ikv => newEnvVars.set ikv.1 { Key := ikv.2.Key, Value := "" })
        (done ++ pad)
      = done ++ rest.map (fun kv => { Key := kv.Key, Value := "" }) := by
  induction rest generalizing done pad with
  | nil =>
    cases pad with
    | nil => rfl
    | cons _ _ => simp at hpad
  | cons kv rest ih =>
    cases pad with
    | nil => simp at hpad
    | cons p pad =>
      simp only [List.length_cons, Nat.add_right_cancel_iff] at hpad
      simp only [List.enumFrom_cons, List.foldl_cons, List.map_cons]
      have hset : (done ++ p :: pad).set done.length { Key := kv.Key, Value := "" }
          = (done ++ [{ Key := kv.Key, Value := "" }]) ++ pad := by
        rw [List.set_append_right _ _ (le_refl _)]
        simp
      have hlen : done.length + 1 = (done ++ [({ Key := kv.Key, Value := "" } :
          model.KeyValuePair)]).length := by simp
      rw [hset, hlen, ih _ pad hpad]
      simp

/-- The loop copies the keys in order and leaves every value empty. -/
theorem copyEnvVarKeys_eq (envVars : List model.KeyValuePair) :
    copyEnvVarKeys envVars = envVars.map (fun kv => { Key := kv.Key, Value := "" }) := by
  have h := copyLoop_eq envVars [] (List.replicate envVars.length { Key := "", Value := "" })
    (by simp)
  simpa [copyEnvVarKeys, List.enum] using h

/-- The insertion in the database leaves the environment variables as they
are. -/
theorem NewApp_EnvVars (dummy : Bool) (id name : String) (insertErr : Option String)
    (app created : model.App)
    (h : model.NewApp dummy id name insertErr app = Except.ok created) :
    created.EnvVars = app.EnvVars := by
  unfold model.NewApp at h
  cases dummy with
  | true =>
    simp only [if_true, Except.ok.injEq] at h
    rw [← h]
  | false =>
    cases insertErr with
    | some err => simp at h
    | none =>
      simp only [Bool.false_eq_true, if_false, Except.ok.injEq] at h
      rw [← h]

/-- C25: an app that `HandleAppForkPost` creates has as many environment
variables as the source app, with the same keys in the same order and with the
empty string as every value. -/
theorem C25_fork_copies_keys_only (env : ForkEnv) (userId : String) (app forkApp : model.App)
    (h : (HandleAppForkPost env userId app).created = some forkApp) :
    forkApp.EnvVars.length = app.EnvVars.length
      ∧ forkApp.EnvVars.map (fun kv => kv.Key) = app.EnvVars.map (fun kv => kv.Key)
      ∧ (∀ kv ∈ forkApp.EnvVars, kv.Value = "")
      ∧ forkApp.EnvVars = app.EnvVars.map (fun kv => { Key := kv.Key, Value := "" }) := by
  have he : forkApp.EnvVars = app.EnvVars.map (fun kv => { Key := kv.Key, Value := "" }) := by
    rw [← copyEnvVarKeys_eq]
    unfold HandleAppForkPost at h
    split at h
    · simp at h
    · split at h
      · simp at h
      · rename_i created heq
        have hf := NewApp_EnvVars _ _ _ _ _ _ heq
        split at h
        · simp only [Option.some.injEq] at h
          rw [← h, hf]
        · simp only [Option.some.injEq] at h
          rw [← h, hf]
  rw [he]
  refine ⟨by simp, by simp [Function.comp_def], ?_, rfl⟩
  intro kv hkv
  obtain ⟨x, _, hx⟩ := List.mem_map.1 hkv
  rw [← hx]

/-- C25 on the fork of `sourceApp` by the user "bob". -/
theorem C25_fork_copies_keys_only_witness :
    (HandleAppForkPost sampleForkEnv "bob" sourceApp).status = 200
      ∧ ∃ forkApp, (HandleAppForkPost sampleForkEnv "bob" sourceApp).created = some forkApp
        ∧ forkApp.EnvVars = [{ Key := "TOKEN", Value := "" }, { Key := "MODE", Value := "" }] :=
  ⟨by decide, (HandleAppForkPost sampleForkEnv "bob" sourceApp).created.getD sourceApp, rfl,
    (C25_fork_copies_keys_only sampleForkEnv "bob" sourceApp
      ((HandleAppForkPost sampleForkEnv "bob" sourceApp).created.getD sourceApp) rfl).2.2.2⟩

end server

/-! # Uploaded archives -/

namespace server

/-- A string that is not empty has at least one byte. -/
theorem utf8ByteSize_pos (s : String) (h : s ≠ "") : 0 < s.utf8ByteSize := by
  obtain ⟨data⟩ := s
  cases data with
  | nil => exact absurd rfl h
  | cons c cs =>
    have hc := Char.utf8Size_pos c
    simp only [String.utf8ByteSize, String.utf8ByteSize.go]
    omega

/-- The name of an entry that the loop looks at has at least one byte. -/
theorem nameLen_pos (file : ZipFile) (h : isPackageJson file = true) : 0 < nameLen file := by
  apply utf8ByteSize_pos
  intro he
  rw [isPackageJson, he] at h
  revert h
  decide

/-- The loop from a state that holds an entry: it ends with the first entry
of minimal length among the held one and the `package.json` entries that
follow. -/
theorem findLoop_some (files : List ZipFile) :
    ∀ f0 : ZipFile, 0 < nameLen f0 →
      ∃ f, files.foldl findStep (some f0, nameLen f0, pathDir f0.Name)
            = (some f, nameLen f, pathDir f.Name)
        ∧ ((f = f0 ∧ ∀ g ∈ files, isPackageJson g = true → nameLen f0 ≤ nameLen g)
          ∨ ∃ pre post, files = pre ++ f :: post ∧ isPackageJson f = true
              ∧ nameLen f < nameLen f0
              ∧ (∀ g ∈ pre, isPackageJson g = true → nameLen f < nameLen g)
              ∧ ∀ g ∈ post, isPackageJson g = true → nameLen f ≤ nameLen g) := by
  induction files with
  | nil =>
    intro f0 _
    exact ⟨f0, rfl, Or.inl ⟨rfl, fun g hg => absurd hg (List.not_mem_nil g)⟩⟩
  | cons g rest ih =>
    intro f0 hpos
    rw [List.foldl_cons]
    by_cases hm : isPackageJson g = true
    · by_cases hlt : nameLen g < nameLen f0
      · have hst : findStep (some f0, nameLen f0, pathDir f0.Name) g
            = (some g, nameLen g, pathDir g.Name) := by
          simp [findStep, hm, hlt]
        rw [hst]
        obtain ⟨f, hf, hcase⟩ := ih g (nameLen_pos g hm)
        refine ⟨f, hf, Or.inr ?_⟩
        rcases hcase with ⟨he, hall⟩ | ⟨pre, post, hsplit, hmf, hlf, hpre, hpost⟩
        · subst he
          exact ⟨[], rest, rfl, hm, hlt, fun x hx => absurd hx (List.not_mem_nil x), hall⟩
        · refine ⟨g :: pre, post, by rw [hsplit]; rfl, hmf, by omega, ?_, hpost⟩
          intro x hx hxm
          rcases List.mem_cons.1 hx with hx | hx
          · rw [hx]
            exact hlf
          · exact hpre x hx hxm
      · have hst : findStep (some f0, nameLen f0, pathDir f0.Name) g
            = (some f0, nameLen f0, pathDir f0.Name) := by
          have h0 : nameLen f0 ≠ 0 := by omega
          simp [findStep, hm, hlt, h0]
        rw [hst]
        obtain ⟨f, hf, hcase⟩ := ih f0 hpos
        refine ⟨f, hf, ?_⟩
        rcases hcase with ⟨he, hall⟩ | ⟨pre, post, hsplit, hmf, hlf, hpre, hpost⟩
        · refine Or.inl ⟨he, ?_⟩
          intro x hx hxm
          rcases List.mem_cons.1 hx with hx | hx
          · rw [hx]
            omega
          · exact hall x hx hxm
        · refine Or.inr ⟨g :: pre, post, by rw [hsplit]; rfl, hmf, hlf, ?_, hpost⟩
          intro x hx hxm
          rcases List.mem_cons.1 hx with hx | hx
          · rw [hx]
            omega
          · exact hpre x hx hxm
    · have hst : findStep (some f0, nameLen f0, pathDir f0.Name) g
          = (some f0, nameLen f0, pathDir f0.Name) := by
        simp [findStep, hm]
      rw [hst]
      obtain ⟨f, hf, hcase⟩ := ih f0 hpos
      refine ⟨f, hf, ?_⟩
      rcases hcase with ⟨he, hall⟩ | ⟨pre, post, hsplit, hmf, hlf, hpre, hpost⟩
      · refine Or.inl ⟨he, ?_⟩
        intro x hx hxm
        rcases List.mem_cons.1 hx with hx | hx
        · rw [hx] at hxm
          exact absurd hxm hm
        · exact hall x hx hxm
      · refine Or.inr ⟨g :: pre, post, by rw [hsplit]; rfl, hmf, hlf, ?_, hpost⟩
        intro x hx hxm
        rcases List.mem_cons.1 hx with hx | hx
        · rw [hx] at hxm
          exact absurd hxm hm
        · exact hpre x hx hxm

/-- The loop from its initial state. -/
theorem findLoop_init (files : List ZipFile) :
    ((∀ g ∈ files, isPackageJson g = false)
        ∧ files.foldl findStep (none, 0, "") = (none, 0, ""))
      ∨ ∃ pre f post, files = pre ++ f :: post ∧ isPackageJson f = true
          ∧ (∀ g ∈ pre, isPackageJson g = true → nameLen f < nameLen g)
          ∧ (∀ g ∈ post, isPackageJson g = true → nameLen f ≤ nameLen g)
          ∧ files.foldl findStep (none, 0, "") = (some f, nameLen f, pathDir f.Name) := by
  induction files with
  | nil => exact Or.inl ⟨fun g hg => absurd hg (List.not_mem_nil g), rfl⟩
  | cons g rest ih =>
    rw [List.foldl_cons]
    by_cases hm : isPackageJson g = true
    · have hst : findStep (none, 0, "") g = (some g, nameLen g, pathDir g.Name) := by
        simp [findStep, hm]
      rw [hst]
      obtain ⟨f, hf, hcase⟩ := findLoop_some rest g (nameLen_pos g hm)
      refine Or.inr ?_
      rcases hcase with ⟨he, hall⟩ | ⟨pre, post, hsplit, hmf, hlf, hpre, hpost⟩
      · subst he
        exact ⟨[], f, rest, rfl, hm, fun x hx => absurd hx (List.not_mem_nil x), hall, hf⟩
      · refine ⟨g :: pre, f, post, by rw [hsplit]; rfl, hmf, ?_, hpost, hf⟩
        intro x hx hxm
        rcases List.mem_cons.1 hx with hx | hx
        · rw [hx]
          exact hlf
        · exact hpre x hx hxm
    · have hst : findStep (none, 0, "") g = (none, 0, "") := by
        simp [findStep, hm]
      rw [hst]
      rcases ih with ⟨hnone, hf⟩ | ⟨pre, f, post, hsplit, hmf, hpre, hpost, hf⟩
      · refine Or.inl ⟨?_, hf⟩
        intro x hx
        rcases List.mem_cons.1 hx with hx | hx
        · rw [hx]
          simpa using hm
        · exact hnone x hx
      · refine Or.inr ⟨g :: pre, f, post, by rw [hsplit]; rfl, hmf, ?_, hpost, hf⟩
        intro x hx hxm
        rcases List.mem_cons.1 hx with hx | hx
        · rw [hx] at hxm
          exact absurd hxm hm
        · exact hpre x hx hxm

/-- C27: on the entries of an archive, `findProjectRootAndPackageJson` fails
with "Cannot find package.json in the zip" when no entry is named
"package.json" or ends with "/package.json". Otherwise it selects the first
entry, in the order of the archive, whose name has the least number of bytes
among these entries, and returns `path.Dir` of its name together with its
content (the error of reading the content, when this entry cannot be
read). -/
theorem C27_shortest_package_json (files : List ZipFile) :
    ((∀ g ∈ files, isPackageJson g = false) →
        findProjectRootAndPackageJson (Except.ok files)
          = Except.error "Cannot find package.json in the zip")
      ∧ ((∃ g ∈ files, isPackageJson g = true) →
          ∃ pre f post, files = pre ++ f :: post ∧ isPackageJson f = true
            ∧ (∀ g ∈ pre, isPackageJson g = true → nameLen f < nameLen g)
            ∧ (∀ g ∈ post, isPackageJson g = true → nameLen f ≤ nameLen g)
            ∧ findProjectRootAndPackageJson (Except.ok files)
              = match f.content with
                | Except.ok packageJsonContent => Except.ok (pathDir f.Name, packageJsonContent)
                | Except.error err => Except.error err) := by
  constructor
  · intro hnone
    rcases findLoop_init files with ⟨_, hf⟩ | ⟨pre, f, post, hsplit, hmf, _, _, _⟩
    · simp only [findProjectRootAndPackageJson, hf]
    · have := hnone f (by rw [hsplit]; simp)
      rw [hmf] at this
      cases this
  · rintro ⟨g, hg, hgm⟩
    rcases findLoop_init files with ⟨hnone, _⟩ | ⟨pre, f, post, hsplit, hmf, hpre, hpost, hf⟩
    · have := hnone g hg
      rw [hgm] at this
      cases this
    · refine ⟨pre, f, post, hsplit, hmf, hpre, hpost, ?_⟩
      simp only [findProjectRootAndPackageJson, hf]
      cases f.content <;> rfl

/-- C27 on `sampleArchive`: of the two entries with the shortest name the
first one in the archive is selected. -/
theorem C27_shortest_package_json_witness :
    ∃ pre f post, sampleArchive = pre ++ f :: post ∧ isPackageJson f = true
      ∧ (∀ g ∈ pre, isPackageJson g = true → nameLen f < nameLen g)
      ∧ (∀ g ∈ post, isPackageJson g = true → nameLen f ≤ nameLen g)
      ∧ findProjectRootAndPackageJson (Except.ok sampleArchive)
        = match f.content with
          | Except.ok packageJsonContent => Except.ok (pathDir f.Name, packageJsonContent)
          | Except.error err => Except.error err :=
  (C27_shortest_package_json sampleArchive).2
    ⟨{ Name := "proj/package.json", content := Except.ok "first" }, by simp [sampleArchive],
      by decide⟩

/-- The result on `sampleArchive`, and the directories that `path.Dir`
gives. -/
theorem findProjectRootAndPackageJson_sample :
    findProjectRootAndPackageJson (Except.ok sampleArchive) = Except.ok ("proj", "first")
      ∧ pathDir "package.json" = "."
      ∧ pathDir "a/b/package.json" = "a/b"
      ∧ pathDir "/package.json" = "/"
      ∧ pathDir "a//b/../package.json" = "a" := by
  refine ⟨rfl, ?_, ?_, ?_, ?_⟩ <;> decide

end server

/-! # Tail subscriptions -/

namespace logmgr

open golang cluster

/-- A piece of a stream has no newline but at its end. -/
theorem splitLines_piece (c : Bytes) :
    ∀ piece ∈ splitLines c, ∃ body, newline ∉ body
      ∧ (piece = body ++ [newline] ∨ (piece = body ∧ body ≠ [])) := by
  induction c with
  | nil =>
    intro piece h
    simp [splitLines] at h
  | cons b rest ih =>
    intro piece h
    by_cases hb : b = newline
    · simp only [splitLines, hb, if_true, List.mem_cons] at h
      rcases h with h | h
      · exact ⟨[], by simp, Or.inl (by simp [h])⟩
      · exact ih piece h
    · simp only [splitLines, hb, if_false] at h
      cases hs : splitLines rest with
      | nil =>
        rw [hs] at h
        simp only [List.mem_singleton] at h
        exact ⟨[b], by simpa using Ne.symm hb, Or.inr ⟨h, by simp⟩⟩
      | cons p ps =>
        rw [hs] at h ih
        simp only [List.mem_cons] at h
        rcases h with h | h
        · obtain ⟨body, hbody, hcase⟩ := ih p (List.mem_cons_self _ _)
          refine ⟨b :: body, ?_, ?_⟩
          · simp only [List.mem_cons, not_or]
            exact ⟨Ne.symm hb, hbody⟩
          · rcases hcase with hc | ⟨hc, _⟩
            · exact Or.inl (by rw [h, hc]; rfl)
            · exact Or.inr ⟨by rw [h, hc], by simp⟩
        · exact ih piece (List.mem_cons_of_mem _ h)

/-- `strings.TrimRight(line, "\n")` on a text without newline, with and
without a newline after it. -/
theorem trimRightNewline_body (body : Bytes) (h : newline ∉ body) :
    trimRightNewline body = body ∧ trimRightNewline (body ++ [newline]) = body := by
  have hdrop : body.reverse.dropWhile (fun b => decide (b = newline)) = body.reverse := by
    cases hr : body.reverse with
    | nil => rfl
    | cons x xs =>
      have hx : x ∈ body := by
        rw [← List.mem_reverse, hr]
        exact List.mem_cons_self _ _
      have hne : x ≠ newline := fun e => h (e ▸ hx)
      simp [List.dropWhile, hne]
  constructor
  · simp only [trimRightNewline, hdrop, List.reverse_reverse]
  · simp only [trimRightNewline, List.reverse_append, List.reverse_cons, List.reverse_nil,
      List.nil_append, List.singleton_append, List.dropWhile_cons, decide_True, if_true, hdrop,
      List.reverse_reverse]

/-- What `tailFile` sends for a piece is the piece without its newline. -/
theorem trimRightNewline_piece (c : Bytes) (piece : Bytes) (h : piece ∈ splitLines c) :
    newline ∉ trimRightNewline piece
      ∧ (piece = trimRightNewline piece ++ [newline] ∨ piece = trimRightNewline piece) := by
  obtain ⟨body, hbody, hcase⟩ := splitLines_piece c piece h
  rcases hcase with hc | ⟨hc, _⟩
  · rw [hc, (trimRightNewline_body body hbody).2]
    exact ⟨hbody, Or.inl rfl⟩
  · rw [hc, (trimRightNewline_body body hbody).1]
    exact ⟨hbody, Or.inr rfl⟩

theorem lastLines_length (tailLines : Nat) (content : Bytes) :
    (lastLines tailLines content).length = min tailLines (splitLines content).length := by
  simp only [lastLines, List.length_map, List.length_drop]
  omega

/-- `tailFile` without error of `tail` on a new channel of capacity
`2 * tailLines`. -/
theorem tailFile_eq (l : LogMgr) (appId : String) (tailLines : Nat) :
    l.tailFile appId tailLines (Chan.make (tailLines * 2)) none
      = some (Except.ok
          { cap := tailLines * 2, buf := lastLines tailLines ((l.files appId).getD []) }) := by
  cases hfile : l.files appId with
  | none => simp [LogMgr.tailFile, hfile, Chan.make, lastLines, splitLines]
  | some content =>
    have hl := preload_length tailLines content
    have hsend := sendAll_ok
      ((splitLines (tailProgram tailLines content)).map trimRightNewline)
      (Chan.make (tailLines * 2))
      (by simp only [Chan.make, List.length_nil, List.length_map]; omega)
    simp only [Chan.make, List.nil_append] at hsend
    have hpre : (splitLines (tailProgram tailLines content)).map trimRightNewline
        = lastLines tailLines content := by
      simp only [tailProgram, splitLines_drop, lastLines]
    rw [hpre] at hsend
    simp [LogMgr.tailFile, hfile, hpre, hsend, Chan.make]

/-- `GetTailChan` without error of `tail`. -/
theorem GetTailChan_eq (l : LogMgr) (appId : String) (tailLines : Nat) :
    ∃ l1, l.GetTailChan appId tailLines none
        = some (l1, Except.ok (l.nextId appId,
            { cap := tailLines * 2, buf := lastLines tailLines ((l.files appId).getD []) }))
      ∧ l1.subscriber appId (l.nextId appId)
          = some { cap := tailLines * 2, buf := lastLines tailLines ((l.files appId).getD []) }
      ∧ (∀ i, i ≠ l.nextId appId → l1.subscriber appId i = l.subscriber appId i)
      ∧ l1.nextId appId = uintInc (l.nextId appId)
      ∧ l1.queue appId = l.queue appId
      ∧ l1.files = l.files := by
  have hq := queue_eq l appId
  have hf := getAppContext_files l appId
  have hs := fun i => subscriber_eq l appId i
  have htail := tailFile_eq l appId tailLines
  refine ⟨(l.getAppContext appId).1.store appId
      { (l.getAppContext appId).2 with
        outputChans :=
          setAt (l.getAppContext appId).2.outputChans (l.getAppContext appId).2.nextId
            (some { cap := tailLines * 2, buf := lastLines tailLines ((l.files appId).getD []) })
        nextId := uintInc (l.getAppContext appId).2.nextId },
    by simp [LogMgr.GetTailChan, htail, LogMgr.nextId], ?_, ?_, ?_, ?_, ?_⟩
  · simp [LogMgr.subscriber, LogMgr.store, LogMgr.nextId]
  · intro i hi
    rw [hs i]
    simp only [LogMgr.nextId] at hi
    simp [LogMgr.subscriber, LogMgr.store, setAt, hi]
  · simp [LogMgr.nextId, LogMgr.getAppContext, LogMgr.store]
  · rw [hq]
    simp [LogMgr.queue, LogMgr.store]
  · simp [LogMgr.store, hf]

theorem nextId_store (l : LogMgr) (appId : String) (ac : AppContext) :
    (l.store appId ac).nextId appId = ac.nextId := by
  simp [LogMgr.nextId, LogMgr.getAppContext, LogMgr.store]

theorem nextId_of_appContext (l : LogMgr) (appId : String) (ac : AppContext)
    (h : l.appContext appId = some ac) : l.nextId appId = ac.nextId := by
  simp [LogMgr.nextId, LogMgr.getAppContext, h]

theorem getAppContext_nextId (l : LogMgr) (appId : String) :
    (l.getAppContext appId).1.nextId appId = l.nextId appId := by
  rw [nextId_of_appContext _ _ _ (getAppContext_appContext l appId)]
  rfl

/-- A `WriteLine` leaves the counter of the subscription ids as it is. -/
theorem WriteLine_nextId (l : LogMgr) (appId : String) (line : Bytes) :
    (l.WriteLine appId line).1.nextId appId = l.nextId appId := by
  by_cases hnl : containsNewline line = true
  · simp [LogMgr.WriteLine, hnl]
  · have hg := getAppContext_nextId l appId
    have hn : l.nextId appId = (l.getAppContext appId).2.nextId := rfl
    rw [hn] at hg ⊢
    simp only [LogMgr.WriteLine, hnl, if_false, Bool.false_eq_true]
    generalize l.getAppContext appId = p at *
    obtain ⟨g, ac⟩ := p
    simp only at hg ⊢
    cases hsend : ac.inputChan.send line with
    | none => exact hg
    | some inputChan =>
      simp only [LogMgr.maybeStartHandler]
      split
      · rw [nextId_store]
      · simp [LogMgr.nextId, LogMgr.getAppContext, LogMgr.store]

/-- An event of the log of an app leaves the counter of the subscription ids
as it is and registers no channel. -/
theorem step_nextId (l l1 : LogMgr) (appId : String) (e : LogEvent)
    (h : l.step appId e = some l1) :
    l1.nextId appId = l.nextId appId
      ∧ ∀ i, l.subscriber appId i = none → l1.subscriber appId i = none := by
  cases e with
  | write line =>
    obtain ⟨_, _, _, hs, _⟩ := step_write l l1 appId line h
    refine ⟨?_, fun i hi => by rw [hs i, hi]⟩
    simp only [LogMgr.step] at h
    have hw := WriteLine_nextId l appId line
    generalize l.WriteLine appId line = p at *
    obtain ⟨l2, o⟩ := p
    cases o <;> simp at h
    subst h
    exact hw
  | handle res =>
    obtain ⟨line, _, _, _, _, hs, _⟩ := handleLine_effect l l1 appId res h
    refine ⟨?_, fun i hi => by rw [hs i, hi]; rfl⟩
    simp only [LogMgr.step] at h
    unfold LogMgr.handleLine at h
    cases hac : l.appContext appId with
    | none => simp [hac] at h
    | some ac =>
      simp only [hac] at h
      cases hrun1 : ac.handlerRunning with
      | false => simp [hrun1] at h
      | true =>
        cases hb : ac.inputChan.buf with
        | nil => simp [Chan.recv, hb, hrun1] at h
        | cons line1 rest =>
          simp only [Chan.recv, hb, hrun1, Bool.true_eq_false, if_false, Option.some.injEq] at h
          subst h
          rw [nextId_of_appContext l appId ac hac]
          simp [LogMgr.nextId, LogMgr.getAppContext]
  | idle =>
    obtain ⟨_, _, _, hs, _⟩ := handleIdle_effect l l1 appId h
    refine ⟨?_, fun i hi => by rw [hs i, hi]⟩
    simp only [LogMgr.step] at h
    unfold LogMgr.handleIdle at h
    cases hac : l.appContext appId with
    | none => simp [hac] at h
    | some ac =>
      simp only [hac] at h
      cases hrun1 : ac.handlerRunning with
      | false => simp [hrun1] at h
      | true =>
        simp only [hrun1, Bool.true_eq_false, if_false, Option.some.injEq] at h
        subst h
        rw [nextId_of_appContext l appId ac hac]
        simp [LogMgr.nextId, LogMgr.getAppContext]

/-- `CloseChan` removes the channel of the id and nothing else. -/
theorem CloseChan_effect (l : LogMgr) (appId : String) (chanId : Nat) :
    (l.CloseChan appId chanId).nextId appId = l.nextId appId
      ∧ (l.CloseChan appId chanId).subscriber appId chanId = none
      ∧ ∀ i, i ≠ chanId → (l.CloseChan appId chanId).subscriber appId i = l.subscriber appId i := by
  have hs := fun i => subscriber_eq l appId i
  refine ⟨by rw [LogMgr.CloseChan, nextId_store]; rfl, ?_, ?_⟩
  · simp [LogMgr.CloseChan, LogMgr.subscriber, LogMgr.store]
  · intro i hi
    rw [hs i]
    simp [LogMgr.CloseChan, LogMgr.subscriber, LogMgr.store, setAt, hi]

/-- Along a sequence of operations with fewer than `2 ^ 64` subscriptions the
counter of the ids counts the subscriptions, and no channel is registered
under an id that the counter has not reached. -/
theorem applyAll_fresh (ops : List LogOp) :
    ∀ (l l1 : LogMgr) (appId : String),
      (∀ i, l.nextId appId ≤ i → l.subscriber appId i = none) →
      l.applyAll appId ops = some l1 →
      l.nextId appId + countTail ops < uintSize →
      l1.nextId appId = l.nextId appId + countTail ops
        ∧ ∀ i, l1.nextId appId ≤ i → l1.subscriber appId i = none := by
  induction ops with
  | nil =>
    intro l l1 appId hinv h _
    simp only [LogMgr.applyAll, Option.some.injEq] at h
    subst h
    exact ⟨rfl, hinv⟩
  | cons op rest ih =>
    intro l l1 appId hinv h hlt
    simp only [LogMgr.applyAll] at h
    cases hop : l.apply appId op with
    | none => simp [hop] at h
    | some l2 =>
      simp only [hop] at h
      cases op with
      | event e =>
        simp only [LogMgr.apply] at hop
        obtain ⟨hn, hs⟩ := step_nextId l l2 appId e hop
        simp only [countTail] at hlt ⊢
        have := ih l2 l1 appId (fun i hi => hs i (hinv i (by omega))) h (by omega)
        rw [hn] at this
        exact this
      | close chanId =>
        simp only [LogMgr.apply, Option.some.injEq] at hop
        subst hop
        obtain ⟨hn, hc, hs⟩ := CloseChan_effect l appId chanId
        simp only [countTail] at hlt ⊢
        have := ih _ l1 appId
          (fun i hi => by
            by_cases hic : i = chanId
            · rw [hic]
              exact hc
            · rw [hs i hic]
              exact hinv i (by omega)) h (by omega)
        rw [hn] at this
        exact this
      | tail tailLines =>
        obtain ⟨l3, hg, _, hs, hn, _, _⟩ := GetTailChan_eq l appId tailLines
        simp only [LogMgr.apply, hg, Option.map_some', Option.some.injEq] at hop
        subst hop
        simp only [countTail] at hlt ⊢
        have hinc : uintInc (l.nextId appId) = l.nextId appId + 1 := by
          unfold uintInc
          exact Nat.mod_eq_of_lt (by omega)
        rw [hinc] at hn
        have := ih _ l1 appId
          (fun i hi => by
            rw [hs i (by omega)]
            exact hinv i (by omega)) h (by omega)
        rw [hn] at this
        refine ⟨by omega, this.2⟩

/-- C21: for every `tailLines`, `GetTailChan(appId, tailLines)` whose `tail`
succeeds returns (no send of `tailFile` has to wait) a channel of capacity
`2 * tailLines` that holds the last `min(tailLines, number of lines)` lines of
the file of the app, in the order of the file and each without its newline;
it holds no line when the file does not exist. The channel is registered
under the id returned, the value of `nextId`, and no other subscriber changes.
In a log manager reached from a new one by writes, handler steps,
subscriptions and `CloseChan` calls with fewer than `2 ^ 64` subscriptions, no
channel was registered under this id before. -/
theorem C21_tail_preload (l : LogMgr) (appId : String) (tailLines : Nat) :
    ∃ l1,
      l.GetTailChan appId tailLines none
          = some (l1, Except.ok (l.nextId appId,
              { cap := tailLines * 2, buf := lastLines tailLines ((l.files appId).getD []) }))
        ∧ lastLines tailLines ((l.files appId).getD [])
          = ((splitLines ((l.files appId).getD [])).drop
              ((splitLines ((l.files appId).getD [])).length - tailLines)).map trimRightNewline
        ∧ (lastLines tailLines ((l.files appId).getD [])).length
          = min tailLines (splitLines ((l.files appId).getD [])).length
        ∧ (splitLines ((l.files appId).getD [])).flatten = (l.files appId).getD []
        ∧ (∀ piece ∈ splitLines ((l.files appId).getD []),
            newline ∉ trimRightNewline piece
              ∧ (piece = trimRightNewline piece ++ [newline] ∨ piece = trimRightNewline piece))
        ∧ (l.files appId = none → lastLines tailLines ((l.files appId).getD []) = [])
        ∧ l1.subscriber appId (l.nextId appId)
          = some { cap := tailLines * 2, buf := lastLines tailLines ((l.files appId).getD []) }
        ∧ (∀ i, i ≠ l.nextId appId → l1.subscriber appId i = l.subscriber appId i)
        ∧ (∀ baseLogDir files ops,
            (NewLogMgr baseLogDir files).applyAll appId ops = some l →
            countTail ops < uintSize →
            l.subscriber appId (l.nextId appId) = none) := by
  obtain ⟨l1, h1, h2, h3, _⟩ := GetTailChan_eq l appId tailLines
  refine ⟨l1, h1, rfl, lastLines_length _ _, splitLines_flatten _,
    fun piece hp => trimRightNewline_piece _ piece hp, ?_, h2, h3, ?_⟩
  · intro hnone
    rw [hnone]
    simp [lastLines, splitLines]
  · intro baseLogDir files ops hops hlt
    have h0 : (NewLogMgr baseLogDir files).nextId appId = 0 := rfl
    have hfresh := applyAll_fresh ops (NewLogMgr baseLogDir files) l appId
      (fun i _ => rfl) hops (by rw [h0]; omega)
    exact hfresh.2 _ (le_refl _)

/-- C21 on a new log manager whose file for "x" holds three lines: the last
two are preloaded. -/
theorem C21_tail_preload_witness :
    ∃ l1,
      (NewLogMgr "/log"
          (fun a => if a = "x" then some (ascii "p\nq\nr\n") else none)).GetTailChan "x" 2 none
        = some (l1, Except.ok (0, { cap := 4, buf := [ascii "q", ascii "r"] })) := by
  obtain ⟨l1, h, _⟩ :=
    C21_tail_preload
      (NewLogMgr "/log" (fun a => if a = "x" then some (ascii "p\nq\nr\n") else none)) "x" 2
  exact ⟨l1, h⟩

end logmgr

/-! # Lines that are not valid UTF-8 -/

namespace server

open logmgr golang

/-- A check of the model of `utf8.Valid` on short inputs. -/
theorem utf8Valid_samples :
    utf8Valid (ascii "plain") = true
      ∧ utf8Valid [195, 169] = true
      ∧ utf8Valid [226, 130, 172] = true
      ∧ utf8Valid [240, 159, 152, 128] = true
      ∧ utf8Valid [255] = false
      ∧ utf8Valid [192, 128] = false
      ∧ utf8Valid [237, 160, 128] = false
      ∧ utf8Valid [195] = false := by
  decide

theorem socketRun_append (a b : List SocketEvent) (s : LogSocket) :
    s.run (a ++ b) = (s.run a).bind (fun s1 => s1.run b) := by
  induction a generalizing s with
  | nil => rfl
  | cons e rest ih =>
    show (match s.step e with
        | some s1 => s1.run (rest ++ b)
        | none => none)
      = (match s.step e with
        | some s1 => s1.run rest
        | none => none).bind (fun s1 => s1.run b)
    cases s.step e with
    | none => rfl
    | some s1 => exact ih s1

/-- C22 (the claim as stated fails): a subscriber of the app "x" is registered
with `GetTailChan`, then the line of the single byte 0xFF, which is not valid
UTF-8, is written and taken by the handler. The line is in the file, and it
has been sent on the channel of the subscriber. -/
theorem C22_invalid_line_is_sent_on_channel :
    utf8Valid [255] = false
      ∧ (subscribedLog.run "x" [LogEvent.write [255], LogEvent.handle FileResult.good]).map
          (fun l => (l.subscriber "x" 0, l.files "x"))
        = some (some { cap := 4, buf := [[255]] }, some [255, 10]) := by
  constructor <;> decide

/-- C22 (amended): a line that is not valid UTF-8 is handled like every other
line by the log handler: without file error it is appended to the file with a
newline, and it is sent on every subscriber channel that has room. It is the
loop of the log WebSocket that drops it when it receives it from its channel:
the state of the loop does not change, so that what is written to the
WebSocket is what would be written had the line not been received. -/
theorem C22_invalid_line_dropped_by_socket (l : LogMgr) (appId : String) (line : Bytes)
    (rest : List Bytes) (hvalid : utf8Valid line = false) (hrun : l.running appId = true)
    (hq : l.queue appId = line :: rest) :
    (∃ l1, l.handleLine appId FileResult.good = some l1
        ∧ (l1.files appId).getD [] = (l.files appId).getD [] ++ (line ++ [newline])
        ∧ ∀ i c, l.subscriber appId i = some c → c.buf.length < c.cap →
            l1.subscriber appId i = some { c with buf := c.buf ++ [line] })
      ∧ (∀ s : LogSocket, s.step (SocketEvent.line line) = some s)
      ∧ ∀ (s : LogSocket) (before after : List SocketEvent),
          s.run (before ++ SocketEvent.line line :: after) = s.run (before ++ after) := by
  refine ⟨?_, ?_, ?_⟩
  · obtain ⟨l1, h1⟩ := handleLine_some l appId line rest FileResult.good hrun hq
    obtain ⟨line1, e1, _, _, _, e5, e6⟩ := handleLine_effect l l1 appId FileResult.good h1
    rw [hq] at e1
    have hl : line = line1 := (List.cons.inj e1).1
    subst hl
    refine ⟨l1, h1, e6 rfl, ?_⟩
    intro i c hc hroom
    rw [e5 i, hc, Option.map_some', (offer_effect c line).2 hroom]
  · intro s
    simp only [LogSocket.step, hvalid, if_true]
  · intro s before after
    rw [socketRun_append, socketRun_append]
    cases s.run before with
    | none => rfl
    | some s1 =>
      simp only [Option.bind, LogSocket.run, LogSocket.step, hvalid, if_true]

/-- C22 (amended) on the line of the single byte 0xFF for the app "x" with a
subscriber. -/
theorem C22_invalid_line_dropped_by_socket_witness :
    (∃ l1, (subscribedLog.WriteLine "x" [255]).1.handleLine "x" FileResult.good = some l1
        ∧ (l1.files "x").getD []
          = ((subscribedLog.WriteLine "x" [255]).1.files "x").getD [] ++ ([255] ++ [newline])
        ∧ ∀ i c, (subscribedLog.WriteLine "x" [255]).1.subscriber "x" i = some c →
            c.buf.length < c.cap →
            l1.subscriber "x" i = some { c with buf := c.buf ++ [[255]] })
      ∧ (∀ s : LogSocket, s.step (SocketEvent.line [255]) = some s) :=
  ⟨(C22_invalid_line_dropped_by_socket (subscribedLog.WriteLine "x" [255]).1 "x" [255] []
      (by decide) (by decide) (by decide)).1,
    (C22_invalid_line_dropped_by_socket (subscribedLog.WriteLine "x" [255]).1 "x" [255] []
      (by decide) (by decide) (by decide)).2.1⟩

end server

/-! # Two concurrent leases -/

namespace cluster

/-- `GetContext` is its locked section followed by the read lock of the
context. -/
theorem GetContext_two_phases (c : Cluster) (appId src wt : String)
    (openResult : Except String OpenContextResp) (dialErr : Option String) :
    c.GetContext appId src wt openResult dialErr
      = match c.lockedSection appId src wt openResult dialErr with
        | none =>
          ({ c with
             AgentNumContexts :=
               setAt c.AgentNumContexts c.bestAgent (uintInc (c.AgentNumContexts c.bestAgent)) },
           Outcome.nilClient)
        | some (c1, Except.error err) => (c1, Outcome.failed err)
        | some (c1, Except.ok context) => c1.rlockAndReturn appId context := by
  unfold Cluster.GetContext Cluster.lockedSection
  cases mapGet c.AppContext appId with
  | some context =>
    simp only
    split <;> rfl
  | none =>
    simp only
    split
    · rfl
    · cases openResult with
      | error err => rfl
      | ok openResp =>
        cases dialErr with
        | some err => rfl
        | none => rfl

/-- A release closure is its `RUnlock` followed by the decrement. -/
theorem call_two_phases (r : ReleaseFn) (c : Cluster) :
    r.call c = (r.runlock c).map (fun c1 => r.decrement c1) := by
  unfold ReleaseFn.call ReleaseFn.runlock ReleaseFn.decrement
  split <;> rfl

/-- Every list of steps is among the schedules of its length. -/
theorem mem_schedules (s : List Bool) : s ∈ schedules s.length := by
  induction s with
  | nil => simp [schedules]
  | cons who rest ih =>
    cases who with
    | true =>
      simp only [List.length_cons, schedules, List.mem_append, List.mem_map]
      exact Or.inl ⟨rest, ih, rfl⟩
    | false =>
      simp only [List.length_cons, schedules, List.mem_append, List.mem_map]
      exact Or.inr ⟨rest, ih, rfl⟩

theorem count_true_add_count_false (s : List Bool) :
    s.count true + s.count false = s.length := by
  induction s with
  | nil => rfl
  | cons who rest ih =>
    cases who <;> simp [List.count_cons] <;> omega

set_option maxRecDepth 100000 in
/-- Every schedule of eight steps, four of them of the first goroutine,
passes the check. -/
theorem schedules_coalesced :
    ∀ s ∈ schedules 8, s.count true = 4 → coalesced s = true := by
  decide

/-- C26: two goroutines call `GetContext("app1", "", "w1")` on a fresh cluster
(empty registry, agent "A") and then their release closure, and their steps
(the section of `GetContext` under `c.mutex`, the read lock of the context, the
`RUnlock` and the decrement of the release closure) interleave in any way,
without delivery of the expiry timer. Then every step can be taken, exactly
one `OpenContext` is issued, both goroutines are given the same context, the
refcount of the app is 0 after both releases, after every step it is the
number of goroutines between their increment and their decrement, and it is 2
at some step unless one goroutine has released before the other one enters
`GetContext`. -/
theorem C26_concurrent_leases_coalesce (schedule : List Bool)
    (h1 : schedule.count true = 4) (h2 : schedule.count false = 4) :
    ∃ r, (Race.init (fresh ["A"])).run schedule = some r
      ∧ countOpen r.c.Trace = 1
      ∧ r.first = Pc.done sampleContext ∧ r.second = Pc.done sampleContext
      ∧ r.c.AppContextRefCount "app1" = 0
      ∧ (∀ e ∈ r.history, e.1 = e.2)
      ∧ ((2, 2) ∈ r.history ↔ sequential schedule = false) := by
  have hlen : schedule.length = 8 := by
    rw [← count_true_add_count_false, h1, h2]
  have hmem : schedule ∈ schedules 8 := hlen ▸ mem_schedules schedule
  have hc := schedules_coalesced schedule hmem h1
  unfold coalesced at hc
  cases hrun : (Race.init (fresh ["A"])).run schedule with
  | none => simp [hrun] at hc
  | some r =>
    simp only [hrun, Race.coalesced, Bool.and_eq_true, decide_eq_true_eq, List.all_eq_true,
      beq_iff_eq] at hc
    obtain ⟨⟨⟨⟨⟨a1, a2⟩, a3⟩, a4⟩, a5⟩, a6⟩ := hc
    refine ⟨r, rfl, a1, a2, a3, a4, a5, ?_⟩
    constructor
    · intro hm
      have : decide ((2, 2) ∈ r.history) = true := by simpa using hm
      rw [this] at a6
      simpa using a6.symm
    · intro hs
      rw [hs] at a6
      simpa using a6

/-- C26 on the schedule in which the two goroutines alternate. -/
theorem C26_concurrent_leases_coalesce_witness :
    ∃ r, (Race.init (fresh ["A"])).run [true, false, true, false, true, false, true, false]
        = some r
      ∧ countOpen r.c.Trace = 1
      ∧ r.first = Pc.done sampleContext ∧ r.second = Pc.done sampleContext
      ∧ r.c.AppContextRefCount "app1" = 0
      ∧ (2, 2) ∈ r.history := by
  obtain ⟨r, h1, h2, h3, h4, h5, _, h7⟩ :=
    C26_concurrent_leases_coalesce [true, false, true, false, true, false, true, false]
      (by decide) (by decide)
  exact ⟨r, h1, h2, h3, h4, h5, h7.2 (by decide)⟩

end cluster

/-! # A tail subscription followed by writes, step by step -/

namespace logmgr

open golang cluster

theorem setAt_setAt {α β : Type} [DecidableEq α] (f : α → β) (k : α) (v w : β) :
    setAt (setAt f k v) k w = setAt f k w := by
  funext x
  simp only [setAt]
  split <;> rfl

/-- An iteration of the handler without interleaving is its two parts, one
after the other. -/
theorem handleLine_two_phases (l : LogMgr) (appId : String) (res : FileResult) :
    l.handleLine appId res = (l.takeLine appId res).map (fun p => p.1.fanOutLine appId p.2) := by
  unfold LogMgr.handleLine LogMgr.takeLine
  cases hac : l.appContext appId with
  | none => rfl
  | some ac =>
    simp only
    cases hrun : ac.handlerRunning with
    | false => simp
    | true =>
      cases hb : ac.inputChan.recv with
      | none => simp
      | some p =>
        obtain ⟨line, inputChan⟩ := p
        simp [LogMgr.fanOutLine, setAt_setAt]

/-- `GetTailChan` without interleaving is `tailFile` followed by the
registration. -/
theorem GetTailChan_two_phases (l : LogMgr) (appId : String) (tailLines : Nat) :
    l.GetTailChan appId tailLines none
      = some
          ((l.register appId
              { cap := tailLines * 2, buf := lastLines tailLines ((l.files appId).getD []) }).1,
            Except.ok
              ((l.register appId
                  { cap := tailLines * 2
                    buf := lastLines tailLines ((l.files appId).getD []) }).2,
                { cap := tailLines * 2, buf := lastLines tailLines ((l.files appId).getD []) })) := by
  simp [LogMgr.GetTailChan, tailFile_eq, LogMgr.register]

/-- The first part of an iteration: the line leaves the queue, the
subscribers are as before. -/
theorem takeLine_effect (l l1 : LogMgr) (appId : String) (res : FileResult) (line : Bytes)
    (h : l.takeLine appId res = some (l1, line)) :
    l.queue appId = line :: l1.queue appId
      ∧ ∀ i, l1.subscriber appId i = l.subscriber appId i := by
  unfold LogMgr.takeLine at h
  cases hac : l.appContext appId with
  | none => simp [hac] at h
  | some ac =>
    simp only [hac] at h
    cases hrun1 : ac.handlerRunning with
    | false => simp [hrun1] at h
    | true =>
      cases hb : ac.inputChan.buf with
      | nil => simp [Chan.recv, hb, hrun1] at h
      | cons line1 rest =>
        simp only [Chan.recv, hb, hrun1, Bool.true_eq_false, if_false, Option.some.injEq,
          Prod.mk.injEq] at h
        obtain ⟨h1, h2⟩ := h
        subst h1
        subst h2
        refine ⟨?_, ?_⟩
        · simp [LogMgr.queue, hac, hb]
        · intro i
          simp [LogMgr.subscriber, hac]

/-- The second part of an iteration: the line is offered to every
subscriber, the queue is as before. -/
theorem fanOutLine_effect (l : LogMgr) (appId : String) (line : Bytes) :
    (l.fanOutLine appId line).queue appId = l.queue appId
      ∧ ∀ i, (l.fanOutLine appId line).subscriber appId i
          = (l.subscriber appId i).map (fun c => c.offer line) := by
  unfold LogMgr.fanOutLine
  cases hac : l.appContext appId with
  | none => simp [LogMgr.queue, LogMgr.subscriber, hac]
  | some ac => simp [LogMgr.queue, LogMgr.subscriber, hac, fanOut]

/-- The registration of a channel leaves the queue as it is. -/
theorem register_effect (l : LogMgr) (appId : String) (outputChan : Chan Bytes) :
    (l.register appId outputChan).1.queue appId = l.queue appId
      ∧ (l.register appId outputChan).1.subscriber appId (l.register appId outputChan).2
          = some outputChan := by
  have hq := queue_eq l appId
  refine ⟨?_, ?_⟩
  · rw [hq]
    simp [LogMgr.register, LogMgr.queue, LogMgr.store]
  · simp [LogMgr.register, LogMgr.subscriber, LogMgr.store]

/-- The effect of a sequence of steps on one app: the lines `done` that the
handler has sent to the subscribers are the beginning of what was pending and
what was written, and a subscriber whose channel has room for them holds them
all afterwards, in order. -/
theorem handlingRun_effect (events : List HandlerEvent) :
    ∀ (s s1 : Handling) (appId : String), s.run appId events = some s1 →
      ∃ done, s.pending appId ++ written events = done ++ s1.pending appId
        ∧ ∀ i c, s.l.subscriber appId i = some c → c.buf.length + done.length ≤ c.cap →
            s1.l.subscriber appId i = some { c with buf := c.buf ++ done } := by
  induction events with
  | nil =>
    intro s s1 appId h
    simp only [Handling.run, Option.some.injEq] at h
    subst h
    exact ⟨[], by simp [written], fun i c hc _ => by simp [hc]⟩
  | cons e rest ih =>
    intro s s1 appId h
    simp only [Handling.run] at h
    cases hstep : s.step appId e with
    | none => simp [hstep] at h
    | some sm =>
      simp only [hstep] at h
      obtain ⟨done, d1, d2⟩ := ih sm s1 appId h
      cases e with
      | write line =>
        simp only [Handling.step] at hstep
        cases hw : s.l.step appId (LogEvent.write line) with
        | none => simp [hw] at hstep
        | some l1 =>
          simp only [hw, Option.some.injEq] at hstep
          subst hstep
          obtain ⟨w1, _, _, w4, _⟩ := step_write s.l l1 appId line hw
          refine ⟨done, ?_, ?_⟩
          · rw [← d1]
            simp [Handling.pending, written, w1]
          · intro i c hc hroom
            exact d2 i c (by simp only; rw [w4 i, hc]) hroom
      | take res =>
        simp only [Handling.step] at hstep
        cases hheld : s.held with
        | some x => simp [hheld] at hstep
        | none =>
          simp only [hheld] at hstep
          cases ht : s.l.takeLine appId res with
          | none => simp [ht] at hstep
          | some p =>
            obtain ⟨l1, line⟩ := p
            simp only [ht, Option.some.injEq] at hstep
            subst hstep
            obtain ⟨t1, t2⟩ := takeLine_effect s.l l1 appId res line ht
            refine ⟨done, ?_, ?_⟩
            · rw [← d1]
              simp [Handling.pending, written, hheld, t1]
            · intro i c hc hroom
              exact d2 i c (by simp only; rw [t2 i, hc]) hroom
      | deliver =>
        simp only [Handling.step] at hstep
        cases hheld : s.held with
        | none => simp [hheld] at hstep
        | some line =>
          simp only [hheld, Option.some.injEq] at hstep
          subst hstep
          obtain ⟨f1, f2⟩ := fanOutLine_effect s.l appId line
          refine ⟨line :: done, ?_, ?_⟩
          · simp only [Handling.pending, written, hheld, Option.toList, List.singleton_append,
              List.cons_append, List.nil_append] at d1 ⊢
            rw [f1] at d1
            rw [d1]
          · intro i c hc hroom
            simp only [List.length_cons] at hroom
            have hlt : c.buf.length < c.cap := by omega
            have hoff := (offer_effect c line).2 hlt
            have := d2 i { c with buf := c.buf ++ [line] }
              (by simp only; rw [f2 i, hc, Option.map_some', hoff])
              (by simp only [List.length_append, List.length_singleton]; omega)
            rw [this]
            simp
      | idle =>
        simp only [Handling.step] at hstep
        cases hheld : s.held with
        | some x => simp [hheld] at hstep
        | none =>
          simp only [hheld] at hstep
          cases hi : s.l.handleIdle appId with
          | none => simp [hi] at hstep
          | some l1 =>
            simp only [hi, Option.some.injEq] at hstep
            subst hstep
            obtain ⟨i1, _, _, i4, _⟩ := handleIdle_effect s.l l1 appId hi
            refine ⟨done, ?_, ?_⟩
            · rw [← d1]
              simp [Handling.pending, written, hheld, i1]
            · intro i c hc hroom
              exact d2 i c (by simp only; rw [i4 i, hc]) hroom

/-- A line that the handler holds at the call is sent twice: for the app "x"
the line "b" was written, and the handler has taken it and written it to the
file when `GetTailChan("x", 1)` is called; the input queue is empty. The
channel (capacity 2) is preloaded with "b" from the file, then the handler
sends "b" to it, and the line "c" written after the call is dropped. -/
theorem held_line_is_sent_twice :
    ((((Handling.mk (NewLogMgr "/log" (fun _ => none)) none).run "x"
          [HandlerEvent.write (ascii "b"), HandlerEvent.take FileResult.good]).bind
        (fun s =>
          (s.l.GetTailChan "x" 1 none).map
            (fun r => (Handling.mk r.1 s.held, s.l.queue "x")))).bind
      (fun p =>
        (p.1.run "x"
          [HandlerEvent.deliver, HandlerEvent.write (ascii "c"),
            HandlerEvent.take FileResult.good, HandlerEvent.deliver]).map
          (fun s => (p.2, s.l.subscriber "x" 0, s.pending "x", s.l.files "x"))))
      = some ([], some { cap := 2, buf := [ascii "b", ascii "b"] }, [], some (ascii "b\nc\n")) := by
  decide

/-- C20 (amended): let no line be pending for the app at the call: the input
queue is empty and the handler holds no line that it has taken and not yet
sent to the subscribers. Then `tailFile` puts the last lines of the file, at
most `k`, into the channel of capacity `2 * k`; and if no line is written
between this and the registration of the channel, then after any sequence of
steps (writes, the two parts of the iterations of the handler, idle timers) in
which `k` lines are written and after which no line is pending, the channel
holds the preloaded lines followed by exactly these `k` lines in order, so that
its last `k` elements are the lines written: none of them is dropped. Without
interleaving, `tailFile` and the registration are `GetTailChan`. -/
theorem C20_tail_then_writes (s : Handling) (appId : String) (k : Nat)
    (hpending : s.pending appId = []) :
    s.l.tailFile appId k (Chan.make (k * 2)) none
        = some (Except.ok
            { cap := k * 2, buf := lastLines k ((s.l.files appId).getD []) })
      ∧ (lastLines k ((s.l.files appId).getD [])).length ≤ k
      ∧ s.l.GetTailChan appId k none
        = some
            ((s.l.register appId
                { cap := k * 2, buf := lastLines k ((s.l.files appId).getD []) }).1,
              Except.ok
                ((s.l.register appId
                    { cap := k * 2, buf := lastLines k ((s.l.files appId).getD []) }).2,
                  { cap := k * 2, buf := lastLines k ((s.l.files appId).getD []) }))
      ∧ ∀ mid s1, s.run appId mid = some s1 → written mid = [] →
          ∀ events s2,
            Handling.run
                { l := (s1.l.register appId
                    { cap := k * 2, buf := lastLines k ((s.l.files appId).getD []) }).1
                  held := s1.held }
                appId events = some s2 →
            (written events).length = k → s2.pending appId = [] →
            s2.l.subscriber appId
                (s1.l.register appId
                  { cap := k * 2, buf := lastLines k ((s.l.files appId).getD []) }).2
              = some
                  { cap := k * 2
                    buf := lastLines k ((s.l.files appId).getD []) ++ written events }
            ∧ (lastLines k ((s.l.files appId).getD []) ++ written events).drop
                ((lastLines k ((s.l.files appId).getD []) ++ written events).length - k)
              = written events := by
  have hlen : (lastLines k ((s.l.files appId).getD [])).length ≤ k := by
    rw [lastLines_length]
    omega
  refine ⟨tailFile_eq s.l appId k, hlen, GetTailChan_two_phases s.l appId k, ?_⟩
  intro mid s1 hmid hnone events s2 hrun hk hend
  obtain ⟨done1, m1, _⟩ := handlingRun_effect mid s s1 appId hmid
  rw [hpending, hnone, List.nil_append] at m1
  have hp1 : s1.pending appId = [] := (List.append_eq_nil.1 m1.symm).2
  obtain ⟨r1, r2⟩ := register_effect s1.l appId
    { cap := k * 2, buf := lastLines k ((s.l.files appId).getD []) }
  obtain ⟨done, d1, d2⟩ := handlingRun_effect events _ s2 appId hrun
  have hstart : Handling.pending
      { l := (s1.l.register appId
          { cap := k * 2, buf := lastLines k ((s.l.files appId).getD []) }).1
        held := s1.held } appId = [] := by
    simp only [Handling.pending, r1]
    exact hp1
  rw [hstart, hend, List.nil_append, List.append_nil] at d1
  subst d1
  refine ⟨?_, ?_⟩
  · rw [d2 _ _ r2 (by simp only; omega)]
  · rw [List.length_append, hk, Nat.add_sub_cancel, List.drop_left]

/-- C20 (amended) at `k = 2` on a new log manager whose file for "x" holds
the lines "p", "q", "r": after the subscription and the lines "c" and "d",
written and handled one after the other, the channel holds "q", "r", "c",
"d". -/
theorem C20_tail_then_writes_witness :
    threeLineFile.pending "x" = []
      ∧ ∃ l1 s2,
        threeLineFile.l.GetTailChan "x" 2 none
            = some (l1, Except.ok (0, { cap := 4, buf := [ascii "q", ascii "r"] }))
          ∧ Handling.run { l := l1, held := none } "x" twoWrites = some s2
          ∧ s2.l.subscriber "x" 0
            = some { cap := 4, buf := [ascii "q", ascii "r", ascii "c", ascii "d"] } := by
  refine ⟨rfl,
    (threeLineFile.l.register "x"
      { cap := 2 * 2, buf := lastLines 2 ((threeLineFile.l.files "x").getD []) }).1,
    (Handling.run
      { l := (threeLineFile.l.register "x"
          { cap := 2 * 2, buf := lastLines 2 ((threeLineFile.l.files "x").getD []) }).1
        held := none } "x" twoWrites).getD threeLineFile,
    (C20_tail_then_writes threeLineFile "x" 2 rfl).2.2.1, rfl, ?_⟩
  exact ((C20_tail_then_writes threeLineFile "x" 2 rfl).2.2.2 [] threeLineFile rfl rfl
    twoWrites _ rfl (by decide) (by decide)).1

end logmgr
